import Mathlib

/-!
# argocd-operator: permission-chain convergence

A shallow embedding of `controllers/argocd/rolebinding.go`,
`controllers/argoutil/env.go` and `controllers/argocd/custommapper.go`.
Kubernetes objects are records carrying the fields the controller reads or
writes, Go maps are association lists, and the object store behind `r.Client`
is an explicit value threaded through every call.  Each store call is recorded,
with its outcome, in a trace so that statements about which calls are issued
can be expressed.  The mappers read the store through the answers it gives,
and return the reads they issue along with their result.
-/

namespace ArgoCDOperator

/-! ## Kubernetes data model -/

/-- Go `map[string]string`, kept as an association list with unique keys. -/
abbrev StrMap := List (String × String)

/-- Map read `m[k]` with the comma-ok result. -/
def mapGet (m : StrMap) (k : String) : Option String :=
  (m.find? (fun p => p.1 = k)).map (fun p => p.2)

/-- Map write `m[k] = v`: the entry for `k` is overwritten, or added. -/
def mapSet : StrMap → String → String → StrMap
  | [], k, v => [(k, v)]
  | p :: ps, k, v => if p.1 = k then (k, v) :: ps else p :: mapSet ps k v

/-- Record `metav1.OwnerReference`. -/
structure OwnerReference where
  APIVersion : String
  Kind : String
  Name : String
  UID : String
  Controller : Bool
  BlockOwnerDeletion : Bool
deriving DecidableEq, Repr

/-- Record `metav1.ObjectMeta`, restricted to the fields the controller touches. -/
structure ObjectMeta where
  Name : String := ""
  Namespace : String := ""
  UID : String := ""
  Labels : StrMap := []
  Annotations : StrMap := []
  OwnerReferences : List OwnerReference := []
deriving DecidableEq, Repr

/-- Record `rbacv1.Subject`. -/
structure Subject where
  Kind : String := ""
  APIGroup : String := ""
  Name : String := ""
  Namespace : String := ""
deriving DecidableEq, Repr

/-- Record `rbacv1.RoleRef`. -/
structure RoleRef where
  APIGroup : String := ""
  Kind : String := ""
  Name : String := ""
deriving DecidableEq, Repr

/-- Record `rbacv1.PolicyRule`. -/
structure PolicyRule where
  APIGroups : List String := []
  Resources : List String := []
  Verbs : List String := []
deriving DecidableEq, Repr

/-- Record `rbacv1.RoleBinding`. -/
structure RoleBinding extends ObjectMeta where
  Subjects : List Subject := []
  RoleRef : RoleRef := {}
deriving DecidableEq, Repr

/-- Record `rbacv1.Role`. -/
structure Role extends ObjectMeta where
  Rules : List PolicyRule := []
deriving DecidableEq, Repr

/-- Record `corev1.ServiceAccount`. -/
structure ServiceAccount extends ObjectMeta
deriving DecidableEq, Repr

/-- The specification object `argoprojv1a1.ArgoCD` (metadata only). -/
structure ArgoCD extends ObjectMeta
deriving DecidableEq, Repr

/-- Record `types.NamespacedName`. -/
structure NamespacedName where
  Namespace : String := ""
  Name : String := ""
deriving DecidableEq, Repr

/-- Constant `rbacv1.ServiceAccountKind`. -/
def ServiceAccountKind : String := "ServiceAccount"

/-- Constant `rbacv1.GroupName`. -/
def GroupName : String := "rbac.authorization.k8s.io"

/-! ## Errors -/

/-- Transient or fatal store failures that are not "expected" outcomes:
the Conflict, ValidationFailure and StoreUnavailable classes. -/
inductive Fault
  | conflict
  | invalid
  | unavailable
deriving DecidableEq, Repr

/-- Go `error` values that occur in the modelled code. -/
inductive Err
  | notFound
  | alreadyExists
  | fault (f : Fault)
  | other (msg : String)
  | wrapped (msg : String) (inner : Err)
deriving DecidableEq, Repr

/-- Predicate `errors.IsNotFound`. -/
def IsNotFound (e : Err) : Bool :=
  match e with
  | Err.notFound => true
  | _ => false

/-! ## The object store -/

/-- The key under which a binding is stored. -/
def RoleBinding.key (rb : RoleBinding) : NamespacedName :=
  { Namespace := rb.Namespace, Name := rb.Name }

/-- Stored binding under a key, if any. -/
def storeGet (s : List RoleBinding) (k : NamespacedName) : Option RoleBinding :=
  s.find? (fun rb => rb.key = k)

/-- Replace the stored binding that has the key of `rb`. -/
def storeUpdate : List RoleBinding → RoleBinding → List RoleBinding
  | [], _ => []
  | x :: xs, rb => if x.key = rb.key then rb :: xs else x :: storeUpdate xs rb

/-- Remove whatever is stored under a key. -/
def storeDelete (s : List RoleBinding) (k : NamespacedName) : List RoleBinding :=
  s.filter (fun rb => rb.key ≠ k)

/-- One recorded call: the delegated steps and the binding calls on `r.Client`,
each with its outcome. -/
inductive Op
  | reconcileServiceAccount (name : String) (err : Option Err)
  | reconcileRole (name : String) (err : Option Err)
  | get (key : NamespacedName) (found : Option RoleBinding) (err : Option Err)
  | create (obj : RoleBinding) (err : Option Err)
  | update (obj : RoleBinding) (err : Option Err)
  | delete (obj : RoleBinding) (err : Option Err)
deriving DecidableEq, Repr

/-- The store as seen by one pass: the bindings it holds, the failures the
store will inject into the coming calls (one entry per call, `none` for a call
that is served normally), and the calls recorded so far. -/
structure World where
  bindings : List RoleBinding := []
  faults : List (Option Fault) := []
  trace : List Op := []
deriving DecidableEq, Repr

/-- The failure the store injects into the next call, if any. -/
def World.nextFault (w : World) : Option Fault :=
  match w.faults with
  | [] => none
  | f :: _ => f

/-- The world after one store call: the bindings it leaves, the failure
schedule advanced by one entry, and the call recorded. -/
def World.record (w : World) (bindings : List RoleBinding) (op : Op) : World :=
  { bindings := bindings, faults := w.faults.tail, trace := w.trace ++ [op] }

/-- Call `Client.Get` for a binding: the stored object or NotFound. -/
def clientGet (key : NamespacedName) (w : World) : Except Err RoleBinding × World :=
  match w.nextFault with
  | some f => (.error (.fault f), w.record w.bindings (Op.get key none (some (.fault f))))
  | none =>
    match storeGet w.bindings key with
    | some rb => (.ok rb, w.record w.bindings (Op.get key (some rb) none))
    | none => (.error .notFound, w.record w.bindings (Op.get key none (some .notFound)))

/-- Call `Client.Create`: fails with AlreadyExists when the key is taken. -/
def clientCreate (obj : RoleBinding) (w : World) : Except Err Unit × World :=
  match w.nextFault with
  | some f => (.error (.fault f), w.record w.bindings (Op.create obj (some (.fault f))))
  | none =>
    match storeGet w.bindings obj.key with
    | some _ => (.error .alreadyExists, w.record w.bindings (Op.create obj (some .alreadyExists)))
    | none => (.ok (), w.record (w.bindings ++ [obj]) (Op.create obj none))

/-- Call `Client.Update`: fails with NotFound when nothing is stored under the key. -/
def clientUpdate (obj : RoleBinding) (w : World) : Except Err Unit × World :=
  match w.nextFault with
  | some f => (.error (.fault f), w.record w.bindings (Op.update obj (some (.fault f))))
  | none =>
    match storeGet w.bindings obj.key with
    | none => (.error .notFound, w.record w.bindings (Op.update obj (some .notFound)))
    | some _ => (.ok (), w.record (storeUpdate w.bindings obj) (Op.update obj none))

/-- Call `Client.Delete`: fails with NotFound when nothing is stored under the key. -/
def clientDelete (obj : RoleBinding) (w : World) : Except Err Unit × World :=
  match w.nextFault with
  | some f => (.error (.fault f), w.record w.bindings (Op.delete obj (some (.fault f))))
  | none =>
    match storeGet w.bindings obj.key with
    | none => (.error .notFound, w.record w.bindings (Op.delete obj (some .notFound)))
    | some _ => (.ok (), w.record (storeDelete w.bindings obj.key) (Op.delete obj none))

/-! ## Owner references (`controllerutil.SetControllerReference`) -/

/-- The controller reference that names the specification as owner. -/
def controllerRef (cr : ArgoCD) : OwnerReference :=
  { APIVersion := "argoproj.io/v1alpha1", Kind := "ArgoCD", Name := cr.Name, UID := cr.UID,
    Controller := true, BlockOwnerDeletion := true }

/-- Two references name the same owner (group, kind and name agree). -/
def referSameObject (a b : OwnerReference) : Bool :=
  a.APIVersion = b.APIVersion && a.Kind = b.Kind && a.Name = b.Name

/-- Insert the reference, or overwrite the one naming the same owner. -/
def upsertOwnerRef (ref : OwnerReference) : List OwnerReference → List OwnerReference
  | [] => [ref]
  | r :: rs => if referSameObject r ref then ref :: rs else r :: upsertOwnerRef ref rs

/-- Library call `controllerutil.SetControllerReference` on object metadata: a
namespaced owner must live in the namespace of the object, and an object that
already has a different controller is refused. -/
def SetControllerReference (cr : ArgoCD) (m : ObjectMeta) : Except Err ObjectMeta :=
  if cr.Namespace ≠ "" ∧ m.Namespace = "" then
    .error (.other "cluster-scoped resource must not have a namespace-scoped owner")
  else if cr.Namespace ≠ "" ∧ cr.Namespace ≠ m.Namespace then
    .error (.other "cross-namespace owner references are disallowed")
  else
    match m.OwnerReferences.find? (fun r => r.Controller) with
    | some existing =>
      if referSameObject existing (controllerRef cr) then
        .ok { m with OwnerReferences := upsertOwnerRef (controllerRef cr) m.OwnerReferences }
      else .error (.other "Object is already owned by another controller")
    | none => .ok { m with OwnerReferences := upsertOwnerRef (controllerRef cr) m.OwnerReferences }

/-! ## `rolebinding.go` -/

/-- The parts of the operator that `rolebinding.go` uses and that live in other
files: constants, the label and annotation builders, the process environment
read by `isDexDisabled`, and the two delegated reconcile steps (given by their
outcome for a role identifier and specification). -/
structure Config where
  ArgoCDKeyName : String
  dexServer : String
  isDexDisabled : Bool
  LabelsForCluster : ArgoCD → StrMap
  AnnotationsForCluster : ArgoCD → StrMap
  reconcileServiceAccount : String → ArgoCD → Except Err ServiceAccount
  reconcileRole : String → List PolicyRule → ArgoCD → Except Err (List Role)

/-- Source `newRoleBinding`: a new RoleBinding instance. -/
def newRoleBinding (cfg : Config) (cr : ArgoCD) : RoleBinding :=
  { Name := cr.Name,
    Labels := cfg.LabelsForCluster cr,
    Annotations := cfg.AnnotationsForCluster cr,
    Namespace := cr.Namespace }

/-- Source `newRoleBindingWithname`: a new RoleBinding with the given name for
the given ArgoCD. -/
def newRoleBindingWithname (cfg : Config) (name : String) (cr : ArgoCD) : RoleBinding :=
  let roleBinding := newRoleBinding cfg cr
  let roleBinding := { roleBinding with Name := cr.Name ++ "-" ++ name }
  let labels := roleBinding.Labels
  let labels := mapSet labels cfg.ArgoCDKeyName name
  { roleBinding with Labels := labels }

/-- The subject and role reference assigned to the desired binding
(lines 121 to 132 of the source). -/
def withSubjectAndRoleRef (roleBinding : RoleBinding) (sa : ServiceAccount) (role : Role) :
    RoleBinding :=
  { roleBinding with
    Subjects := [{ Kind := ServiceAccountKind, Name := sa.Name, Namespace := sa.Namespace }],
    RoleRef := { APIGroup := GroupName, Kind := "Role", Name := role.Name } }

/-- The tail of the loop body (lines 157 to 165): set the owner reference only
for a binding in the namespace of the specification, then create. -/
def setOwnerAndCreate (cr : ArgoCD) (roleBinding : RoleBinding) (w : World) :
    Except Err Unit × World :=
  if cr.Namespace = roleBinding.Namespace then
    match SetControllerReference cr roleBinding.toObjectMeta with
    | .error err =>
      (.error (.wrapped ("failed to set ArgoCD CR \"" ++ cr.Name ++ "\" as owner for roleBinding \""
        ++ roleBinding.Name ++ "\"") err), w)
    | .ok m => clientCreate { roleBinding with toObjectMeta := m } w
  else clientCreate roleBinding w

/-- One iteration of the loop of `reconcileRoleBinding` (lines 102 to 166), for
one role returned by the rule-object step. -/
def reconcileRoleBindingFor (cfg : Config) (name : String) (cr : ArgoCD) (sa : ServiceAccount)
    (role : Role) (w : World) : Except Err Unit × World :=
  -- get expected name
  let roleBinding := { newRoleBindingWithname cfg name cr with Namespace := role.Namespace }
  -- fetch existing rolebinding by name
  match clientGet { Name := roleBinding.Name, Namespace := roleBinding.Namespace } w with
  | (.error err, w1) =>
    if !IsNotFound err then
      (.error (.wrapped ("failed to get the rolebinding associated with " ++ name) err), w1)
    else if name = cfg.dexServer ∧ cfg.isDexDisabled = true then
      (.ok (), w1) -- Dex is disabled, do nothing
    else
      setOwnerAndCreate cr (withSubjectAndRoleRef roleBinding sa role) w1
  | (.ok existingRoleBinding, w1) =>
    let roleBinding := withSubjectAndRoleRef roleBinding sa role
    if name = cfg.dexServer ∧ cfg.isDexDisabled = true then
      -- Delete any existing RoleBinding created for Dex
      clientDelete existingRoleBinding w1
    else if roleBinding.RoleRef ≠ existingRoleBinding.RoleRef then
      -- if the RoleRef changes, delete the existing role binding and create a new one
      match clientDelete existingRoleBinding w1 with
      | (.error err, w2) => (.error err, w2)
      | (.ok _, w2) => setOwnerAndCreate cr roleBinding w2
    else
      clientUpdate { existingRoleBinding with Subjects := roleBinding.Subjects } w1

/-- The loop over the roles: the first failing iteration ends the pass. -/
def reconcileRoleBindingLoop (cfg : Config) (name : String) (cr : ArgoCD) (sa : ServiceAccount) :
    List Role → World → Except Err Unit × World
  | [], w => (.ok (), w)
  | role :: roles, w =>
    match reconcileRoleBindingFor cfg name cr sa role w with
    | (.error err, w1) => (.error err, w1)
    | (.ok _, w1) => reconcileRoleBindingLoop cfg name cr sa roles w1

/-- Source `reconcileRoleBinding`: creates RoleBindings for every role and
associates it with the right ServiceAccount, in all the namespaces managed by
the ArgoCD instance. -/
def reconcileRoleBinding (cfg : Config) (name : String) (rules : List PolicyRule) (cr : ArgoCD)
    (w : World) : Except Err Unit × World :=
  match cfg.reconcileServiceAccount name cr with
  | .error err =>
    (.error err, { w with trace := w.trace ++ [Op.reconcileServiceAccount name (some err)] })
  | .ok sa =>
    match cfg.reconcileRole name rules cr with
    | .error err =>
      (.error err,
        { w with trace := w.trace ++
            [Op.reconcileServiceAccount name none, Op.reconcileRole name (some err)] })
    | .ok roles =>
      reconcileRoleBindingLoop cfg name cr sa roles
        { w with trace := w.trace ++
            [Op.reconcileServiceAccount name none, Op.reconcileRole name none] }

deriving instance DecidableEq for Except

/-! ## Vocabulary for the statements -/

/-- The key of the binding for a role identifier in the namespace of a role. -/
def bindingKey (name : String) (cr : ArgoCD) (role : Role) : NamespacedName :=
  { Namespace := role.Namespace, Name := cr.Name ++ "-" ++ name }

/-- The subject that names a service account. -/
def subjectFor (sa : ServiceAccount) : Subject :=
  { Kind := ServiceAccountKind, Name := sa.Name, Namespace := sa.Namespace }

/-- The reference to a Role by name. -/
def roleRefFor (role : Role) : RoleRef :=
  { APIGroup := GroupName, Kind := "Role", Name := role.Name }

/-- The desired binding of one iteration, before the owner reference is set. -/
def desiredRoleBinding (cfg : Config) (name : String) (cr : ArgoCD) (sa : ServiceAccount)
    (role : Role) : RoleBinding :=
  withSubjectAndRoleRef { newRoleBindingWithname cfg name cr with Namespace := role.Namespace }
    sa role

/-- The binding that an iteration submits to `Client.Create`. -/
def createdRoleBinding (cfg : Config) (name : String) (cr : ArgoCD) (sa : ServiceAccount)
    (role : Role) : RoleBinding :=
  if cr.Namespace = role.Namespace then
    { desiredRoleBinding cfg name cr sa role with OwnerReferences := [controllerRef cr] }
  else desiredRoleBinding cfg name cr sa role

/-- The optional role while its flag is disabled. -/
def dexOff (cfg : Config) (name : String) : Prop :=
  name = cfg.dexServer ∧ cfg.isDexDisabled = true

instance (cfg : Config) (name : String) : Decidable (dexOff cfg name) := by
  unfold dexOff; exact inferInstance

/-- The call is a Create, Update or Delete. -/
def Op.isWrite : Op → Bool
  | .create _ _ => true
  | .update _ _ => true
  | .delete _ _ => true
  | _ => false

/-- The call is a call on the store (not a delegated step). -/
def Op.isStoreCall : Op → Bool
  | .reconcileServiceAccount _ _ => false
  | .reconcileRole _ _ => false
  | _ => true

/-- The namespace a store call addresses. -/
def Op.targetNamespace : Op → Option String
  | .get key _ _ => some key.Namespace
  | .create obj _ => some obj.Namespace
  | .update obj _ => some obj.Namespace
  | .delete obj _ => some obj.Namespace
  | _ => none

/-- The error a call returned, if any. -/
def Op.err : Op → Option Err
  | .reconcileServiceAccount _ e => e
  | .reconcileRole _ e => e
  | .get _ _ e => e
  | .create _ e => e
  | .update _ e => e
  | .delete _ e => e

/-- The call failed; a Get that reports NotFound has not failed. -/
def Op.failed : Op → Bool
  | .get _ _ (some e) => !IsNotFound e
  | .get _ _ none => false
  | op => op.err.isSome

/-- The effect of one recorded call on the stored bindings: only a successful
write changes them. -/
def applyOp (s : List RoleBinding) : Op → List RoleBinding
  | .create obj none => s ++ [obj]
  | .update obj none => storeUpdate s obj
  | .delete obj none => storeDelete s obj.key
  | _ => s

/-- The bindings obtained by applying recorded calls in order. -/
def replay (ops : List Op) (s : List RoleBinding) : List RoleBinding :=
  ops.foldl applyOp s

/-- The possible courses of one iteration, as the calls it issues and the world
it leaves. -/
inductive StepOutcome (cfg : Config) (name : String) (cr : ArgoCD) (sa : ServiceAccount)
    (role : Role) (w : World) : Except Err Unit × World → Prop
  | getFault (f : Fault) (hf : w.nextFault = some f) :
    StepOutcome cfg name cr sa role w
      (.error (.wrapped ("failed to get the rolebinding associated with " ++ name) (.fault f)),
        w.record w.bindings (Op.get (bindingKey name cr role) none (some (.fault f))))
  | absentDisabled (hf : w.nextFault = none)
      (hg : storeGet w.bindings (bindingKey name cr role) = none) (hd : dexOff cfg name) :
    StepOutcome cfg name cr sa role w
      (.ok (), w.record w.bindings (Op.get (bindingKey name cr role) none (some .notFound)))
  | absentCreateFault (f : Fault) (hf : w.nextFault = none)
      (hg : storeGet w.bindings (bindingKey name cr role) = none) (hd : ¬ dexOff cfg name)
      (hf1 : (w.record w.bindings
        (Op.get (bindingKey name cr role) none (some .notFound))).nextFault = some f) :
    StepOutcome cfg name cr sa role w
      (.error (.fault f),
        (w.record w.bindings (Op.get (bindingKey name cr role) none (some .notFound))).record
          w.bindings (Op.create (createdRoleBinding cfg name cr sa role) (some (.fault f))))
  | absentCreate (hf : w.nextFault = none)
      (hg : storeGet w.bindings (bindingKey name cr role) = none) (hd : ¬ dexOff cfg name)
      (hf1 : (w.record w.bindings
        (Op.get (bindingKey name cr role) none (some .notFound))).nextFault = none) :
    StepOutcome cfg name cr sa role w
      (.ok (),
        (w.record w.bindings (Op.get (bindingKey name cr role) none (some .notFound))).record
          (w.bindings ++ [createdRoleBinding cfg name cr sa role])
          (Op.create (createdRoleBinding cfg name cr sa role) none))
  | foundDisabledFault (old : RoleBinding) (f : Fault) (hf : w.nextFault = none)
      (hg : storeGet w.bindings (bindingKey name cr role) = some old) (hd : dexOff cfg name)
      (hf1 : (w.record w.bindings
        (Op.get (bindingKey name cr role) (some old) none)).nextFault = some f) :
    StepOutcome cfg name cr sa role w
      (.error (.fault f),
        (w.record w.bindings (Op.get (bindingKey name cr role) (some old) none)).record
          w.bindings (Op.delete old (some (.fault f))))
  | foundDisabled (old : RoleBinding) (hf : w.nextFault = none)
      (hg : storeGet w.bindings (bindingKey name cr role) = some old) (hd : dexOff cfg name)
      (hf1 : (w.record w.bindings
        (Op.get (bindingKey name cr role) (some old) none)).nextFault = none) :
    StepOutcome cfg name cr sa role w
      (.ok (),
        (w.record w.bindings (Op.get (bindingKey name cr role) (some old) none)).record
          (storeDelete w.bindings (bindingKey name cr role)) (Op.delete old none))
  | staleDeleteFault (old : RoleBinding) (f : Fault) (hf : w.nextFault = none)
      (hg : storeGet w.bindings (bindingKey name cr role) = some old) (hd : ¬ dexOff cfg name)
      (hr : old.RoleRef ≠ roleRefFor role)
      (hf1 : (w.record w.bindings
        (Op.get (bindingKey name cr role) (some old) none)).nextFault = some f) :
    StepOutcome cfg name cr sa role w
      (.error (.fault f),
        (w.record w.bindings (Op.get (bindingKey name cr role) (some old) none)).record
          w.bindings (Op.delete old (some (.fault f))))
  | staleCreateFault (old : RoleBinding) (f : Fault) (hf : w.nextFault = none)
      (hg : storeGet w.bindings (bindingKey name cr role) = some old) (hd : ¬ dexOff cfg name)
      (hr : old.RoleRef ≠ roleRefFor role)
      (hf1 : (w.record w.bindings
        (Op.get (bindingKey name cr role) (some old) none)).nextFault = none)
      (hf2 : ((w.record w.bindings (Op.get (bindingKey name cr role) (some old) none)).record
          (storeDelete w.bindings (bindingKey name cr role)) (Op.delete old none)).nextFault
            = some f) :
    StepOutcome cfg name cr sa role w
      (.error (.fault f),
        ((w.record w.bindings (Op.get (bindingKey name cr role) (some old) none)).record
          (storeDelete w.bindings (bindingKey name cr role)) (Op.delete old none)).record
          (storeDelete w.bindings (bindingKey name cr role))
          (Op.create (createdRoleBinding cfg name cr sa role) (some (.fault f))))
  | staleRecreate (old : RoleBinding) (hf : w.nextFault = none)
      (hg : storeGet w.bindings (bindingKey name cr role) = some old) (hd : ¬ dexOff cfg name)
      (hr : old.RoleRef ≠ roleRefFor role)
      (hf1 : (w.record w.bindings
        (Op.get (bindingKey name cr role) (some old) none)).nextFault = none)
      (hf2 : ((w.record w.bindings (Op.get (bindingKey name cr role) (some old) none)).record
          (storeDelete w.bindings (bindingKey name cr role)) (Op.delete old none)).nextFault
            = none) :
    StepOutcome cfg name cr sa role w
      (.ok (),
        ((w.record w.bindings (Op.get (bindingKey name cr role) (some old) none)).record
          (storeDelete w.bindings (bindingKey name cr role)) (Op.delete old none)).record
          (storeDelete w.bindings (bindingKey name cr role)
            ++ [createdRoleBinding cfg name cr sa role])
          (Op.create (createdRoleBinding cfg name cr sa role) none))
  | sameUpdateFault (old : RoleBinding) (f : Fault) (hf : w.nextFault = none)
      (hg : storeGet w.bindings (bindingKey name cr role) = some old) (hd : ¬ dexOff cfg name)
      (hr : old.RoleRef = roleRefFor role)
      (hf1 : (w.record w.bindings
        (Op.get (bindingKey name cr role) (some old) none)).nextFault = some f) :
    StepOutcome cfg name cr sa role w
      (.error (.fault f),
        (w.record w.bindings (Op.get (bindingKey name cr role) (some old) none)).record
          w.bindings (Op.update { old with Subjects := [subjectFor sa] } (some (.fault f))))
  | sameUpdate (old : RoleBinding) (hf : w.nextFault = none)
      (hg : storeGet w.bindings (bindingKey name cr role) = some old) (hd : ¬ dexOff cfg name)
      (hr : old.RoleRef = roleRefFor role)
      (hf1 : (w.record w.bindings
        (Op.get (bindingKey name cr role) (some old) none)).nextFault = none) :
    StepOutcome cfg name cr sa role w
      (.ok (),
        (w.record w.bindings (Op.get (bindingKey name cr role) (some old) none)).record
          (storeUpdate w.bindings { old with Subjects := [subjectFor sa] })
          (Op.update { old with Subjects := [subjectFor sa] } none))

/-- The calls recorded between an earlier and a later world of one pass. -/
def issued (w w1 : World) : List Op :=
  w1.trace.drop w.trace.length

/-- No call in the list failed. -/
def Clean (ops : List Op) : Prop :=
  ∀ op ∈ ops, op.failed = false

/-- The calls one iteration may issue for a role. -/
inductive StepOp (cfg : Config) (name : String) (cr : ArgoCD) (sa : ServiceAccount)
    (role : Role) : Op → Prop
  | get (found : Option RoleBinding) (e : Option Err) :
    StepOp cfg name cr sa role (Op.get (bindingKey name cr role) found e)
  | create (e : Option Err) (hd : ¬ dexOff cfg name) :
    StepOp cfg name cr sa role (Op.create (createdRoleBinding cfg name cr sa role) e)
  | delete (old : RoleBinding) (e : Option Err) (hk : old.key = bindingKey name cr role)
      (h : dexOff cfg name ∨ old.RoleRef ≠ roleRefFor role) :
    StepOp cfg name cr sa role (Op.delete old e)
  | update (old : RoleBinding) (e : Option Err) (hk : old.key = bindingKey name cr role)
      (hd : ¬ dexOff cfg name) (hr : old.RoleRef = roleRefFor role) :
    StepOp cfg name cr sa role (Op.update { old with Subjects := [subjectFor sa] } e)

/-- How a run ends: without a failed call, or with exactly one, the last, whose
error is returned as it is or wrapped in a message. -/
def EndsWith (res : Except Err Unit) (ops : List Op) : Prop :=
  (res = .ok () ∧ Clean ops) ∨
    ∃ pre op e, ops = pre ++ [op] ∧ Clean pre ∧ op.failed = true ∧ op.err = some e ∧
      (res = .error e ∨ ∃ msg, res = .error (.wrapped msg e))

/-- Every Update in the list rewrites a binding that a Get in the list returned,
changing nothing but its subjects. -/
def UpdatesFollowFetch (ops : List Op) : Prop :=
  ∀ rb e, Op.update rb e ∈ ops →
    ∃ old, Op.get rb.key (some old) none ∈ ops ∧ rb = { old with Subjects := rb.Subjects }

/-- The binding of a role is settled in a store: absent for the disabled role,
present with the desired subject and role reference otherwise. -/
def Settled (cfg : Config) (name : String) (cr : ArgoCD) (sa : ServiceAccount)
    (b : List RoleBinding) (role : Role) : Prop :=
  if dexOff cfg name then storeGet b (bindingKey name cr role) = none
  else ∃ rb, storeGet b (bindingKey name cr role) = some rb ∧
    rb.Subjects = [subjectFor sa] ∧ rb.RoleRef = roleRefFor role

/-- The world in which the loop starts: both delegated steps are recorded. -/
def afterSteps (name : String) (w : World) : World :=
  { w with trace := w.trace ++
      [Op.reconcileServiceAccount name none, Op.reconcileRole name none] }

/-- The calls of a loop that finds each of the given bindings as it should be:
each one is fetched, then rewritten by an Update. -/
def rewriteOps : List RoleBinding → List Op
  | [] => []
  | rb :: rest => Op.get rb.key (some rb) none :: Op.update rb none :: rewriteOps rest

/-! ## A concrete scenario -/

/-- The specification `argocd` in namespace `argocd`. -/
def demoCR : ArgoCD := { Name := "argocd", Namespace := "argocd", UID := "u1" }

/-- A role in the given namespace with the given name. -/
def demoRole (ns name : String) : Role := { Name := name, Namespace := ns }

/-- The service account returned by the identity step of the scenario. -/
def demoSA : ServiceAccount := { Name := "argocd-xrb", Namespace := "argocd" }

/-- A configuration whose delegated steps have the given outcomes. -/
def demoConfig (disabled : Bool) (sa : Except Err ServiceAccount)
    (roles : Except Err (List Role)) : Config :=
  { ArgoCDKeyName := "app.kubernetes.io/name",
    dexServer := "dex-server",
    isDexDisabled := disabled,
    LabelsForCluster := fun cr => [("app.kubernetes.io/name", cr.Name)],
    AnnotationsForCluster := fun _ => [],
    reconcileServiceAccount := fun _ _ => sa,
    reconcileRole := fun _ _ _ => roles }

/-- Three governed namespaces: the one of the specification and two others. -/
def demoRoles : List Role :=
  [demoRole "argocd" "argocd-xrb", demoRole "team-a" "argocd-xrb", demoRole "team-b" "argocd-xrb"]

/-- The configuration of the scenario for the role identifier `xrb`. -/
def demoXrb : Config := demoConfig false (.ok demoSA) (.ok demoRoles)

/-- A stored binding with the given name, namespace, role reference name and
subject name. -/
def demoBinding (name ns refName subjName : String) : RoleBinding :=
  { Name := name, Namespace := ns,
    Labels := [("app.kubernetes.io/name", "xrb")],
    Subjects := [{ Kind := "ServiceAccount", Name := subjName, Namespace := "argocd" }],
    RoleRef := { APIGroup := "rbac.authorization.k8s.io", Kind := "Role", Name := refName } }

/-- A store in which the binding is absent from `argocd`, present and correct
in `team-a`, and present with another role reference and subject in `team-b`. -/
def demoWorld : World :=
  { bindings := [demoBinding "argocd-xrb" "team-a" "argocd-xrb" "argocd-xrb",
      demoBinding "argocd-xrb" "team-b" "not-xrb" "not-xrb"] }

/-- The Dex role with its flag disabled, governed in the namespace `argocd`. -/
def demoDexOff : Config :=
  demoConfig true (.ok demoSA) (.ok [demoRole "argocd" "argocd-dex-server"])

/-- A store that holds the binding of the Dex role. -/
def demoDexWorld : World :=
  { bindings := [demoBinding "argocd-dex-server" "argocd" "argocd-dex-server"
      "argocd-dex-server"] }

/-! ## `rolebinding.go`: the cluster-scope variant -/

/-- Record `rbacv1.ClusterRoleBinding`: it has the fields of a RoleBinding. The
store of cluster bindings is a world of its own, in which every object is kept
under its name with an empty namespace. -/
abbrev ClusterRoleBinding := RoleBinding

/-- Record `rbacv1.ClusterRole`. -/
structure ClusterRole extends ObjectMeta where
  Rules : List PolicyRule := []
deriving DecidableEq, Repr

/-- Modelled from the spec: `GenerateUniqueResourceName` is defined outside the
files at hand; the generated-name contract gives
`<spec-name>-<spec-namespace>-<roleId>` for cluster-scoped bindings, and the
test of the cluster binding expects that name. -/
def GenerateUniqueResourceName (name : String) (cr : ArgoCD) : String :=
  cr.Name ++ "-" ++ cr.Namespace ++ "-" ++ name

/-- The configuration of the cluster-scope variant: that of the namespaced one,
and `generateResourceName`, the name generator of service accounts, which is
defined in another file. -/
structure ClusterConfig extends Config where
  generateResourceName : String → ArgoCD → String

/-- Source `newClusterRoleBinding`: a new ClusterRoleBinding instance. -/
def newClusterRoleBinding (cfg : ClusterConfig) (_name : String) (cr : ArgoCD) :
    ClusterRoleBinding :=
  { Name := cr.Name,
    Labels := cfg.LabelsForCluster cr,
    Annotations := cfg.AnnotationsForCluster cr }

/-- Source `newClusterRoleBindingWithname`: a new ClusterRoleBinding with the
given name for the given ArgoCD. -/
def newClusterRoleBindingWithname (cfg : ClusterConfig) (name : String) (cr : ArgoCD) :
    ClusterRoleBinding :=
  let roleBinding := newClusterRoleBinding cfg name cr
  let roleBinding := { roleBinding with Name := GenerateUniqueResourceName name cr }
  let labels := roleBinding.Labels
  let labels := mapSet labels cfg.ArgoCDKeyName name
  { roleBinding with Labels := labels }

/-- The subject and role reference that `reconcileClusterRoleBinding` assigns
(lines 194 to 205 of the source). -/
def withClusterSubjectAndRoleRef (cfg : ClusterConfig) (name : String) (cr : ArgoCD)
    (roleBinding : ClusterRoleBinding) : ClusterRoleBinding :=
  { roleBinding with
    Subjects := [{ Kind := ServiceAccountKind, Name := cfg.generateResourceName name cr,
                   Namespace := cr.Namespace }],
    RoleRef := { APIGroup := GroupName, Kind := "ClusterRole",
                 Name := GenerateUniqueResourceName name cr } }

/-- Lines 185 to 216 of `reconcileClusterRoleBinding`, once the binding has been
looked up: `roleBindingExists` tells whether it was found, and `roleBinding` is
the object found, or a new one. -/
def reconcileClusterRoleBindingTail (cfg : ClusterConfig) (name : String)
    (role : Option ClusterRole) (cr : ArgoCD) (roleBindingExists : Bool)
    (roleBinding : ClusterRoleBinding) (w : World) : Except Err Unit × World :=
  if roleBindingExists = true ∧ role.isNone = true then
    clientDelete roleBinding w
  else if roleBindingExists = false ∧ role.isNone = true then
    (.ok (), w) -- DO Nothing
  else
    let roleBinding := withClusterSubjectAndRoleRef cfg name cr roleBinding
    if cr.Namespace = roleBinding.Namespace then
      match SetControllerReference cr roleBinding.toObjectMeta with
      | .error err =>
        (.error (.wrapped ("failed to set ArgoCD CR \"" ++ cr.Name
          ++ "\" as owner for roleBinding \"" ++ roleBinding.Name ++ "\"") err), w)
      | .ok m =>
        if roleBindingExists = true then clientUpdate { roleBinding with toObjectMeta := m } w
        else clientCreate { roleBinding with toObjectMeta := m } w
    else if roleBindingExists = true then clientUpdate roleBinding w
    else clientCreate roleBinding w

/-- Source `reconcileClusterRoleBinding`. The service account argument is
carried as in the source. -/
def reconcileClusterRoleBinding (cfg : ClusterConfig) (name : String)
    (role : Option ClusterRole) (_sa : ServiceAccount) (cr : ArgoCD) (w : World) :
    Except Err Unit × World :=
  -- get expected name
  let roleBinding := newClusterRoleBindingWithname cfg name cr
  -- fetch existing rolebinding by name
  match clientGet { Name := roleBinding.Name } w with
  | (.error err, w1) =>
    if !IsNotFound err then (.error err, w1)
    else
      reconcileClusterRoleBindingTail cfg name role cr false
        (newClusterRoleBindingWithname cfg name cr) w1
  | (.ok existing, w1) => reconcileClusterRoleBindingTail cfg name role cr true existing w1

/-! ## `env.go` -/

/-- Record `corev1.EnvVar`. -/
structure EnvVar where
  Name : String := ""
  Value : String := ""
deriving DecidableEq, Repr

/-- Go `map[string]corev1.EnvVar`, kept as an association list with unique
keys, in the order in which the keys were first written. -/
abbrev EnvMap := List (String × EnvVar)

/-- Map read with the comma-ok result: is there an entry for `k`. -/
def envHas (m : EnvMap) (k : String) : Bool :=
  m.any (fun p => p.1 = k)

/-- Map read `m[k]` on a map of environment entries, with the comma-ok result. -/
def envGet (m : EnvMap) (k : String) : Option EnvVar :=
  (m.find? (fun p => p.1 = k)).map (fun p => p.2)

/-- Map write `m[k] = v`: the entry for `k` is overwritten, or added. -/
def envSet : EnvMap → String → EnvVar → EnvMap
  | [], k, v => [(k, v)]
  | p :: ps, k, v => if p.1 = k then (k, v) :: ps else p :: envSet ps k v

/-- The map `final` of `EnvMerge` when both loops have run (lines 13 to 25). -/
def envMergeFinal (existing merge : List EnvVar) (override : Bool) : EnvMap :=
  let final : EnvMap := []
  let final := existing.foldl (fun final e => envSet final e.Name e) final
  merge.foldl
    (fun final m =>
      if envHas final m.Name then
        if override then envSet final m.Name m else final
      else envSet final m.Name m)
    final

/-- Source `EnvMerge`: merges two slices of EnvVar entries into a single one.
Go leaves the order of iteration over a map unspecified; the entries of `final`
are listed here in the order in which their names were first written, and the
statements on the result are made for every rearrangement of this list. -/
def EnvMerge (existing merge : List EnvVar) (override : Bool) : List EnvVar :=
  (envMergeFinal existing merge override).map (fun p => p.2)

/-- The keys of a map of environment entries. -/
def envKeys (m : EnvMap) : List String :=
  m.map (fun p => p.1)

/-- A map of environment entries as `EnvMerge` builds it: no key occurs twice,
and every entry is kept under its own name. -/
def envWF (m : EnvMap) : Prop :=
  (envKeys m).Nodup ∧ ∀ p ∈ m, p.2.Name = p.1

/-- The first loop of `EnvMerge` (lines 14 to 16), from a given map. -/
def envLoadExisting (existing : List EnvVar) (final : EnvMap) : EnvMap :=
  existing.foldl (fun final e => envSet final e.Name e) final

/-- The second loop of `EnvMerge` (lines 17 to 25), from a given map. -/
def envLoadMerge (override : Bool) (merge : List EnvVar) (final : EnvMap) : EnvMap :=
  merge.foldl
    (fun final m =>
      if envHas final m.Name then
        if override then envSet final m.Name m else final
      else envSet final m.Name m)
    final

/-! ## `custommapper.go` -/

/-- The constants of the package `common` that the mappers use; the package is
not among the files at hand. -/
structure Common where
  AnnotationName : String
  AnnotationNamespace : String
  ArgoCDManagedByLabel : String

/-- A `client.Object`: its metadata, and the Go type behind the interface. -/
structure Object extends ObjectMeta where
  Kind : String := ""
deriving DecidableEq, Repr

/-- Record `corev1.Service` (metadata only). -/
structure Service extends ObjectMeta
deriving DecidableEq, Repr

/-- Record `reconcile.Request`. -/
structure Request where
  NamespacedName : NamespacedName
deriving DecidableEq, Repr

/-- A read that a mapper issues on the store. -/
inductive Read
  | getService (key : NamespacedName)
  | listArgoCD (ns : String)
deriving DecidableEq, Repr

/-- Library call `strings.HasSuffix`. -/
def HasSuffix (s suffix : String) : Bool :=
  suffix.data.isSuffixOf s.data

/-- The loop over the annotations in `clusterResourceMapper` (lines 20 to 26). -/
def annotatedOwner (c : Common) (annotations : StrMap) : NamespacedName :=
  annotations.foldl
    (fun key p =>
      if p.1 = c.AnnotationName then { key with Name := p.2 }
      else if p.1 = c.AnnotationNamespace then { key with Namespace := p.2 }
      else key)
    {}

/-- Source `clusterResourceMapper`. -/
def clusterResourceMapper (c : Common) (o : Object) : List Request :=
  let namespacedArgoCDObject := annotatedOwner c o.Annotations
  if namespacedArgoCDObject.Name ≠ "" ∧ namespacedArgoCDObject.Namespace ≠ "" then
    [{ NamespacedName := namespacedArgoCDObject }]
  else []

/-- The loop over the owner references of the secret in `tlsSecretMapper`
(lines 53 to 79), with the reads it issues on the store; `getService` is the
answer of the store to a Get of a service. -/
def tlsSecretOwners (getService : NamespacedName → Except Err Service) (o : Object) :
    List OwnerReference → List Request × List Read
  | [] => ([], [])
  | secretOwner :: rest =>
    if secretOwner.Kind = "Service" ∧ HasSuffix secretOwner.Name "-repo-server" = true then
      let key : NamespacedName := { Name := secretOwner.Name, Namespace := o.Namespace }
      -- Get the owning object of the secret
      match getService key with
      | .error _ => ([], [Read.getService key])
      | .ok svc =>
        -- If there is an object of kind ArgoCD in the owner list,
        -- this will be our reconciled object.
        match svc.OwnerReferences.find? (fun serviceOwner => serviceOwner.Kind = "ArgoCD") with
        | some serviceOwner =>
          ([{ NamespacedName := { Name := serviceOwner.Name, Namespace := svc.Namespace } }],
            [Read.getService key])
        | none =>
          ((tlsSecretOwners getService o rest).1,
            Read.getService key :: (tlsSecretOwners getService o rest).2)
    else tlsSecretOwners getService o rest

/-- Source `tlsSecretMapper`: maps a watch event on a secret of type TLS back to
the ArgoCD object that we want to reconcile; with the reads issued. -/
def tlsSecretMapper (c : Common) (getService : NamespacedName → Except Err Service)
    (o : Object) : List Request × List Read :=
  -- The secret must end with -repo-server-tls
  if !HasSuffix o.Name "-repo-server-tls" then ([], [])
  else if o.OwnerReferences.length > 0 then tlsSecretOwners getService o o.OwnerReferences
  else if o.Kind ≠ "Secret" then ([], [])
  else
    match mapGet o.Annotations c.AnnotationName with
    | some owner => ([{ NamespacedName := { Name := owner, Namespace := o.Namespace } }], [])
    | none => ([], [])

/-- Source `namespaceResourceMapper`: maps a watch event on a namespace back to
the ArgoCD object that we want to reconcile; with the reads issued. `listArgoCD`
is the answer of the store to a List of the specifications of a namespace. -/
def namespaceResourceMapper (c : Common) (listArgoCD : String → Except Err (List ArgoCD))
    (o : Object) : List Request × List Read :=
  match mapGet o.Labels c.ArgoCDManagedByLabel with
  | some v =>
    match listArgoCD v with
    | .error _ => ([], [Read.listArgoCD v])
    | .ok items =>
      match items with
      | [argocd] =>
        ([{ NamespacedName := { Name := argocd.Name, Namespace := argocd.Namespace } }],
          [Read.listArgoCD v])
      | _ => ([], [Read.listArgoCD v])
  | none => ([], [])

/-! ## Concrete values for the cluster variant, the merge and the mappers -/

/-- The configuration of the scenario for cluster bindings. -/
def demoCluster : ClusterConfig :=
  { toConfig := demoXrb, generateResourceName := fun name cr => cr.Name ++ "-" ++ name }

/-- The constants of the package `common`, with the values of the operator. -/
def demoCommon : Common :=
  { AnnotationName := "argocds.argoproj.io/name",
    AnnotationNamespace := "argocds.argoproj.io/namespace",
    ArgoCDManagedByLabel := "argocd.argoproj.io/managed-by" }

/-- A store of cluster bindings that holds the binding of the role identifier
`x` with another subject and role reference. -/
def demoClusterWorld : World :=
  { bindings := [demoBinding "argocd-argocd-x" "" "not-x" "not-x"] }

/-- An owner reference of the given kind and name. -/
def demoOwner (kind name : String) : OwnerReference :=
  { APIVersion := "v1", Kind := kind, Name := name, UID := "u", Controller := true,
    BlockOwnerDeletion := true }

/-- A store of services: the repo server of the specification `argocd` in the
namespace `argocd`, owned by a deployment and by the specification; every other
service is not found. -/
def demoServices (key : NamespacedName) : Except Err Service :=
  if key = { Namespace := "argocd", Name := "argocd-repo-server" } then
    .ok { Name := "argocd-repo-server", Namespace := "argocd",
          OwnerReferences := [demoOwner "Deployment" "argocd-repo-server",
            demoOwner "ArgoCD" "argocd"] }
  else .error .notFound

/-- The TLS secret of the repo server, owned by a certificate request and by the
service of the repo server. -/
def demoTLSSecret : Object :=
  { Name := "argocd-repo-server-tls", Namespace := "argocd", Kind := "Secret",
    OwnerReferences := [demoOwner "CertificateRequest" "argocd-repo-server-tls",
      demoOwner "Service" "argocd-repo-server"] }

/-- A TLS secret made by hand, without owner, whose owner-name annotation is
there with the empty value. -/
def demoManualSecret : Object :=
  { Name := "argocd-repo-server-tls", Namespace := "ns", Kind := "Secret",
    Annotations := [("argocds.argoproj.io/name", "")] }

/-! ## The object store: lookups after writes -/

theorem storeGet_nil (k : NamespacedName) : storeGet [] k = none := rfl

theorem storeGet_cons (x : RoleBinding) (xs : List RoleBinding) (k : NamespacedName) :
    storeGet (x :: xs) k = if x.key = k then some x else storeGet xs k := by
  unfold storeGet
  by_cases h : x.key = k <;> simp [List.find?_cons, h]

theorem storeUpdate_cons (x : RoleBinding) (xs : List RoleBinding) (rb : RoleBinding) :
    storeUpdate (x :: xs) rb = if x.key = rb.key then rb :: xs else x :: storeUpdate xs rb := rfl

theorem storeDelete_cons (x : RoleBinding) (xs : List RoleBinding) (k : NamespacedName) :
    storeDelete (x :: xs) k = if x.key = k then storeDelete xs k else x :: storeDelete xs k := by
  unfold storeDelete
  by_cases h : x.key = k <;> simp [List.filter_cons, h]

theorem storeGet_key {s : List RoleBinding} {k : NamespacedName} {rb : RoleBinding}
    (h : storeGet s k = some rb) : rb.key = k := by
  unfold storeGet at h
  have := List.find?_some h
  simpa using this

theorem storeGet_update_same {s : List RoleBinding} {rb old : RoleBinding}
    (h : storeGet s rb.key = some old) : storeGet (storeUpdate s rb) rb.key = some rb := by
  induction s with
  | nil => simp [storeGet] at h
  | cons x xs ih =>
    rw [storeGet_cons] at h
    rw [storeUpdate_cons]
    by_cases hx : x.key = rb.key
    · rw [if_pos hx, storeGet_cons, if_pos rfl]
    · rw [if_neg hx] at h
      rw [if_neg hx, storeGet_cons, if_neg hx]
      exact ih h

theorem storeGet_update_other {s : List RoleBinding} {rb : RoleBinding} {k : NamespacedName}
    (hk : k ≠ rb.key) : storeGet (storeUpdate s rb) k = storeGet s k := by
  induction s with
  | nil => rfl
  | cons x xs ih =>
    rw [storeUpdate_cons]
    by_cases hx : x.key = rb.key
    · have hxk : ¬ x.key = k := by rw [hx]; exact fun h => hk h.symm
      have hrk : ¬ rb.key = k := fun h => hk h.symm
      rw [if_pos hx, storeGet_cons, storeGet_cons, if_neg hxk, if_neg hrk]
    · rw [if_neg hx, storeGet_cons, storeGet_cons, ih]

theorem storeUpdate_self {s : List RoleBinding} {rb : RoleBinding}
    (h : storeGet s rb.key = some rb) : storeUpdate s rb = s := by
  induction s with
  | nil => rfl
  | cons x xs ih =>
    rw [storeGet_cons] at h
    rw [storeUpdate_cons]
    by_cases hx : x.key = rb.key
    · rw [if_pos hx] at h
      rw [if_pos hx, Option.some.inj h]
    · rw [if_neg hx] at h
      rw [if_neg hx, ih h]

theorem storeGet_delete_same (s : List RoleBinding) (k : NamespacedName) :
    storeGet (storeDelete s k) k = none := by
  induction s with
  | nil => rfl
  | cons x xs ih =>
    rw [storeDelete_cons]
    by_cases hx : x.key = k
    · rw [if_pos hx]; exact ih
    · rw [if_neg hx, storeGet_cons, if_neg hx]; exact ih

theorem storeGet_delete_other {s : List RoleBinding} {k k' : NamespacedName} (hk : k' ≠ k) :
    storeGet (storeDelete s k) k' = storeGet s k' := by
  induction s with
  | nil => rfl
  | cons x xs ih =>
    rw [storeDelete_cons]
    by_cases hx : x.key = k
    · have hxk : ¬ x.key = k' := by rw [hx]; exact fun h => hk h.symm
      rw [if_pos hx, storeGet_cons, if_neg hxk]; exact ih
    · rw [if_neg hx, storeGet_cons, storeGet_cons, ih]

theorem storeGet_append_same {s : List RoleBinding} {rb : RoleBinding}
    (h : storeGet s rb.key = none) : storeGet (s ++ [rb]) rb.key = some rb := by
  induction s with
  | nil => rw [List.nil_append, storeGet_cons, if_pos rfl]
  | cons x xs ih =>
    rw [storeGet_cons] at h
    by_cases hx : x.key = rb.key
    · rw [if_pos hx] at h; cases h
    · rw [if_neg hx] at h
      rw [List.cons_append, storeGet_cons, if_neg hx]
      exact ih h

theorem storeGet_append_other {s : List RoleBinding} {rb : RoleBinding} {k : NamespacedName}
    (hk : k ≠ rb.key) : storeGet (s ++ [rb]) k = storeGet s k := by
  induction s with
  | nil =>
    have hrk : ¬ rb.key = k := fun h => hk h.symm
    rw [List.nil_append, storeGet_cons, if_neg hrk]
  | cons x xs ih => rw [List.cons_append, storeGet_cons, storeGet_cons, ih]

/-! ## One iteration of the loop -/

theorem desired_key (cfg : Config) (name : String) (cr : ArgoCD) (sa : ServiceAccount)
    (role : Role) : (desiredRoleBinding cfg name cr sa role).key = bindingKey name cr role := rfl

theorem created_key (cfg : Config) (name : String) (cr : ArgoCD) (sa : ServiceAccount)
    (role : Role) : (createdRoleBinding cfg name cr sa role).key = bindingKey name cr role := by
  unfold createdRoleBinding
  split <;> rfl

theorem setOwnerAndCreate_desired (cfg : Config) (name : String) (cr : ArgoCD)
    (sa : ServiceAccount) (role : Role) (w : World) :
    setOwnerAndCreate cr (desiredRoleBinding cfg name cr sa role) w
      = clientCreate (createdRoleBinding cfg name cr sa role) w := by
  unfold setOwnerAndCreate createdRoleBinding
  by_cases h : cr.Namespace = role.Namespace
  · have h1 : cr.Namespace = (desiredRoleBinding cfg name cr sa role).Namespace := h
    have h2 : SetControllerReference cr (desiredRoleBinding cfg name cr sa role).toObjectMeta
        = .ok { (desiredRoleBinding cfg name cr sa role).toObjectMeta with
                  OwnerReferences := [controllerRef cr] } := by
      simp [SetControllerReference, desiredRoleBinding, withSubjectAndRoleRef,
        newRoleBindingWithname, newRoleBinding, h, upsertOwnerRef]
    rw [if_pos h1, if_pos h, h2]
  · have h1 : ¬ cr.Namespace = (desiredRoleBinding cfg name cr sa role).Namespace := h
    rw [if_neg h1, if_neg h]

theorem clientGet_fault {k : NamespacedName} {w : World} {f : Fault} (hf : w.nextFault = some f) :
    clientGet k w = (.error (.fault f), w.record w.bindings (Op.get k none (some (.fault f)))) := by
  simp [clientGet, hf]

theorem clientGet_found {k : NamespacedName} {w : World} {rb : RoleBinding}
    (hf : w.nextFault = none) (hg : storeGet w.bindings k = some rb) :
    clientGet k w = (.ok rb, w.record w.bindings (Op.get k (some rb) none)) := by
  simp [clientGet, hf, hg]

theorem clientGet_absent {k : NamespacedName} {w : World}
    (hf : w.nextFault = none) (hg : storeGet w.bindings k = none) :
    clientGet k w = (.error .notFound, w.record w.bindings (Op.get k none (some .notFound))) := by
  simp [clientGet, hf, hg]

theorem clientCreate_fault {obj : RoleBinding} {w : World} {f : Fault}
    (hf : w.nextFault = some f) :
    clientCreate obj w
      = (.error (.fault f), w.record w.bindings (Op.create obj (some (.fault f)))) := by
  simp [clientCreate, hf]

theorem clientCreate_ok {obj : RoleBinding} {w : World}
    (hf : w.nextFault = none) (hg : storeGet w.bindings obj.key = none) :
    clientCreate obj w = (.ok (), w.record (w.bindings ++ [obj]) (Op.create obj none)) := by
  simp [clientCreate, hf, hg]

theorem clientDelete_fault {obj : RoleBinding} {w : World} {f : Fault}
    (hf : w.nextFault = some f) :
    clientDelete obj w
      = (.error (.fault f), w.record w.bindings (Op.delete obj (some (.fault f)))) := by
  simp [clientDelete, hf]

theorem clientDelete_ok {obj old : RoleBinding} {w : World}
    (hf : w.nextFault = none) (hg : storeGet w.bindings obj.key = some old) :
    clientDelete obj w
      = (.ok (), w.record (storeDelete w.bindings obj.key) (Op.delete obj none)) := by
  simp [clientDelete, hf, hg]

theorem clientUpdate_fault {obj : RoleBinding} {w : World} {f : Fault}
    (hf : w.nextFault = some f) :
    clientUpdate obj w
      = (.error (.fault f), w.record w.bindings (Op.update obj (some (.fault f)))) := by
  simp [clientUpdate, hf]

theorem clientUpdate_ok {obj old : RoleBinding} {w : World}
    (hf : w.nextFault = none) (hg : storeGet w.bindings obj.key = some old) :
    clientUpdate obj w
      = (.ok (), w.record (storeUpdate w.bindings obj) (Op.update obj none)) := by
  simp [clientUpdate, hf, hg]

theorem step_unfold (cfg : Config) (name : String) (cr : ArgoCD) (sa : ServiceAccount)
    (role : Role) (w : World) :
    reconcileRoleBindingFor cfg name cr sa role w =
      match clientGet (bindingKey name cr role) w with
      | (.error err, w1) =>
        if !IsNotFound err then
          (.error (.wrapped ("failed to get the rolebinding associated with " ++ name) err), w1)
        else if dexOff cfg name then (.ok (), w1)
        else clientCreate (createdRoleBinding cfg name cr sa role) w1
      | (.ok old, w1) =>
        if dexOff cfg name then clientDelete old w1
        else if roleRefFor role ≠ old.RoleRef then
          match clientDelete old w1 with
          | (.error err, w2) => (.error err, w2)
          | (.ok _, w2) => clientCreate (createdRoleBinding cfg name cr sa role) w2
        else clientUpdate { old with Subjects := [subjectFor sa] } w1 := by
  unfold reconcileRoleBindingFor
  simp only [← setOwnerAndCreate_desired]
  rfl

theorem step_outcome (cfg : Config) (name : String) (cr : ArgoCD) (sa : ServiceAccount)
    (role : Role) (w : World) :
    StepOutcome cfg name cr sa role w (reconcileRoleBindingFor cfg name cr sa role w) := by
  rw [step_unfold]
  cases hf : w.nextFault with
  | some f =>
    rw [clientGet_fault hf]
    exact StepOutcome.getFault f hf
  | none =>
    cases hg : storeGet w.bindings (bindingKey name cr role) with
    | none =>
      rw [clientGet_absent hf hg]
      by_cases hd : dexOff cfg name
      · simp only [IsNotFound, Bool.not_true, Bool.false_eq_true, if_false, if_pos hd]
        exact StepOutcome.absentDisabled hf hg hd
      · simp only [IsNotFound, Bool.not_true, Bool.false_eq_true, if_false, if_neg hd]
        cases hf1 : (w.record w.bindings
            (Op.get (bindingKey name cr role) none (some .notFound))).nextFault with
        | some f =>
          rw [clientCreate_fault hf1]
          exact StepOutcome.absentCreateFault f hf hg hd hf1
        | none =>
          rw [clientCreate_ok hf1 (by rw [created_key]; exact hg)]
          exact StepOutcome.absentCreate hf hg hd hf1
    | some old =>
      rw [clientGet_found hf hg]
      have hkey : old.key = bindingKey name cr role := storeGet_key hg
      by_cases hd : dexOff cfg name
      · simp only [if_pos hd]
        cases hf1 : (w.record w.bindings
            (Op.get (bindingKey name cr role) (some old) none)).nextFault with
        | some f =>
          rw [clientDelete_fault hf1]
          exact StepOutcome.foundDisabledFault old f hf hg hd hf1
        | none =>
          rw [clientDelete_ok hf1 (by rw [hkey]; exact hg), hkey]
          exact StepOutcome.foundDisabled old hf hg hd hf1
      · simp only [if_neg hd]
        by_cases hr : old.RoleRef = roleRefFor role
        · have hr2 : ¬ (roleRefFor role ≠ old.RoleRef) := fun h => h hr.symm
          simp only [if_neg hr2]
          cases hf1 : (w.record w.bindings
              (Op.get (bindingKey name cr role) (some old) none)).nextFault with
          | some f =>
            rw [clientUpdate_fault hf1]
            exact StepOutcome.sameUpdateFault old f hf hg hd hr hf1
          | none =>
            rw [@clientUpdate_ok _ old _ hf1 (by
              show storeGet w.bindings old.key = some old
              rw [hkey]; exact hg)]
            exact StepOutcome.sameUpdate old hf hg hd hr hf1
        · have hr2 : roleRefFor role ≠ old.RoleRef := fun h => hr h.symm
          simp only [if_pos hr2]
          cases hf1 : (w.record w.bindings
              (Op.get (bindingKey name cr role) (some old) none)).nextFault with
          | some f =>
            rw [clientDelete_fault hf1]
            exact StepOutcome.staleDeleteFault old f hf hg hd hr hf1
          | none =>
            rw [clientDelete_ok hf1 (by rw [hkey]; exact hg), hkey]
            change StepOutcome cfg name cr sa role w
              (clientCreate (createdRoleBinding cfg name cr sa role)
                ((w.record w.bindings (Op.get (bindingKey name cr role) (some old) none)).record
                  (storeDelete w.bindings (bindingKey name cr role)) (Op.delete old none)))
            cases hf2 : ((w.record w.bindings
                (Op.get (bindingKey name cr role) (some old) none)).record
                (storeDelete w.bindings (bindingKey name cr role)) (Op.delete old none)).nextFault with
            | some f =>
              rw [clientCreate_fault hf2]
              exact StepOutcome.staleCreateFault old f hf hg hd hr hf1 hf2
            | none =>
              rw [clientCreate_ok hf2 (by
                rw [created_key]; exact storeGet_delete_same _ _)]
              exact StepOutcome.staleRecreate old hf hg hd hr hf1 hf2

@[simp] theorem record_bindings (w : World) (b : List RoleBinding) (op : Op) :
    (w.record b op).bindings = b := rfl

@[simp] theorem record_trace (w : World) (b : List RoleBinding) (op : Op) :
    (w.record b op).trace = w.trace ++ [op] := rfl

theorem created_subjects (cfg : Config) (name : String) (cr : ArgoCD) (sa : ServiceAccount)
    (role : Role) : (createdRoleBinding cfg name cr sa role).Subjects = [subjectFor sa] := by
  unfold createdRoleBinding
  split <;> rfl

theorem created_roleRef (cfg : Config) (name : String) (cr : ArgoCD) (sa : ServiceAccount)
    (role : Role) : (createdRoleBinding cfg name cr sa role).RoleRef = roleRefFor role := by
  unfold createdRoleBinding
  split <;> rfl

theorem bindingKey_ne {name : String} {cr : ArgoCD} {role : Role} {k : NamespacedName}
    (h : k.Namespace ≠ role.Namespace) : k ≠ bindingKey name cr role := by
  intro hk
  apply h
  rw [hk]
  rfl

/-- An iteration leaves every binding stored under another key as it was. -/
theorem step_frame (cfg : Config) (name : String) (cr : ArgoCD) (sa : ServiceAccount)
    (role : Role) (w : World) (k : NamespacedName) (hk : k ≠ bindingKey name cr role) :
    storeGet (reconcileRoleBindingFor cfg name cr sa role w).2.bindings k
      = storeGet w.bindings k := by
  have hc : k ≠ (createdRoleBinding cfg name cr sa role).key := by rw [created_key]; exact hk
  have h := step_outcome cfg name cr sa role w
  generalize reconcileRoleBindingFor cfg name cr sa role w = r at h ⊢
  cases h with
  | getFault f hf => rfl
  | absentDisabled hf hg hd => rfl
  | absentCreateFault f hf hg hd hf1 => rfl
  | absentCreate hf hg hd hf1 => exact storeGet_append_other hc
  | foundDisabledFault old f hf hg hd hf1 => rfl
  | foundDisabled old hf hg hd hf1 => exact storeGet_delete_other hk
  | staleDeleteFault old f hf hg hd hr hf1 => rfl
  | staleCreateFault old f hf hg hd hr hf1 hf2 => exact storeGet_delete_other hk
  | staleRecreate old hf hg hd hr hf1 hf2 =>
    exact (storeGet_append_other hc).trans (storeGet_delete_other hk)
  | sameUpdateFault old f hf hg hd hr hf1 => rfl
  | sameUpdate old hf hg hd hr hf1 =>
    have hu : k ≠ ({ old with Subjects := [subjectFor sa] } : RoleBinding).key := by
      have : ({ old with Subjects := [subjectFor sa] } : RoleBinding).key = old.key := rfl
      rw [this, storeGet_key hg]; exact hk
    exact storeGet_update_other hu

theorem issued_of_append {w w1 : World} {ops : List Op} (h : w1.trace = w.trace ++ ops) :
    issued w w1 = ops := by
  unfold issued
  rw [h, List.drop_left]

theorem replay_append (a b : List Op) (s : List RoleBinding) :
    replay (a ++ b) s = replay b (replay a s) := by
  unfold replay
  rw [List.foldl_append]

/-- What one iteration issues, what it leaves, and how it ends. -/
theorem step_summary (cfg : Config) (name : String) (cr : ArgoCD) (sa : ServiceAccount)
    (role : Role) (w : World) :
    ∃ ops, (reconcileRoleBindingFor cfg name cr sa role w).2.trace = w.trace ++ ops ∧
      (reconcileRoleBindingFor cfg name cr sa role w).2.bindings = replay ops w.bindings ∧
      (∀ op ∈ ops, StepOp cfg name cr sa role op) ∧
      EndsWith (reconcileRoleBindingFor cfg name cr sa role w).1 ops ∧
      UpdatesFollowFetch ops := by
  have h := step_outcome cfg name cr sa role w
  generalize reconcileRoleBindingFor cfg name cr sa role w = r at h ⊢
  cases h with
  | getFault f hf =>
    refine ⟨[Op.get (bindingKey name cr role) none (some (.fault f))], rfl, rfl, ?_, ?_, ?_⟩
    · intro op hop
      simp only [List.mem_singleton] at hop
      subst hop
      exact StepOp.get _ _
    · right
      exact ⟨[], _, _, rfl, by simp [Clean], by simp [Op.failed, IsNotFound], rfl,
        Or.inr ⟨_, rfl⟩⟩
    · intro rb e h
      simp at h
  | absentDisabled hf hg hd =>
    refine ⟨[Op.get (bindingKey name cr role) none (some .notFound)], rfl, rfl, ?_, ?_, ?_⟩
    · intro op hop
      simp only [List.mem_singleton] at hop
      subst hop
      exact StepOp.get _ _
    · left
      exact ⟨rfl, by simp [Clean, Op.failed, IsNotFound]⟩
    · intro rb e h
      simp at h
  | absentCreateFault f hf hg hd hf1 =>
    refine ⟨[Op.get (bindingKey name cr role) none (some .notFound),
      Op.create (createdRoleBinding cfg name cr sa role) (some (.fault f))],
      by simp, rfl, ?_, ?_, ?_⟩
    · intro op hop
      simp only [List.mem_cons, List.mem_singleton, List.not_mem_nil, or_false] at hop
      rcases hop with rfl | rfl
      · exact StepOp.get _ _
      · exact StepOp.create _ hd
    · right
      exact ⟨[_], _, _, rfl, by simp [Clean, Op.failed, IsNotFound], by simp [Op.failed, Op.err],
        rfl, Or.inl rfl⟩
    · intro rb e h
      simp at h
  | absentCreate hf hg hd hf1 =>
    refine ⟨[Op.get (bindingKey name cr role) none (some .notFound),
      Op.create (createdRoleBinding cfg name cr sa role) none], by simp, rfl, ?_, ?_, ?_⟩
    · intro op hop
      simp only [List.mem_cons, List.mem_singleton, List.not_mem_nil, or_false] at hop
      rcases hop with rfl | rfl
      · exact StepOp.get _ _
      · exact StepOp.create _ hd
    · left
      exact ⟨rfl, by simp [Clean, Op.failed, Op.err, IsNotFound]⟩
    · intro rb e h
      simp at h
  | foundDisabledFault old f hf hg hd hf1 =>
    refine ⟨[Op.get (bindingKey name cr role) (some old) none, Op.delete old (some (.fault f))],
      by simp, rfl, ?_, ?_, ?_⟩
    · intro op hop
      simp only [List.mem_cons, List.mem_singleton, List.not_mem_nil, or_false] at hop
      rcases hop with rfl | rfl
      · exact StepOp.get _ _
      · exact StepOp.delete _ _ (storeGet_key hg) (Or.inl hd)
    · right
      exact ⟨[_], _, _, rfl, by simp [Clean, Op.failed], by simp [Op.failed, Op.err],
        rfl, Or.inl rfl⟩
    · intro rb e h
      simp at h
  | foundDisabled old hf hg hd hf1 =>
    refine ⟨[Op.get (bindingKey name cr role) (some old) none, Op.delete old none],
      by simp, ?_, ?_, ?_, ?_⟩
    · show storeDelete w.bindings (bindingKey name cr role) = storeDelete w.bindings old.key
      rw [storeGet_key hg]
    · intro op hop
      simp only [List.mem_cons, List.mem_singleton, List.not_mem_nil, or_false] at hop
      rcases hop with rfl | rfl
      · exact StepOp.get _ _
      · exact StepOp.delete _ _ (storeGet_key hg) (Or.inl hd)
    · left
      exact ⟨rfl, by simp [Clean, Op.failed, Op.err]⟩
    · intro rb e h
      simp at h
  | staleDeleteFault old f hf hg hd hr hf1 =>
    refine ⟨[Op.get (bindingKey name cr role) (some old) none, Op.delete old (some (.fault f))],
      by simp, rfl, ?_, ?_, ?_⟩
    · intro op hop
      simp only [List.mem_cons, List.mem_singleton, List.not_mem_nil, or_false] at hop
      rcases hop with rfl | rfl
      · exact StepOp.get _ _
      · exact StepOp.delete _ _ (storeGet_key hg) (Or.inr hr)
    · right
      exact ⟨[_], _, _, rfl, by simp [Clean, Op.failed], by simp [Op.failed, Op.err],
        rfl, Or.inl rfl⟩
    · intro rb e h
      simp at h
  | staleCreateFault old f hf hg hd hr hf1 hf2 =>
    refine ⟨[Op.get (bindingKey name cr role) (some old) none, Op.delete old none,
      Op.create (createdRoleBinding cfg name cr sa role) (some (.fault f))],
      by simp, ?_, ?_, ?_, ?_⟩
    · show storeDelete w.bindings (bindingKey name cr role) = storeDelete w.bindings old.key
      rw [storeGet_key hg]
    · intro op hop
      simp only [List.mem_cons, List.mem_singleton, List.not_mem_nil, or_false] at hop
      rcases hop with rfl | rfl | rfl
      · exact StepOp.get _ _
      · exact StepOp.delete _ _ (storeGet_key hg) (Or.inr hr)
      · exact StepOp.create _ hd
    · right
      exact ⟨[_, _], _, _, rfl, by simp [Clean, Op.failed, Op.err], by simp [Op.failed, Op.err],
        rfl, Or.inl rfl⟩
    · intro rb e h
      simp at h
  | staleRecreate old hf hg hd hr hf1 hf2 =>
    refine ⟨[Op.get (bindingKey name cr role) (some old) none, Op.delete old none,
      Op.create (createdRoleBinding cfg name cr sa role) none], by simp, ?_, ?_, ?_, ?_⟩
    · show storeDelete w.bindings (bindingKey name cr role) ++ [_]
        = storeDelete w.bindings old.key ++ [_]
      rw [storeGet_key hg]
    · intro op hop
      simp only [List.mem_cons, List.mem_singleton, List.not_mem_nil, or_false] at hop
      rcases hop with rfl | rfl | rfl
      · exact StepOp.get _ _
      · exact StepOp.delete _ _ (storeGet_key hg) (Or.inr hr)
      · exact StepOp.create _ hd
    · left
      exact ⟨rfl, by simp [Clean, Op.failed, Op.err]⟩
    · intro rb e h
      simp at h
  | sameUpdateFault old f hf hg hd hr hf1 =>
    refine ⟨[Op.get (bindingKey name cr role) (some old) none,
      Op.update { old with Subjects := [subjectFor sa] } (some (.fault f))],
      by simp, rfl, ?_, ?_, ?_⟩
    · intro op hop
      simp only [List.mem_cons, List.mem_singleton, List.not_mem_nil, or_false] at hop
      rcases hop with rfl | rfl
      · exact StepOp.get _ _
      · exact StepOp.update _ _ (storeGet_key hg) hd hr
    · right
      exact ⟨[_], _, _, rfl, by simp [Clean, Op.failed], by simp [Op.failed, Op.err],
        rfl, Or.inl rfl⟩
    · intro rb e h
      simp only [List.mem_cons, List.mem_singleton, List.not_mem_nil, or_false, Op.update.injEq,
        reduceCtorEq, false_or] at h
      obtain ⟨rfl, -⟩ := h
      refine ⟨old, ?_, rfl⟩
      have hk : ({ old with Subjects := [subjectFor sa] } : RoleBinding).key
          = bindingKey name cr role := @storeGet_key _ _ old hg
      rw [hk]
      simp
  | sameUpdate old hf hg hd hr hf1 =>
    refine ⟨[Op.get (bindingKey name cr role) (some old) none,
      Op.update { old with Subjects := [subjectFor sa] } none], by simp, rfl, ?_, ?_, ?_⟩
    · intro op hop
      simp only [List.mem_cons, List.mem_singleton, List.not_mem_nil, or_false] at hop
      rcases hop with rfl | rfl
      · exact StepOp.get _ _
      · exact StepOp.update _ _ (storeGet_key hg) hd hr
    · left
      exact ⟨rfl, by simp [Clean, Op.failed, Op.err]⟩
    · intro rb e h
      simp only [List.mem_cons, List.mem_singleton, List.not_mem_nil, or_false, Op.update.injEq,
        reduceCtorEq, false_or] at h
      obtain ⟨rfl, -⟩ := h
      refine ⟨old, ?_, rfl⟩
      have hk : ({ old with Subjects := [subjectFor sa] } : RoleBinding).key
          = bindingKey name cr role := @storeGet_key _ _ old hg
      rw [hk]
      simp

/-- After a successful iteration for a role that is not disabled, the store
holds the binding with the desired subject and role reference. -/
theorem step_ensures (cfg : Config) (name : String) (cr : ArgoCD) (sa : ServiceAccount)
    (role : Role) (w : World) (hd : ¬ dexOff cfg name)
    (hok : (reconcileRoleBindingFor cfg name cr sa role w).1 = .ok ()) :
    ∃ rb, storeGet (reconcileRoleBindingFor cfg name cr sa role w).2.bindings
        (bindingKey name cr role) = some rb ∧
      rb.Subjects = [subjectFor sa] ∧ rb.RoleRef = roleRefFor role := by
  have h := step_outcome cfg name cr sa role w
  generalize reconcileRoleBindingFor cfg name cr sa role w = r at h hok ⊢
  have hck := created_key cfg name cr sa role
  cases h with
  | getFault f hf => cases hok
  | absentDisabled hf hg hd1 => exact absurd hd1 hd
  | absentCreateFault f hf hg hd hf1 => cases hok
  | absentCreate hf hg hd hf1 =>
    refine ⟨createdRoleBinding cfg name cr sa role, ?_, created_subjects _ _ _ _ _,
      created_roleRef _ _ _ _ _⟩
    have := @storeGet_append_same w.bindings (createdRoleBinding cfg name cr sa role)
      (by rw [hck]; exact hg)
    rw [hck] at this
    exact this
  | foundDisabledFault old f hf hg hd1 hf1 => cases hok
  | foundDisabled old hf hg hd1 hf1 => exact absurd hd1 hd
  | staleDeleteFault old f hf hg hd hr hf1 => cases hok
  | staleCreateFault old f hf hg hd hr hf1 hf2 => cases hok
  | staleRecreate old hf hg hd hr hf1 hf2 =>
    refine ⟨createdRoleBinding cfg name cr sa role, ?_, created_subjects _ _ _ _ _,
      created_roleRef _ _ _ _ _⟩
    have := @storeGet_append_same (storeDelete w.bindings (bindingKey name cr role))
      (createdRoleBinding cfg name cr sa role)
      (by rw [hck]; exact storeGet_delete_same _ _)
    rw [hck] at this
    exact this
  | sameUpdateFault old f hf hg hd hr hf1 => cases hok
  | sameUpdate old hf hg hd hr hf1 =>
    refine ⟨{ old with Subjects := [subjectFor sa] }, ?_, rfl, hr⟩
    have hk : ({ old with Subjects := [subjectFor sa] } : RoleBinding).key
        = bindingKey name cr role := @storeGet_key _ _ old hg
    have := @storeGet_update_same w.bindings
      { old with Subjects := [subjectFor sa] } old (by rw [hk]; exact hg)
    rw [hk] at this
    exact this

/-- After a successful iteration for the disabled role no binding is stored
under the key of the iteration. -/
theorem step_disabled (cfg : Config) (name : String) (cr : ArgoCD) (sa : ServiceAccount)
    (role : Role) (w : World) (hd : dexOff cfg name)
    (hok : (reconcileRoleBindingFor cfg name cr sa role w).1 = .ok ()) :
    storeGet (reconcileRoleBindingFor cfg name cr sa role w).2.bindings
      (bindingKey name cr role) = none := by
  have h := step_outcome cfg name cr sa role w
  generalize reconcileRoleBindingFor cfg name cr sa role w = r at h hok ⊢
  cases h with
  | getFault f hf => cases hok
  | absentDisabled hf hg hd1 => exact hg
  | absentCreateFault f hf hg hd1 hf1 => cases hok
  | absentCreate hf hg hd1 hf1 => exact absurd hd hd1
  | foundDisabledFault old f hf hg hd1 hf1 => cases hok
  | foundDisabled old hf hg hd1 hf1 => exact storeGet_delete_same _ _
  | staleDeleteFault old f hf hg hd1 hr hf1 => cases hok
  | staleCreateFault old f hf hg hd1 hr hf1 hf2 => cases hok
  | staleRecreate old hf hg hd1 hr hf1 hf2 => exact absurd hd hd1
  | sameUpdateFault old f hf hg hd1 hr hf1 => cases hok
  | sameUpdate old hf hg hd1 hr hf1 => exact absurd hd hd1

/-- An iteration for the disabled role never makes a key occupied. -/
theorem step_disabled_mono (cfg : Config) (name : String) (cr : ArgoCD) (sa : ServiceAccount)
    (role : Role) (w : World) (hd : dexOff cfg name) (k : NamespacedName)
    (hk : storeGet w.bindings k = none) :
    storeGet (reconcileRoleBindingFor cfg name cr sa role w).2.bindings k = none := by
  by_cases hne : k = bindingKey name cr role
  · subst hne
    have h := step_outcome cfg name cr sa role w
    generalize reconcileRoleBindingFor cfg name cr sa role w = r at h ⊢
    cases h with
    | getFault f hf => exact hk
    | absentDisabled hf hg hd1 => exact hk
    | absentCreateFault f hf hg hd1 hf1 => exact hk
    | absentCreate hf hg hd1 hf1 => exact absurd hd hd1
    | foundDisabledFault old f hf hg hd1 hf1 => exact hk
    | foundDisabled old hf hg hd1 hf1 => exact storeGet_delete_same _ _
    | staleDeleteFault old f hf hg hd1 hr hf1 => exact hk
    | staleCreateFault old f hf hg hd1 hr hf1 hf2 => exact absurd hd hd1
    | staleRecreate old hf hg hd1 hr hf1 hf2 => exact absurd hd hd1
    | sameUpdateFault old f hf hg hd1 hr hf1 => exact hk
    | sameUpdate old hf hg hd1 hr hf1 => exact absurd hd hd1
  · rw [step_frame cfg name cr sa role w k hne]
    exact hk

/-- An iteration over a settled binding changes no stored binding, and its only
possible write is an Update that rewrites the binding as it is stored. -/
theorem step_settled_idle (cfg : Config) (name : String) (cr : ArgoCD) (sa : ServiceAccount)
    (role : Role) (w : World)
    (hs : Settled cfg name cr sa w.bindings role) :
    (reconcileRoleBindingFor cfg name cr sa role w).2.bindings = w.bindings ∧
      ∃ ops, (reconcileRoleBindingFor cfg name cr sa role w).2.trace = w.trace ++ ops ∧
        ∀ op ∈ ops, op.isWrite = true →
          ∃ rb e, op = Op.update rb e ∧ storeGet w.bindings rb.key = some rb := by
  have h := step_outcome cfg name cr sa role w
  generalize reconcileRoleBindingFor cfg name cr sa role w = r at h ⊢
  unfold Settled at hs
  by_cases hd : dexOff cfg name
  · rw [if_pos hd] at hs
    cases h with
    | getFault f hf => exact ⟨rfl, [_], rfl, by simp [Op.isWrite]⟩
    | absentDisabled hf hg hd1 => exact ⟨rfl, [_], rfl, by simp [Op.isWrite]⟩
    | absentCreateFault f hf hg hd1 hf1 => exact absurd hd hd1
    | absentCreate hf hg hd1 hf1 => exact absurd hd hd1
    | foundDisabledFault old f hf hg hd1 hf1 => rw [hs] at hg; cases hg
    | foundDisabled old hf hg hd1 hf1 => rw [hs] at hg; cases hg
    | staleDeleteFault old f hf hg hd1 hr hf1 => exact absurd hd hd1
    | staleCreateFault old f hf hg hd1 hr hf1 hf2 => exact absurd hd hd1
    | staleRecreate old hf hg hd1 hr hf1 hf2 => exact absurd hd hd1
    | sameUpdateFault old f hf hg hd1 hr hf1 => exact absurd hd hd1
    | sameUpdate old hf hg hd1 hr hf1 => exact absurd hd hd1
  · rw [if_neg hd] at hs
    obtain ⟨cur, hcur, hsub, href⟩ := hs
    have hself : ∀ old, storeGet w.bindings (bindingKey name cr role) = some old →
        ({ old with Subjects := [subjectFor sa] } : RoleBinding) = old := by
      intro old hold
      rw [hcur] at hold
      cases hold
      cases cur
      simp only at hsub
      subst hsub
      rfl
    have hstored : ∀ old, storeGet w.bindings (bindingKey name cr role) = some old →
        storeGet w.bindings ({ old with Subjects := [subjectFor sa] } : RoleBinding).key
          = some { old with Subjects := [subjectFor sa] } := by
      intro old hold
      rw [hself old hold, storeGet_key hold]
      exact hold
    cases h with
    | getFault f hf => exact ⟨rfl, [_], rfl, by simp [Op.isWrite]⟩
    | absentDisabled hf hg hd1 => exact absurd hd1 hd
    | absentCreateFault f hf hg hd1 hf1 => rw [hcur] at hg; cases hg
    | absentCreate hf hg hd1 hf1 => rw [hcur] at hg; cases hg
    | foundDisabledFault old f hf hg hd1 hf1 => exact absurd hd1 hd
    | foundDisabled old hf hg hd1 hf1 => exact absurd hd1 hd
    | staleDeleteFault old f hf hg hd1 hr hf1 =>
      rw [hcur] at hg; cases hg; exact absurd href hr
    | staleCreateFault old f hf hg hd1 hr hf1 hf2 =>
      rw [hcur] at hg; cases hg; exact absurd href hr
    | staleRecreate old hf hg hd1 hr hf1 hf2 =>
      rw [hcur] at hg; cases hg; exact absurd href hr
    | sameUpdateFault old f hf hg hd1 hr hf1 =>
      refine ⟨rfl, [Op.get (bindingKey name cr role) (some old) none,
        Op.update { old with Subjects := [subjectFor sa] } (some (.fault f))], by simp, ?_⟩
      intro op hop hw
      simp only [List.mem_cons, List.mem_singleton, List.not_mem_nil, or_false] at hop
      rcases hop with rfl | rfl
      · simp [Op.isWrite] at hw
      · exact ⟨_, _, rfl, hstored old hg⟩
    | sameUpdate old hf hg hd1 hr hf1 =>
      refine ⟨?_, [Op.get (bindingKey name cr role) (some old) none,
        Op.update { old with Subjects := [subjectFor sa] } none], by simp, ?_⟩
      · exact storeUpdate_self (hstored old hg)
      · intro op hop hw
        simp only [List.mem_cons, List.mem_singleton, List.not_mem_nil, or_false] at hop
        rcases hop with rfl | rfl
        · simp [Op.isWrite] at hw
        · exact ⟨_, _, rfl, hstored old hg⟩

theorem stepOp_targetNamespace {cfg : Config} {name : String} {cr : ArgoCD}
    {sa : ServiceAccount} {role : Role} {op : Op} (h : StepOp cfg name cr sa role op) :
    op.targetNamespace = some role.Namespace := by
  cases h with
  | get found e => rfl
  | create e hd =>
    have := congrArg NamespacedName.Namespace (created_key cfg name cr sa role)
    exact congrArg some this
  | delete old e hk h =>
    have := congrArg NamespacedName.Namespace hk
    exact congrArg some this
  | update old e hk hd hr =>
    have := congrArg NamespacedName.Namespace hk
    exact congrArg some this

theorem stepOp_isStoreCall {cfg : Config} {name : String} {cr : ArgoCD}
    {sa : ServiceAccount} {role : Role} {op : Op} (h : StepOp cfg name cr sa role op) :
    op.isStoreCall = true := by
  cases h <;> rfl

/-! ## The loop over the roles -/

theorem loop_cons_ok {cfg : Config} {name : String} {cr : ArgoCD} {sa : ServiceAccount}
    {role : Role} {roles : List Role} {w : World}
    (h : (reconcileRoleBindingFor cfg name cr sa role w).1 = .ok ()) :
    reconcileRoleBindingLoop cfg name cr sa (role :: roles) w
      = reconcileRoleBindingLoop cfg name cr sa roles
          (reconcileRoleBindingFor cfg name cr sa role w).2 := by
  rw [reconcileRoleBindingLoop]
  generalize reconcileRoleBindingFor cfg name cr sa role w = r at h ⊢
  obtain ⟨res, w1⟩ := r
  cases res with
  | error e => cases h
  | ok u => rfl

theorem loop_cons_error {cfg : Config} {name : String} {cr : ArgoCD} {sa : ServiceAccount}
    {role : Role} {roles : List Role} {w : World} {e : Err}
    (h : (reconcileRoleBindingFor cfg name cr sa role w).1 = .error e) :
    reconcileRoleBindingLoop cfg name cr sa (role :: roles) w
      = (.error e, (reconcileRoleBindingFor cfg name cr sa role w).2) := by
  rw [reconcileRoleBindingLoop]
  generalize reconcileRoleBindingFor cfg name cr sa role w = r at h ⊢
  obtain ⟨res, w1⟩ := r
  cases res with
  | error e1 => cases h; rfl
  | ok u => cases h

theorem result_cases (res : Except Err Unit) : res = .ok () ∨ ∃ e, res = .error e := by
  cases res with
  | error e => exact Or.inr ⟨e, rfl⟩
  | ok u => exact Or.inl rfl

/-- The loop leaves every binding stored under a key of no iteration as it was. -/
theorem loop_frame (cfg : Config) (name : String) (cr : ArgoCD) (sa : ServiceAccount)
    (roles : List Role) (k : NamespacedName) :
    ∀ w : World, (∀ role ∈ roles, k ≠ bindingKey name cr role) →
      storeGet (reconcileRoleBindingLoop cfg name cr sa roles w).2.bindings k
        = storeGet w.bindings k := by
  induction roles with
  | nil => intro w _; rfl
  | cons role rest ih =>
    intro w hk
    have hstep := step_frame cfg name cr sa role w k (hk role (List.mem_cons_self _ _))
    rcases result_cases (reconcileRoleBindingFor cfg name cr sa role w).1 with hok | ⟨e, he⟩
    · rw [loop_cons_ok hok, ih _ (fun r hr => hk r (List.mem_cons_of_mem _ hr)), hstep]
    · rw [loop_cons_error he]
      exact hstep

theorem clean_append {a b : List Op} (ha : Clean a) (hb : Clean b) : Clean (a ++ b) := by
  intro op hop
  rcases List.mem_append.mp hop with h | h
  · exact ha op h
  · exact hb op h

theorem endsWith_append {res : Except Err Unit} {a b : List Op} (ha : Clean a)
    (hb : EndsWith res b) : EndsWith res (a ++ b) := by
  rcases hb with ⟨hres, hc⟩ | ⟨pre, op, e, hops, hpre, hfail, herr, hres⟩
  · exact Or.inl ⟨hres, clean_append ha hc⟩
  · refine Or.inr ⟨a ++ pre, op, e, ?_, clean_append ha hpre, hfail, herr, hres⟩
    rw [hops, List.append_assoc]

theorem updatesFollowFetch_append {a b : List Op} (ha : UpdatesFollowFetch a)
    (hb : UpdatesFollowFetch b) : UpdatesFollowFetch (a ++ b) := by
  intro rb e hmem
  rcases List.mem_append.mp hmem with h | h
  · obtain ⟨old, hget, heq⟩ := ha rb e h
    exact ⟨old, List.mem_append_left _ hget, heq⟩
  · obtain ⟨old, hget, heq⟩ := hb rb e h
    exact ⟨old, List.mem_append_right _ hget, heq⟩

theorem endsWith_ok_clean {ops : List Op} (h : EndsWith (.ok ()) ops) : Clean ops := by
  rcases h with ⟨_, hc⟩ | ⟨pre, op, e, _, _, _, _, hres⟩
  · exact hc
  · rcases hres with h | ⟨m, h⟩ <;> cases h

/-- What the loop issues, what it leaves, and how it ends. -/
theorem loop_summary (cfg : Config) (name : String) (cr : ArgoCD) (sa : ServiceAccount)
    (roles : List Role) :
    ∀ w : World, ∃ ops,
      (reconcileRoleBindingLoop cfg name cr sa roles w).2.trace = w.trace ++ ops ∧
      (reconcileRoleBindingLoop cfg name cr sa roles w).2.bindings = replay ops w.bindings ∧
      (∀ op ∈ ops, ∃ role ∈ roles, StepOp cfg name cr sa role op) ∧
      EndsWith (reconcileRoleBindingLoop cfg name cr sa roles w).1 ops ∧
      UpdatesFollowFetch ops := by
  induction roles with
  | nil =>
    intro w
    refine ⟨[], by simp [reconcileRoleBindingLoop], rfl, by simp, Or.inl ⟨rfl, by simp [Clean]⟩, ?_⟩
    intro rb e h
    simp at h
  | cons role rest ih =>
    intro w
    obtain ⟨ops1, ht1, hb1, hs1, he1, hu1⟩ := step_summary cfg name cr sa role w
    rcases result_cases (reconcileRoleBindingFor cfg name cr sa role w).1 with hok | ⟨e, he⟩
    · rw [loop_cons_ok hok]
      obtain ⟨ops2, ht2, hb2, hs2, he2, hu2⟩ :=
        ih (reconcileRoleBindingFor cfg name cr sa role w).2
      rw [hok] at he1
      refine ⟨ops1 ++ ops2, ?_, ?_, ?_, endsWith_append (endsWith_ok_clean he1) he2,
        updatesFollowFetch_append hu1 hu2⟩
      · rw [ht2, ht1, List.append_assoc]
      · rw [hb2, hb1, replay_append]
      · intro op hop
        rcases List.mem_append.mp hop with h | h
        · exact ⟨role, List.mem_cons_self _ _, hs1 op h⟩
        · obtain ⟨r, hr, hso⟩ := hs2 op h
          exact ⟨r, List.mem_cons_of_mem _ hr, hso⟩
    · rw [loop_cons_error he]
      rw [he] at he1
      exact ⟨ops1, ht1, hb1, fun op hop => ⟨role, List.mem_cons_self _ _, hs1 op hop⟩, he1, hu1⟩

/-- The calls of the loop address only namespaces of the roles it runs over. -/
theorem loop_ops_namespace (cfg : Config) (name : String) (cr : ArgoCD) (sa : ServiceAccount)
    (roles : List Role) (w : World) (ns : String)
    (hns : ∀ role ∈ roles, role.Namespace ≠ ns) :
    ∃ ops, (reconcileRoleBindingLoop cfg name cr sa roles w).2.trace = w.trace ++ ops ∧
      ∀ op ∈ ops, op.targetNamespace ≠ some ns := by
  obtain ⟨ops, ht, _, hs, _, _⟩ := loop_summary cfg name cr sa roles w
  refine ⟨ops, ht, ?_⟩
  intro op hop heq
  obtain ⟨role, hr, hso⟩ := hs op hop
  rw [stepOp_targetNamespace hso] at heq
  exact hns role hr (Option.some.inj heq)

/-- The iteration of one role within the loop, when the namespaces of the roles
are distinct: the calls before and after it address other namespaces, and the
bindings of its namespace change in that iteration only. -/
theorem loop_focus (cfg : Config) (name : String) (cr : ArgoCD) (sa : ServiceAccount)
    (role : Role) (roles : List Role) :
    (roles.map (fun r => r.Namespace)).Nodup → role ∈ roles → ∀ w : World,
    ∃ pre mid post,
      (reconcileRoleBindingLoop cfg name cr sa roles w).2.trace = w.trace ++ (pre ++ mid ++ post) ∧
      (∀ op ∈ pre ++ post, op.targetNamespace ≠ some role.Namespace) ∧
      ((mid = [] ∧ (reconcileRoleBindingLoop cfg name cr sa roles w).1 ≠ .ok () ∧
          ∀ k : NamespacedName, k.Namespace = role.Namespace →
            storeGet (reconcileRoleBindingLoop cfg name cr sa roles w).2.bindings k
              = storeGet w.bindings k) ∨
        ∃ w1 : World,
          (∀ k : NamespacedName, k.Namespace = role.Namespace →
            storeGet w1.bindings k = storeGet w.bindings k) ∧
          (reconcileRoleBindingFor cfg name cr sa role w1).2.trace = w1.trace ++ mid ∧
          (∀ k : NamespacedName, k.Namespace = role.Namespace →
            storeGet (reconcileRoleBindingLoop cfg name cr sa roles w).2.bindings k
              = storeGet (reconcileRoleBindingFor cfg name cr sa role w1).2.bindings k) ∧
          ((reconcileRoleBindingLoop cfg name cr sa roles w).1 = .ok () →
            (reconcileRoleBindingFor cfg name cr sa role w1).1 = .ok ())) := by
  induction roles with
  | nil => intro _ h; cases h
  | cons r rest ih =>
    intro hnd hmem w
    rw [List.map_cons, List.nodup_cons] at hnd
    obtain ⟨hr_notin, hnd_rest⟩ := hnd
    have hrest_ns : ∀ r' ∈ rest, r'.Namespace ≠ r.Namespace := by
      intro r' hr' heq
      apply hr_notin
      rw [← heq]
      exact List.mem_map_of_mem _ hr'
    obtain ⟨ops1, ht1, -, hs1, -, -⟩ := step_summary cfg name cr sa r w
    by_cases hhead : role = r
    · subst hhead
      rcases result_cases (reconcileRoleBindingFor cfg name cr sa role w).1 with hok | ⟨e, he⟩
      · rw [loop_cons_ok hok]
        obtain ⟨ops2, ht2, hns2⟩ := loop_ops_namespace cfg name cr sa rest
          (reconcileRoleBindingFor cfg name cr sa role w).2 role.Namespace hrest_ns
        refine ⟨[], ops1, ops2, ?_, ?_, Or.inr ⟨w, fun _ _ => rfl, ht1, ?_, fun _ => hok⟩⟩
        · rw [ht2, ht1, List.nil_append, List.append_assoc]
        · intro op hop
          rw [List.nil_append] at hop
          exact hns2 op hop
        · intro k hk
          apply loop_frame
          intro r' hr' heq
          apply hrest_ns r' hr'
          rw [← hk, heq]
          rfl
      · rw [loop_cons_error he]
        refine ⟨[], ops1, [], ?_, ?_, Or.inr ⟨w, fun _ _ => rfl, ht1, fun _ _ => rfl, ?_⟩⟩
        · rw [ht1, List.nil_append, List.append_nil]
        · intro op hop
          simp at hop
        · intro h
          cases h
    · have hmem_rest : role ∈ rest := by
        rcases List.mem_cons.mp hmem with h | h
        · exact absurd h hhead
        · exact h
      have hne : r.Namespace ≠ role.Namespace := fun h => hrest_ns role hmem_rest h.symm
      have hops1 : ∀ op ∈ ops1, op.targetNamespace ≠ some role.Namespace := by
        intro op hop heq
        rw [stepOp_targetNamespace (hs1 op hop)] at heq
        exact hne (Option.some.inj heq)
      have hframe1 : ∀ k : NamespacedName, k.Namespace = role.Namespace →
          storeGet (reconcileRoleBindingFor cfg name cr sa r w).2.bindings k
            = storeGet w.bindings k := by
        intro k hk
        apply step_frame
        apply bindingKey_ne
        rw [hk]
        exact fun h => hne h.symm
      rcases result_cases (reconcileRoleBindingFor cfg name cr sa r w).1 with hok | ⟨e, he⟩
      · rw [loop_cons_ok hok]
        obtain ⟨pre, mid, post, ht, hns, hcase⟩ :=
          ih hnd_rest hmem_rest (reconcileRoleBindingFor cfg name cr sa r w).2
        refine ⟨ops1 ++ pre, mid, post, ?_, ?_, ?_⟩
        · rw [ht, ht1]
          simp only [List.append_assoc]
        · intro op hop
          rcases List.mem_append.mp hop with h | h
          · rcases List.mem_append.mp h with h1 | h2
            · exact hops1 op h1
            · exact hns op (List.mem_append_left _ h2)
          · exact hns op (List.mem_append_right _ h)
        · rcases hcase with ⟨hmid, hres, hfr⟩ | ⟨w1, hfr1, htm, hfr2, hres⟩
          · exact Or.inl ⟨hmid, hres, fun k hk => (hfr k hk).trans (hframe1 k hk)⟩
          · exact Or.inr ⟨w1, fun k hk => (hfr1 k hk).trans (hframe1 k hk), htm, hfr2, hres⟩
      · rw [loop_cons_error he]
        refine ⟨ops1, [], [], ?_, ?_, Or.inl ⟨rfl, ?_, hframe1⟩⟩
        · rw [ht1]
          simp
        · intro op hop
          rw [List.append_nil] at hop
          exact hops1 op hop
        · intro h
          cases h

/-- The loop for the disabled role never makes a key occupied. -/
theorem loop_disabled_mono (cfg : Config) (name : String) (cr : ArgoCD) (sa : ServiceAccount)
    (roles : List Role) (hd : dexOff cfg name) (k : NamespacedName) :
    ∀ w : World, storeGet w.bindings k = none →
      storeGet (reconcileRoleBindingLoop cfg name cr sa roles w).2.bindings k = none := by
  induction roles with
  | nil => intro w h; exact h
  | cons role rest ih =>
    intro w h
    have hstep := step_disabled_mono cfg name cr sa role w hd k h
    rcases result_cases (reconcileRoleBindingFor cfg name cr sa role w).1 with hok | ⟨e, he⟩
    · rw [loop_cons_ok hok]
      exact ih _ hstep
    · rw [loop_cons_error he]
      exact hstep

/-- After a successful loop for the disabled role no governed namespace holds
the binding. -/
theorem loop_disabled (cfg : Config) (name : String) (cr : ArgoCD) (sa : ServiceAccount)
    (roles : List Role) (hd : dexOff cfg name) :
    ∀ w : World, (reconcileRoleBindingLoop cfg name cr sa roles w).1 = .ok () →
      ∀ role ∈ roles,
        storeGet (reconcileRoleBindingLoop cfg name cr sa roles w).2.bindings
          (bindingKey name cr role) = none := by
  induction roles with
  | nil => intro w _ role h; cases h
  | cons r rest ih =>
    intro w hok role hmem
    rcases result_cases (reconcileRoleBindingFor cfg name cr sa r w).1 with hs | ⟨e, he⟩
    · rw [loop_cons_ok hs] at hok ⊢
      rcases List.mem_cons.mp hmem with h | h
      · subst h
        exact loop_disabled_mono cfg name cr sa rest hd _ _
          (step_disabled cfg name cr sa role w hd hs)
      · exact ih _ hok role h
    · rw [loop_cons_error he] at hok
      cases hok

/-- Over settled bindings the loop changes no stored binding, and its only
writes are Updates that rewrite a binding as it is stored. -/
theorem loop_idle (cfg : Config) (name : String) (cr : ArgoCD) (sa : ServiceAccount)
    (b : List RoleBinding) (roles : List Role)
    (hs : ∀ role ∈ roles, Settled cfg name cr sa b role) :
    ∀ w : World, w.bindings = b →
      (reconcileRoleBindingLoop cfg name cr sa roles w).2.bindings = b ∧
      ∃ ops, (reconcileRoleBindingLoop cfg name cr sa roles w).2.trace = w.trace ++ ops ∧
        ∀ op ∈ ops, op.isWrite = true →
          ∃ rb e, op = Op.update rb e ∧ storeGet b rb.key = some rb := by
  induction roles with
  | nil =>
    intro w hw
    exact ⟨hw, [], by simp [reconcileRoleBindingLoop], by simp⟩
  | cons r rest ih =>
    intro w hw
    have hsr : Settled cfg name cr sa w.bindings r := by
      rw [hw]; exact hs r (List.mem_cons_self _ _)
    obtain ⟨hb1, ops1, ht1, hw1⟩ := step_settled_idle cfg name cr sa r w hsr
    rw [hw] at hb1 hw1
    rcases result_cases (reconcileRoleBindingFor cfg name cr sa r w).1 with hok | ⟨e, he⟩
    · rw [loop_cons_ok hok]
      obtain ⟨hb2, ops2, ht2, hw2⟩ :=
        ih (fun role hr => hs role (List.mem_cons_of_mem _ hr)) _ hb1
      refine ⟨hb2, ops1 ++ ops2, ?_, ?_⟩
      · rw [ht2, ht1, List.append_assoc]
      · intro op hop
        rcases List.mem_append.mp hop with h | h
        · exact hw1 op h
        · exact hw2 op h
    · rw [loop_cons_error he]
      exact ⟨hb1, ops1, ht1, hw1⟩

/-- The exact course of a successful iteration that finds a binding with a
role reference other than the desired one. -/
theorem step_stale_ok (cfg : Config) (name : String) (cr : ArgoCD) (sa : ServiceAccount)
    (role : Role) (w : World) (old : RoleBinding) (hd : ¬ dexOff cfg name)
    (hg : storeGet w.bindings (bindingKey name cr role) = some old)
    (hr : old.RoleRef ≠ roleRefFor role)
    (hok : (reconcileRoleBindingFor cfg name cr sa role w).1 = .ok ()) :
    (reconcileRoleBindingFor cfg name cr sa role w).2.trace
        = w.trace ++ [Op.get (bindingKey name cr role) (some old) none, Op.delete old none,
            Op.create (createdRoleBinding cfg name cr sa role) none] ∧
      storeGet (reconcileRoleBindingFor cfg name cr sa role w).2.bindings
        (bindingKey name cr role) = some (createdRoleBinding cfg name cr sa role) := by
  have h := step_outcome cfg name cr sa role w
  generalize reconcileRoleBindingFor cfg name cr sa role w = r at h hok ⊢
  cases h with
  | getFault f hf => cases hok
  | absentDisabled hf hg1 hd1 => exact absurd hd1 hd
  | absentCreateFault f hf hg1 hd1 hf1 => cases hok
  | absentCreate hf hg1 hd1 hf1 => rw [hg] at hg1; cases hg1
  | foundDisabledFault old1 f hf hg1 hd1 hf1 => cases hok
  | foundDisabled old1 hf hg1 hd1 hf1 => exact absurd hd1 hd
  | staleDeleteFault old1 f hf hg1 hd1 hr1 hf1 => cases hok
  | staleCreateFault old1 f hf hg1 hd1 hr1 hf1 hf2 => cases hok
  | staleRecreate old1 hf hg1 hd1 hr1 hf1 hf2 =>
    rw [hg] at hg1
    cases hg1
    refine ⟨by simp, ?_⟩
    have hck := created_key cfg name cr sa role
    have := @storeGet_append_same (storeDelete w.bindings (bindingKey name cr role))
      (createdRoleBinding cfg name cr sa role)
      (by rw [hck]; exact storeGet_delete_same _ _)
    rw [hck] at this
    exact this
  | sameUpdateFault old1 f hf hg1 hd1 hr1 hf1 => cases hok
  | sameUpdate old1 hf hg1 hd1 hr1 hf1 =>
    rw [hg] at hg1
    cases hg1
    exact absurd hr1 hr

/-- The exact course of a successful iteration for the disabled role that
finds a binding. -/
theorem step_found_disabled_ok (cfg : Config) (name : String) (cr : ArgoCD)
    (sa : ServiceAccount) (role : Role) (w : World) (old : RoleBinding) (hd : dexOff cfg name)
    (hg : storeGet w.bindings (bindingKey name cr role) = some old)
    (hok : (reconcileRoleBindingFor cfg name cr sa role w).1 = .ok ()) :
    (reconcileRoleBindingFor cfg name cr sa role w).2.trace
        = w.trace ++ [Op.get (bindingKey name cr role) (some old) none, Op.delete old none] := by
  have h := step_outcome cfg name cr sa role w
  generalize reconcileRoleBindingFor cfg name cr sa role w = r at h hok ⊢
  cases h with
  | getFault f hf => cases hok
  | absentDisabled hf hg1 hd1 => rw [hg] at hg1; cases hg1
  | absentCreateFault f hf hg1 hd1 hf1 => cases hok
  | absentCreate hf hg1 hd1 hf1 => exact absurd hd hd1
  | foundDisabledFault old1 f hf hg1 hd1 hf1 => cases hok
  | foundDisabled old1 hf hg1 hd1 hf1 =>
    rw [hg] at hg1
    cases hg1
    simp
  | staleDeleteFault old1 f hf hg1 hd1 hr1 hf1 => cases hok
  | staleCreateFault old1 f hf hg1 hd1 hr1 hf1 hf2 => cases hok
  | staleRecreate old1 hf hg1 hd1 hr1 hf1 hf2 => exact absurd hd hd1
  | sameUpdateFault old1 f hf hg1 hd1 hr1 hf1 => cases hok
  | sameUpdate old1 hf hg1 hd1 hr1 hf1 => exact absurd hd hd1

/-- The course of an iteration that finds a binding with the desired role
reference: its only write is the Update of the fetched binding with the
subjects replaced. -/
theorem step_same (cfg : Config) (name : String) (cr : ArgoCD) (sa : ServiceAccount)
    (role : Role) (w : World) (old : RoleBinding) (hd : ¬ dexOff cfg name)
    (hg : storeGet w.bindings (bindingKey name cr role) = some old)
    (hr : old.RoleRef = roleRefFor role) :
    ∃ ops, (reconcileRoleBindingFor cfg name cr sa role w).2.trace = w.trace ++ ops ∧
      (∀ op ∈ ops, op.isWrite = true →
        ∃ e, op = Op.update { old with Subjects := [subjectFor sa] } e) ∧
      ((reconcileRoleBindingFor cfg name cr sa role w).1 = .ok () →
        ops = [Op.get (bindingKey name cr role) (some old) none,
          Op.update { old with Subjects := [subjectFor sa] } none]) := by
  have h := step_outcome cfg name cr sa role w
  generalize reconcileRoleBindingFor cfg name cr sa role w = r at h ⊢
  cases h with
  | getFault f hf =>
    exact ⟨[Op.get (bindingKey name cr role) none (some (.fault f))], rfl,
      by simp [Op.isWrite], fun h => by cases h⟩
  | absentDisabled hf hg1 hd1 => exact absurd hd1 hd
  | absentCreateFault f hf hg1 hd1 hf1 => rw [hg] at hg1; cases hg1
  | absentCreate hf hg1 hd1 hf1 => rw [hg] at hg1; cases hg1
  | foundDisabledFault old1 f hf hg1 hd1 hf1 => exact absurd hd1 hd
  | foundDisabled old1 hf hg1 hd1 hf1 => exact absurd hd1 hd
  | staleDeleteFault old1 f hf hg1 hd1 hr1 hf1 =>
    rw [hg] at hg1; cases hg1; exact absurd hr hr1
  | staleCreateFault old1 f hf hg1 hd1 hr1 hf1 hf2 =>
    rw [hg] at hg1; cases hg1; exact absurd hr hr1
  | staleRecreate old1 hf hg1 hd1 hr1 hf1 hf2 =>
    rw [hg] at hg1; cases hg1; exact absurd hr hr1
  | sameUpdateFault old1 f hf hg1 hd1 hr1 hf1 =>
    rw [hg] at hg1
    cases hg1
    refine ⟨[Op.get (bindingKey name cr role) (some old) none,
      Op.update { old with Subjects := [subjectFor sa] } (some (.fault f))], by simp, ?_,
      fun h => by cases h⟩
    intro op hop hw
    simp only [List.mem_cons, List.mem_singleton, List.not_mem_nil, or_false] at hop
    rcases hop with rfl | rfl
    · simp [Op.isWrite] at hw
    · exact ⟨_, rfl⟩
  | sameUpdate old1 hf hg1 hd1 hr1 hf1 =>
    rw [hg] at hg1
    cases hg1
    refine ⟨[Op.get (bindingKey name cr role) (some old) none,
      Op.update { old with Subjects := [subjectFor sa] } none], by simp, ?_, fun _ => rfl⟩
    intro op hop hw
    simp only [List.mem_cons, List.mem_singleton, List.not_mem_nil, or_false] at hop
    rcases hop with rfl | rfl
    · simp [Op.isWrite] at hw
    · exact ⟨_, rfl⟩

/-! ## The whole pass -/

theorem pass_eq_loop {cfg : Config} {name : String} {rules : List PolicyRule} {cr : ArgoCD}
    {sa : ServiceAccount} {roles : List Role} (w : World)
    (hsa : cfg.reconcileServiceAccount name cr = .ok sa)
    (hroles : cfg.reconcileRole name rules cr = .ok roles) :
    reconcileRoleBinding cfg name rules cr w
      = reconcileRoleBindingLoop cfg name cr sa roles (afterSteps name w) := by
  unfold reconcileRoleBinding
  rw [hsa]
  simp only
  rw [hroles]
  rfl

theorem pass_identity_error {cfg : Config} {name : String} {rules : List PolicyRule}
    {cr : ArgoCD} {e : Err} (w : World) (hsa : cfg.reconcileServiceAccount name cr = .error e) :
    reconcileRoleBinding cfg name rules cr w
      = (.error e, { w with trace := w.trace ++ [Op.reconcileServiceAccount name (some e)] }) := by
  unfold reconcileRoleBinding
  rw [hsa]

theorem pass_rule_error {cfg : Config} {name : String} {rules : List PolicyRule}
    {cr : ArgoCD} {sa : ServiceAccount} {e : Err} (w : World)
    (hsa : cfg.reconcileServiceAccount name cr = .ok sa)
    (hroles : cfg.reconcileRole name rules cr = .error e) :
    reconcileRoleBinding cfg name rules cr w
      = (.error e, { w with trace := w.trace ++
          [Op.reconcileServiceAccount name none, Op.reconcileRole name (some e)] }) := by
  unfold reconcileRoleBinding
  rw [hsa]
  simp only
  rw [hroles]

/-- What a pass issues, what it leaves, and how it ends. -/
theorem pass_summary (cfg : Config) (name : String) (rules : List PolicyRule) (cr : ArgoCD)
    (w : World) :
    ∃ ops, (reconcileRoleBinding cfg name rules cr w).2.trace = w.trace ++ ops ∧
      (reconcileRoleBinding cfg name rules cr w).2.bindings = replay ops w.bindings ∧
      EndsWith (reconcileRoleBinding cfg name rules cr w).1 ops ∧
      UpdatesFollowFetch ops ∧
      ∀ op ∈ ops, op.isStoreCall = true →
        ∃ sa roles role, cfg.reconcileServiceAccount name cr = .ok sa ∧
          cfg.reconcileRole name rules cr = .ok roles ∧ role ∈ roles ∧
          StepOp cfg name cr sa role op := by
  cases hsa : cfg.reconcileServiceAccount name cr with
  | error e =>
    rw [pass_identity_error w hsa]
    refine ⟨[Op.reconcileServiceAccount name (some e)], rfl, rfl, ?_, ?_, ?_⟩
    · exact Or.inr ⟨[], _, e, rfl, by simp [Clean], rfl, rfl, Or.inl rfl⟩
    · intro rb e1 h
      simp at h
    · intro op hop hsc
      simp only [List.mem_singleton] at hop
      subst hop
      cases hsc
  | ok sa =>
    cases hroles : cfg.reconcileRole name rules cr with
    | error e =>
      rw [pass_rule_error w hsa hroles]
      refine ⟨[Op.reconcileServiceAccount name none, Op.reconcileRole name (some e)],
        rfl, rfl, ?_, ?_, ?_⟩
      · exact Or.inr ⟨[_], _, e, rfl, by simp [Clean, Op.failed, Op.err], rfl, rfl, Or.inl rfl⟩
      · intro rb e1 h
        simp at h
      · intro op hop hsc
        simp only [List.mem_cons, List.mem_singleton, List.not_mem_nil, or_false] at hop
        rcases hop with rfl | rfl <;> cases hsc
    | ok roles =>
      rw [pass_eq_loop w hsa hroles]
      obtain ⟨ops, ht, hb, hs, he, hu⟩ := loop_summary cfg name cr sa roles (afterSteps name w)
      refine ⟨[Op.reconcileServiceAccount name none, Op.reconcileRole name none] ++ ops,
        ?_, ?_, ?_, ?_, ?_⟩
      · rw [ht]
        simp [afterSteps]
      · rw [hb, replay_append]
        rfl
      · exact endsWith_append (by simp [Clean, Op.failed, Op.err]) he
      · apply updatesFollowFetch_append _ hu
        intro rb e h
        simp at h
      · intro op hop hsc
        rcases List.mem_append.mp hop with h | h
        · simp only [List.mem_cons, List.mem_singleton, List.not_mem_nil, or_false] at h
          rcases h with rfl | rfl <;> cases hsc
        · obtain ⟨role, hr, hso⟩ := hs op h
          exact ⟨sa, roles, role, rfl, rfl, hr, hso⟩

theorem mapGet_mapSet (m : StrMap) (k v : String) : mapGet (mapSet m k v) k = some v := by
  induction m with
  | nil => simp [mapSet, mapGet]
  | cons p ps ih =>
    unfold mapSet
    by_cases h : p.1 = k
    · simp [h, mapGet]
    · simp only [if_neg h]
      unfold mapGet at ih ⊢
      simp only [List.find?_cons, h, decide_False]
      exact ih

/-- The trace of a pass whose delegated steps succeed, around the iteration of
one role. -/
theorem pass_focus (cfg : Config) (name : String) (rules : List PolicyRule) (cr : ArgoCD)
    (sa : ServiceAccount) (roles : List Role) (w : World) (role : Role)
    (hsa : cfg.reconcileServiceAccount name cr = .ok sa)
    (hroles : cfg.reconcileRole name rules cr = .ok roles)
    (hnd : (roles.map (fun r => r.Namespace)).Nodup) (hrole : role ∈ roles) :
    ∃ pre mid post,
      issued w (reconcileRoleBinding cfg name rules cr w).2 = pre ++ mid ++ post ∧
      (∀ op ∈ pre ++ post, op.targetNamespace ≠ some role.Namespace) ∧
      ((mid = [] ∧ (reconcileRoleBinding cfg name rules cr w).1 ≠ .ok ()) ∨
        ∃ w1 : World,
          storeGet w1.bindings (bindingKey name cr role)
            = storeGet w.bindings (bindingKey name cr role) ∧
          (reconcileRoleBindingFor cfg name cr sa role w1).2.trace = w1.trace ++ mid ∧
          storeGet (reconcileRoleBinding cfg name rules cr w).2.bindings (bindingKey name cr role)
            = storeGet (reconcileRoleBindingFor cfg name cr sa role w1).2.bindings
                (bindingKey name cr role) ∧
          ((reconcileRoleBinding cfg name rules cr w).1 = .ok () →
            (reconcileRoleBindingFor cfg name cr sa role w1).1 = .ok ())) := by
  rw [pass_eq_loop w hsa hroles]
  obtain ⟨pre, mid, post, ht, hns, hcase⟩ :=
    loop_focus cfg name cr sa role roles hnd hrole (afterSteps name w)
  have htr : (reconcileRoleBindingLoop cfg name cr sa roles (afterSteps name w)).2.trace
      = w.trace ++ (([Op.reconcileServiceAccount name none, Op.reconcileRole name none] ++ pre)
          ++ mid ++ post) := by
    rw [ht]
    simp [afterSteps]
  refine ⟨[Op.reconcileServiceAccount name none, Op.reconcileRole name none] ++ pre, mid, post,
    issued_of_append htr, ?_, ?_⟩
  · intro op hop
    rcases List.mem_append.mp hop with h | h
    · rcases List.mem_append.mp h with h1 | h2
      · simp only [List.mem_cons, List.mem_singleton, List.not_mem_nil, or_false] at h1
        rcases h1 with rfl | rfl <;> simp [Op.targetNamespace]
      · exact hns op (List.mem_append_left _ h2)
    · exact hns op (List.mem_append_right _ h)
  · rcases hcase with ⟨hmid, hres, -⟩ | ⟨w1, hfr1, htm, hfr2, hstep⟩
    · exact Or.inl ⟨hmid, hres⟩
    · exact Or.inr ⟨w1, hfr1 _ rfl, htm, hfr2 _ rfl, hstep⟩

theorem filter_eq_nil_of_forall {p : Op → Bool} {ops : List Op}
    (h : ∀ op ∈ ops, p op = false) : ops.filter p = [] := by
  induction ops with
  | nil => rfl
  | cons a as ih =>
    have ha : p a = false := h a (List.mem_cons_self _ _)
    rw [List.filter_cons, ha]
    exact ih (fun op hop => h op (List.mem_cons_of_mem _ hop))

theorem endsWith_failed_last {res : Except Err Unit} {ops pre post : List Op} {op : Op}
    (h : EndsWith res ops) (hops : ops = pre ++ op :: post) (hf : op.failed = true) :
    post = [] ∧ ∃ e, op.err = some e ∧ (res = .error e ∨ ∃ msg, res = .error (.wrapped msg e)) := by
  rcases h with ⟨-, hc⟩ | ⟨pre1, op1, e, hops1, hpre1, -, herr, hres⟩
  · have := hc op (by rw [hops]; simp)
    rw [hf] at this
    cases this
  · rw [hops1] at hops
    have hnot : op ∉ pre1 := by
      intro hmem
      have := hpre1 op hmem
      rw [hf] at this
      cases this
    rcases List.append_eq_append_iff.mp hops with ⟨a, ha, hb⟩ | ⟨c, hc1, hc2⟩
    · -- pre = pre1 ++ a, [op1] = a ++ op :: post
      cases a with
      | nil =>
        simp only [List.nil_append, List.cons.injEq] at hb
        obtain ⟨h1, h2⟩ := hb
        subst h1
        exact ⟨h2.symm, e, herr, hres⟩
      | cons x xs =>
        simp only [List.cons_append, List.cons.injEq] at hb
        obtain ⟨-, h2⟩ := hb
        have := congrArg List.length h2
        simp at this
        omega
    · -- pre1 = pre ++ c, op :: post = c ++ [op1]
      cases c with
      | nil =>
        simp only [List.nil_append, List.cons.injEq] at hc2
        obtain ⟨h1, h2⟩ := hc2
        subst h1
        exact ⟨h2, e, herr, hres⟩
      | cons x xs =>
        simp only [List.cons_append, List.cons.injEq] at hc2
        obtain ⟨h1, -⟩ := hc2
        subst h1
        exact absurd (by rw [hc1]; simp) hnot

/-! ## A pass over settled bindings -/

theorem nextFault_nil {w : World} (h : w.faults = []) : w.nextFault = none := by
  unfold World.nextFault
  rw [h]

theorem record_faults_nil {w : World} (h : w.faults = []) (b : List RoleBinding) (op : Op) :
    (w.record b op).faults = [] := by
  show w.faults.tail = []
  rw [h]
  rfl

/-- When the store injects no failure, an iteration succeeds, and the store
injects no failure afterwards. -/
theorem step_no_fault (cfg : Config) (name : String) (cr : ArgoCD) (sa : ServiceAccount)
    (role : Role) (w : World) (h0 : w.faults = []) :
    (reconcileRoleBindingFor cfg name cr sa role w).1 = .ok () ∧
      (reconcileRoleBindingFor cfg name cr sa role w).2.faults = [] := by
  have h := step_outcome cfg name cr sa role w
  generalize reconcileRoleBindingFor cfg name cr sa role w = r at h ⊢
  have hn : w.nextFault = none := nextFault_nil h0
  have hn1 : ∀ b op, (w.record b op).nextFault = none :=
    fun b op => nextFault_nil (record_faults_nil h0 b op)
  have hn2 : ∀ b op b2 op2, ((w.record b op).record b2 op2).nextFault = none :=
    fun b op b2 op2 => nextFault_nil (record_faults_nil (record_faults_nil h0 b op) b2 op2)
  have hr1 : ∀ b op, (w.record b op).faults = [] := fun b op => record_faults_nil h0 b op
  have hr2 : ∀ b op b2 op2, ((w.record b op).record b2 op2).faults = [] :=
    fun b op b2 op2 => record_faults_nil (hr1 b op) b2 op2
  have hr3 : ∀ b op b2 op2 b3 op3,
      (((w.record b op).record b2 op2).record b3 op3).faults = [] :=
    fun b op b2 op2 b3 op3 => record_faults_nil (hr2 b op b2 op2) b3 op3
  cases h with
  | getFault f hf => rw [hn] at hf; cases hf
  | absentDisabled hf hg hd => exact ⟨rfl, hr1 _ _⟩
  | absentCreateFault f hf hg hd hf1 => rw [hn1] at hf1; cases hf1
  | absentCreate hf hg hd hf1 => exact ⟨rfl, hr2 _ _ _ _⟩
  | foundDisabledFault old f hf hg hd hf1 => rw [hn1] at hf1; cases hf1
  | foundDisabled old hf hg hd hf1 => exact ⟨rfl, hr2 _ _ _ _⟩
  | staleDeleteFault old f hf hg hd hr hf1 => rw [hn1] at hf1; cases hf1
  | staleCreateFault old f hf hg hd hr hf1 hf2 => rw [hn2] at hf2; cases hf2
  | staleRecreate old hf hg hd hr hf1 hf2 => exact ⟨rfl, hr3 _ _ _ _ _ _⟩
  | sameUpdateFault old f hf hg hd hr hf1 => rw [hn1] at hf1; cases hf1
  | sameUpdate old hf hg hd hr hf1 => exact ⟨rfl, hr2 _ _ _ _⟩

/-- When the store injects no failure, the loop succeeds. -/
theorem loop_no_fault (cfg : Config) (name : String) (cr : ArgoCD) (sa : ServiceAccount)
    (roles : List Role) :
    ∀ w : World, w.faults = [] →
      (reconcileRoleBindingLoop cfg name cr sa roles w).1 = .ok () := by
  induction roles with
  | nil =>
    intro w _
    rfl
  | cons r rest ih =>
    intro w h0
    obtain ⟨hok, hf⟩ := step_no_fault cfg name cr sa r w h0
    rw [loop_cons_ok hok]
    exact ih _ hf

/-- A successful iteration over a settled binding of a role that is not
disabled: the binding is fetched, then rewritten as it is by an Update. -/
theorem step_settled_ok (cfg : Config) (name : String) (cr : ArgoCD) (sa : ServiceAccount)
    (role : Role) (w : World) (hd : ¬ dexOff cfg name)
    (hs : Settled cfg name cr sa w.bindings role)
    (hok : (reconcileRoleBindingFor cfg name cr sa role w).1 = .ok ()) :
    ∃ rb, storeGet w.bindings (bindingKey name cr role) = some rb ∧
      (reconcileRoleBindingFor cfg name cr sa role w).2.trace
        = w.trace ++ [Op.get rb.key (some rb) none, Op.update rb none] := by
  unfold Settled at hs
  rw [if_neg hd] at hs
  obtain ⟨cur, hcur, hsub, href⟩ := hs
  obtain ⟨ops, ht, -, hops⟩ := step_same cfg name cr sa role w cur hd hcur href
  have hself : ({ cur with Subjects := [subjectFor sa] } : RoleBinding) = cur := by
    cases cur
    simp only at hsub
    subst hsub
    rfl
  refine ⟨cur, hcur, ?_⟩
  rw [ht, hops hok, hself, storeGet_key hcur]

/-- A successful loop over settled bindings of a role that is not disabled
fetches and rewrites the binding of every role, in the order of the roles, and
issues nothing else. -/
theorem loop_settled_ok (cfg : Config) (name : String) (cr : ArgoCD) (sa : ServiceAccount)
    (b : List RoleBinding) (roles : List Role) (hd : ¬ dexOff cfg name)
    (hs : ∀ role ∈ roles, Settled cfg name cr sa b role) :
    ∀ w : World, w.bindings = b →
      (reconcileRoleBindingLoop cfg name cr sa roles w).1 = .ok () →
      ∃ found,
        List.Forall₂ (fun role rb => storeGet b (bindingKey name cr role) = some rb)
          roles found ∧
        (reconcileRoleBindingLoop cfg name cr sa roles w).2.trace
          = w.trace ++ rewriteOps found := by
  induction roles with
  | nil =>
    intro w _ _
    exact ⟨[], List.Forall₂.nil, by simp [reconcileRoleBindingLoop, rewriteOps]⟩
  | cons r rest ih =>
    intro w hw hok
    have hsr : Settled cfg name cr sa w.bindings r := by
      rw [hw]
      exact hs r (List.mem_cons_self _ _)
    rcases result_cases (reconcileRoleBindingFor cfg name cr sa r w).1 with hstep | ⟨e, he⟩
    · obtain ⟨rb, hrb, ht1⟩ := step_settled_ok cfg name cr sa r w hd hsr hstep
      have hb1 := (step_settled_idle cfg name cr sa r w hsr).1
      rw [loop_cons_ok hstep] at hok ⊢
      obtain ⟨found, hall, ht2⟩ :=
        ih (fun role hr => hs role (List.mem_cons_of_mem _ hr)) _ (hb1.trans hw) hok
      rw [hw] at hrb
      refine ⟨rb :: found, List.Forall₂.cons hrb hall, ?_⟩
      rw [ht2, ht1, List.append_assoc]
      rfl
    · rw [loop_cons_error he] at hok
      cases hok

/-! ## Claims about `reconcileRoleBinding` -/

/-- C1. When the identity step returns `sa`, the rule step returns roles with
distinct namespaces, the role is not the disabled Dex role and
`reconcileRoleBinding` returns no error, then for every returned role the store
holds, in the namespace of that role, a binding named `<spec-name>-<roleId>`
whose subject list is exactly the service account `sa` and whose role reference
is that Role, whatever the store held before the pass. -/
theorem reconcileRoleBinding_ensures_binding (cfg : Config) (name : String)
    (rules : List PolicyRule) (cr : ArgoCD) (sa : ServiceAccount) (roles : List Role)
    (w : World)
    (hsa : cfg.reconcileServiceAccount name cr = .ok sa)
    (hroles : cfg.reconcileRole name rules cr = .ok roles)
    (hnd : (roles.map (fun r => r.Namespace)).Nodup)
    (hd : ¬ (name = cfg.dexServer ∧ cfg.isDexDisabled = true))
    (hok : (reconcileRoleBinding cfg name rules cr w).1 = .ok ())
    (role : Role) (hrole : role ∈ roles) :
    ∃ rb, storeGet (reconcileRoleBinding cfg name rules cr w).2.bindings
        { Namespace := role.Namespace, Name := cr.Name ++ "-" ++ name } = some rb ∧
      rb.Name = cr.Name ++ "-" ++ name ∧ rb.Namespace = role.Namespace ∧
      rb.Subjects = [{ Kind := "ServiceAccount", Name := sa.Name, Namespace := sa.Namespace }] ∧
      rb.RoleRef = { APIGroup := "rbac.authorization.k8s.io", Kind := "Role", Name := role.Name } := by
  rw [pass_eq_loop w hsa hroles] at hok ⊢
  obtain ⟨pre, mid, post, -, -, hcase⟩ :=
    loop_focus cfg name cr sa role roles hnd hrole (afterSteps name w)
  rcases hcase with ⟨-, hres, -⟩ | ⟨w1, -, -, hfr, hstep⟩
  · exact absurd hok hres
  · obtain ⟨rb, hget, hsub, href⟩ := step_ensures cfg name cr sa role w1 hd (hstep hok)
    have hkey := storeGet_key hget
    refine ⟨rb, (hfr (bindingKey name cr role) rfl).trans hget, ?_, ?_, hsub, href⟩
    · exact congrArg NamespacedName.Name hkey
    · exact congrArg NamespacedName.Namespace hkey

/-- C1 on the scenario: the binding of `team-b`, stored with another role
reference and subject before the pass, is stored as desired after it. -/
theorem reconcileRoleBinding_ensures_binding_witness :
    ∃ rb, storeGet (reconcileRoleBinding demoXrb "xrb" [] demoCR demoWorld).2.bindings
        { Namespace := "team-b", Name := "argocd" ++ "-" ++ "xrb" } = some rb ∧
      rb.Name = "argocd" ++ "-" ++ "xrb" ∧ rb.Namespace = "team-b" ∧
      rb.Subjects = [{ Kind := "ServiceAccount", Name := "argocd-xrb", Namespace := "argocd" }] ∧
      rb.RoleRef =
        { APIGroup := "rbac.authorization.k8s.io", Kind := "Role", Name := "argocd-xrb" } :=
  reconcileRoleBinding_ensures_binding demoXrb "xrb" [] demoCR demoSA demoRoles demoWorld
    rfl rfl (by decide) (by decide) (by rfl) (demoRole "team-b" "argocd-xrb") (by decide)

/-- C2 (as stated, refuted). On an empty store with one governed namespace the
first pass succeeds, and the second pass, run on the store the first one left,
issues a write: the Update of the binding it has just created. -/
theorem reconcileRoleBinding_second_pass_writes :
    (reconcileRoleBinding (demoConfig false (.ok demoSA) (.ok [demoRole "argocd" "argocd-xrb"]))
        "xrb" [] demoCR {}).1 = .ok () ∧
      (issued
        (reconcileRoleBinding (demoConfig false (.ok demoSA) (.ok [demoRole "argocd" "argocd-xrb"]))
          "xrb" [] demoCR {}).2
        (reconcileRoleBinding (demoConfig false (.ok demoSA) (.ok [demoRole "argocd" "argocd-xrb"]))
          "xrb" [] demoCR
          (reconcileRoleBinding
            (demoConfig false (.ok demoSA) (.ok [demoRole "argocd" "argocd-xrb"]))
            "xrb" [] demoCR {}).2).2).any Op.isWrite = true := by
  decide

/-- C2 (amended). If a first pass succeeds over roles with distinct namespaces
and the stored bindings are not changed in between, a second pass with the same
arguments issues no Create and no Delete and leaves the stored bindings as they
are: every write it issues is an Update that rewrites a binding with the
content it already has in the store. It does issue these Updates: when no call
on the store fails the second pass succeeds, and a second pass that succeeds
for a role that is not disabled issues, after the two delegated steps, exactly
the Get and the Update of the binding stored for each role, in the order of the
roles. For the disabled role it finds no binding and issues no write. -/
theorem reconcileRoleBinding_second_pass (cfg : Config) (name : String)
    (rules : List PolicyRule) (cr : ArgoCD) (sa : ServiceAccount) (roles : List Role)
    (w w2 : World)
    (hsa : cfg.reconcileServiceAccount name cr = .ok sa)
    (hroles : cfg.reconcileRole name rules cr = .ok roles)
    (hnd : (roles.map (fun r => r.Namespace)).Nodup)
    (hok : (reconcileRoleBinding cfg name rules cr w).1 = .ok ())
    (hsame : w2.bindings = (reconcileRoleBinding cfg name rules cr w).2.bindings) :
    (reconcileRoleBinding cfg name rules cr w2).2.bindings = w2.bindings ∧
      (∀ op ∈ issued w2 (reconcileRoleBinding cfg name rules cr w2).2, op.isWrite = true →
        ∃ rb e, op = Op.update rb e ∧ storeGet w2.bindings rb.key = some rb) ∧
      (w2.faults = [] → (reconcileRoleBinding cfg name rules cr w2).1 = .ok ()) ∧
      ((reconcileRoleBinding cfg name rules cr w2).1 = .ok () → ¬ dexOff cfg name →
        ∃ found,
          List.Forall₂
            (fun role rb => storeGet w2.bindings (bindingKey name cr role) = some rb)
            roles found ∧
          issued w2 (reconcileRoleBinding cfg name rules cr w2).2
            = Op.reconcileServiceAccount name none :: Op.reconcileRole name none
                :: rewriteOps found) ∧
      (dexOff cfg name →
        ∀ op ∈ issued w2 (reconcileRoleBinding cfg name rules cr w2).2,
          op.isWrite = false) := by
  have hsettled : ∀ role ∈ roles, Settled cfg name cr sa w2.bindings role := by
    intro role hrole
    rw [hsame]
    rw [pass_eq_loop w hsa hroles] at hok ⊢
    unfold Settled
    by_cases hd : dexOff cfg name
    · rw [if_pos hd]
      exact loop_disabled cfg name cr sa roles hd _ hok role hrole
    · rw [if_neg hd]
      obtain ⟨pre, mid, post, -, -, hcase⟩ :=
        loop_focus cfg name cr sa role roles hnd hrole (afterSteps name w)
      rcases hcase with ⟨-, hres, -⟩ | ⟨w1, -, -, hfr, hstep⟩
      · exact absurd hok hres
      · obtain ⟨rb, hget, hsub, href⟩ := step_ensures cfg name cr sa role w1 hd (hstep hok)
        exact ⟨rb, (hfr (bindingKey name cr role) rfl).trans hget, hsub, href⟩
  rw [pass_eq_loop w2 hsa hroles]
  obtain ⟨hb, ops, ht, hw⟩ :=
    loop_idle cfg name cr sa w2.bindings roles hsettled (afterSteps name w2) rfl
  have htr : (reconcileRoleBindingLoop cfg name cr sa roles (afterSteps name w2)).2.trace
      = w2.trace ++ ([Op.reconcileServiceAccount name none, Op.reconcileRole name none] ++ ops) := by
    rw [ht]
    simp [afterSteps]
  have hwrites : ∀ op ∈ issued w2
      (reconcileRoleBindingLoop cfg name cr sa roles (afterSteps name w2)).2,
      op.isWrite = true →
        ∃ rb e, op = Op.update rb e ∧ storeGet w2.bindings rb.key = some rb := by
    rw [issued_of_append htr]
    intro op hop hwr
    rcases List.mem_append.mp hop with h | h
    · simp only [List.mem_cons, List.mem_singleton, List.not_mem_nil, or_false] at h
      rcases h with rfl | rfl <;> cases hwr
    · exact hw op h hwr
  refine ⟨hb, hwrites, ?_, ?_, ?_⟩
  · intro h0
    exact loop_no_fault cfg name cr sa roles (afterSteps name w2) h0
  · intro hok2 hd
    obtain ⟨found, hall, hft⟩ :=
      loop_settled_ok cfg name cr sa w2.bindings roles hd hsettled (afterSteps name w2) rfl hok2
    refine ⟨found, hall, ?_⟩
    have hft2 : (reconcileRoleBindingLoop cfg name cr sa roles (afterSteps name w2)).2.trace
        = w2.trace ++ (Op.reconcileServiceAccount name none :: Op.reconcileRole name none
            :: rewriteOps found) := by
      rw [hft]
      simp [afterSteps]
    exact issued_of_append hft2
  · intro hd op hop
    cases hwr : op.isWrite with
    | false => rfl
    | true =>
      exfalso
      obtain ⟨rb, e, hop2, -⟩ := hwrites op hop hwr
      subst hop2
      rw [issued_of_append htr] at hop
      rcases List.mem_append.mp hop with h | h
      · simp only [List.mem_cons, List.mem_singleton, List.not_mem_nil, or_false] at h
        rcases h with h | h <;> cases h
      · obtain ⟨ops2, ht2, -, hso, -, -⟩ :=
          loop_summary cfg name cr sa roles (afterSteps name w2)
        have heq : ops = ops2 := by
          rw [ht] at ht2
          exact List.append_cancel_left ht2
        rw [heq] at h
        obtain ⟨role, -, hstep⟩ := hso _ h
        generalize hu : Op.update rb e = u at hstep
        cases hstep with
        | get found e1 => cases hu
        | create e1 hd1 => cases hu
        | delete old e1 hk hdel => cases hu
        | update old e1 hk hd1 hr => exact hd1 hd

/-- C2 (amended) on the scenario: the second pass over the three namespaces
succeeds, leaves the stored bindings as the first pass left them, and issues,
after the two delegated steps, the Get and the Update of each of the three
bindings and nothing else. -/
theorem reconcileRoleBinding_second_pass_witness :
    (reconcileRoleBinding demoXrb "xrb" [] demoCR
        (reconcileRoleBinding demoXrb "xrb" [] demoCR demoWorld).2).2.bindings
      = (reconcileRoleBinding demoXrb "xrb" [] demoCR demoWorld).2.bindings ∧
    ∃ found,
      List.Forall₂
        (fun role rb =>
          storeGet (reconcileRoleBinding demoXrb "xrb" [] demoCR demoWorld).2.bindings
            (bindingKey "xrb" demoCR role) = some rb)
        demoRoles found ∧
      issued (reconcileRoleBinding demoXrb "xrb" [] demoCR demoWorld).2
          (reconcileRoleBinding demoXrb "xrb" [] demoCR
            (reconcileRoleBinding demoXrb "xrb" [] demoCR demoWorld).2).2
        = Op.reconcileServiceAccount "xrb" none :: Op.reconcileRole "xrb" none
            :: rewriteOps found :=
  ⟨(reconcileRoleBinding_second_pass demoXrb "xrb" [] demoCR demoSA demoRoles demoWorld
      (reconcileRoleBinding demoXrb "xrb" [] demoCR demoWorld).2
      rfl rfl (by decide) (by rfl) rfl).1,
    (reconcileRoleBinding_second_pass demoXrb "xrb" [] demoCR demoSA demoRoles demoWorld
      (reconcileRoleBinding demoXrb "xrb" [] demoCR demoWorld).2
      rfl rfl (by decide) (by rfl) rfl).2.2.2.1 (by rfl) (by decide)⟩

/-- C3. When the role identifier is the Dex server and the disable flag is set,
a successful pass leaves no binding named `<spec-name>-<roleId>` in any governed
namespace, issues no Create and no Update, and (governed namespaces being
distinct) issues the Delete of every such binding that existed. -/
theorem reconcileRoleBinding_dex_disabled (cfg : Config) (name : String)
    (rules : List PolicyRule) (cr : ArgoCD) (sa : ServiceAccount) (roles : List Role)
    (w : World)
    (hsa : cfg.reconcileServiceAccount name cr = .ok sa)
    (hroles : cfg.reconcileRole name rules cr = .ok roles)
    (hd : name = cfg.dexServer ∧ cfg.isDexDisabled = true)
    (hok : (reconcileRoleBinding cfg name rules cr w).1 = .ok ()) :
    (∀ role ∈ roles,
      storeGet (reconcileRoleBinding cfg name rules cr w).2.bindings
        { Namespace := role.Namespace, Name := cr.Name ++ "-" ++ name } = none) ∧
    (∀ op ∈ issued w (reconcileRoleBinding cfg name rules cr w).2,
      ∀ rb e, op ≠ Op.create rb e ∧ op ≠ Op.update rb e) ∧
    ((roles.map (fun r => r.Namespace)).Nodup → ∀ role ∈ roles, ∀ old,
      storeGet w.bindings { Namespace := role.Namespace, Name := cr.Name ++ "-" ++ name }
        = some old →
      Op.delete old none ∈ issued w (reconcileRoleBinding cfg name rules cr w).2) := by
  have hd1 : dexOff cfg name := hd
  rw [pass_eq_loop w hsa hroles] at hok ⊢
  refine ⟨fun role hrole => loop_disabled cfg name cr sa roles hd1 _ hok role hrole, ?_, ?_⟩
  · obtain ⟨ops, ht, -, hs, -, -⟩ := loop_summary cfg name cr sa roles (afterSteps name w)
    have htr : (reconcileRoleBindingLoop cfg name cr sa roles (afterSteps name w)).2.trace
        = w.trace ++ ([Op.reconcileServiceAccount name none, Op.reconcileRole name none] ++ ops) := by
      rw [ht]
      simp [afterSteps]
    rw [issued_of_append htr]
    intro op hop rb e
    rcases List.mem_append.mp hop with h | h
    · simp only [List.mem_cons, List.mem_singleton, List.not_mem_nil, or_false] at h
      rcases h with rfl | rfl <;> exact ⟨by simp, by simp⟩
    · obtain ⟨role, -, hso⟩ := hs op h
      cases hso with
      | get found e1 => exact ⟨by simp, by simp⟩
      | create e1 hnd => exact absurd hd1 hnd
      | delete old e1 hk h1 => exact ⟨by simp, by simp⟩
      | update old e1 hk hnd hr => exact absurd hd1 hnd
  · intro hnd role hrole old hold
    obtain ⟨pre, mid, post, ht, -, hcase⟩ :=
      loop_focus cfg name cr sa role roles hnd hrole (afterSteps name w)
    rcases hcase with ⟨-, hres, -⟩ | ⟨w1, hfr1, htm, -, hstep⟩
    · exact absurd hok hres
    · have hg : storeGet w1.bindings (bindingKey name cr role) = some old :=
        (hfr1 (bindingKey name cr role) rfl).trans hold
      have hmid := step_found_disabled_ok cfg name cr sa role w1 old hd1 hg (hstep hok)
      rw [htm] at hmid
      have hmid2 := List.append_cancel_left hmid
      have htr : (reconcileRoleBindingLoop cfg name cr sa roles (afterSteps name w)).2.trace
          = w.trace ++ ([Op.reconcileServiceAccount name none, Op.reconcileRole name none]
              ++ (pre ++ mid ++ post)) := by
        rw [ht]
        simp [afterSteps]
      rw [issued_of_append htr, hmid2]
      simp

/-- C3 on the scenario: the stored Dex binding is gone after the pass. -/
theorem reconcileRoleBinding_dex_disabled_witness :
    storeGet (reconcileRoleBinding demoDexOff "dex-server" [] demoCR demoDexWorld).2.bindings
        { Namespace := "argocd", Name := "argocd" ++ "-" ++ "dex-server" } = none :=
  (reconcileRoleBinding_dex_disabled demoDexOff "dex-server" [] demoCR demoSA
    [demoRole "argocd" "argocd-dex-server"] demoDexWorld rfl rfl (by decide) (by rfl)).1
    (demoRole "argocd" "argocd-dex-server") (by decide)

/-- C4. Rule-object replacement. In every execution, each Update that
`reconcileRoleBinding` issues carries the role reference of the binding that a
Get of the same pass returned for its key. And when a successful pass of a role
that is not disabled, over roles with distinct namespaces, starts from a store
that holds a binding whose role reference differs from the desired one, it
issues, in this order, the Get that returns the binding, the Delete of that
binding and the Create of a new binding carrying the desired role reference. -/
theorem reconcileRoleBinding_replaces_stale (cfg : Config) (name : String)
    (rules : List PolicyRule) (cr : ArgoCD) (w : World) :
    (∀ rb e, Op.update rb e ∈ issued w (reconcileRoleBinding cfg name rules cr w).2 →
      ∃ old, Op.get rb.key (some old) none ∈ issued w (reconcileRoleBinding cfg name rules cr w).2 ∧
        old.RoleRef = rb.RoleRef) ∧
    (∀ sa roles role old,
      cfg.reconcileServiceAccount name cr = .ok sa →
      cfg.reconcileRole name rules cr = .ok roles →
      (roles.map (fun r => r.Namespace)).Nodup →
      ¬ (name = cfg.dexServer ∧ cfg.isDexDisabled = true) →
      (reconcileRoleBinding cfg name rules cr w).1 = .ok () →
      role ∈ roles →
      storeGet w.bindings { Namespace := role.Namespace, Name := cr.Name ++ "-" ++ name }
        = some old →
      old.RoleRef ≠ { APIGroup := "rbac.authorization.k8s.io", Kind := "Role", Name := role.Name } →
      ∃ new pre post,
        issued w (reconcileRoleBinding cfg name rules cr w).2
          = pre ++ [Op.get { Namespace := role.Namespace, Name := cr.Name ++ "-" ++ name }
              (some old) none, Op.delete old none, Op.create new none] ++ post ∧
        new.Name = cr.Name ++ "-" ++ name ∧ new.Namespace = role.Namespace ∧
        new.RoleRef
          = { APIGroup := "rbac.authorization.k8s.io", Kind := "Role", Name := role.Name }) := by
  constructor
  · obtain ⟨ops, ht, -, -, hu, -⟩ := pass_summary cfg name rules cr w
    rw [issued_of_append ht]
    intro rb e hmem
    obtain ⟨old, hget, heq⟩ := hu rb e hmem
    refine ⟨old, hget, ?_⟩
    rw [heq]
  · intro sa roles role old hsa hroles hnd hd hok hrole hold hne
    obtain ⟨pre, mid, post, hiss, -, hcase⟩ :=
      pass_focus cfg name rules cr sa roles w role hsa hroles hnd hrole
    rcases hcase with ⟨-, hres⟩ | ⟨w1, hfr1, htm, -, hstep⟩
    · exact absurd hok hres
    · have hg : storeGet w1.bindings (bindingKey name cr role) = some old := hfr1.trans hold
      obtain ⟨htr, -⟩ := step_stale_ok cfg name cr sa role w1 old hd hg hne (hstep hok)
      rw [htm] at htr
      have hmid := List.append_cancel_left htr
      have hck := created_key cfg name cr sa role
      refine ⟨createdRoleBinding cfg name cr sa role, pre, post, ?_, ?_, ?_,
        created_roleRef cfg name cr sa role⟩
      · rw [hiss, hmid]
        rfl
      · exact congrArg NamespacedName.Name hck
      · exact congrArg NamespacedName.Namespace hck

/-- C4 on the scenario: the Update issued for `team-a` follows the Get of that
binding, and the stale binding of `team-b` is fetched, deleted and created anew. -/
theorem reconcileRoleBinding_replaces_stale_witness :
    (∃ old, Op.get (demoBinding "argocd-xrb" "team-a" "argocd-xrb" "argocd-xrb").key (some old) none
        ∈ issued demoWorld (reconcileRoleBinding demoXrb "xrb" [] demoCR demoWorld).2 ∧
      old.RoleRef = (demoBinding "argocd-xrb" "team-a" "argocd-xrb" "argocd-xrb").RoleRef) ∧
    (∃ new pre post,
      issued demoWorld (reconcileRoleBinding demoXrb "xrb" [] demoCR demoWorld).2
        = pre ++ [Op.get { Namespace := "team-b", Name := "argocd" ++ "-" ++ "xrb" }
            (some (demoBinding "argocd-xrb" "team-b" "not-xrb" "not-xrb")) none,
            Op.delete (demoBinding "argocd-xrb" "team-b" "not-xrb" "not-xrb") none,
            Op.create new none] ++ post ∧
      new.Name = "argocd" ++ "-" ++ "xrb" ∧ new.Namespace = "team-b" ∧
      new.RoleRef
        = { APIGroup := "rbac.authorization.k8s.io", Kind := "Role", Name := "argocd-xrb" }) :=
  ⟨(reconcileRoleBinding_replaces_stale demoXrb "xrb" [] demoCR demoWorld).1
      (demoBinding "argocd-xrb" "team-a" "argocd-xrb" "argocd-xrb") none (by decide),
    (reconcileRoleBinding_replaces_stale demoXrb "xrb" [] demoCR demoWorld).2
      demoSA demoRoles (demoRole "team-b" "argocd-xrb")
      (demoBinding "argocd-xrb" "team-b" "not-xrb" "not-xrb")
      rfl rfl (by decide) (by decide) (by rfl) (by decide) (by decide) (by decide)⟩

/-- C5 (as stated, refuted). The store holds in `team-b` a binding whose role
reference differs from the desired one; the pass succeeds and a binding of that
name is stored in `team-b` when the pass ends. -/
theorem reconcileRoleBinding_stale_present_after_pass :
    storeGet demoWorld.bindings { Namespace := "team-b", Name := "argocd-xrb" }
        = some (demoBinding "argocd-xrb" "team-b" "not-xrb" "not-xrb") ∧
      (demoBinding "argocd-xrb" "team-b" "not-xrb" "not-xrb").RoleRef
        ≠ roleRefFor (demoRole "team-b" "argocd-xrb") ∧
      (reconcileRoleBinding demoXrb "xrb" [] demoCR demoWorld).1 = .ok () ∧
      (storeGet (reconcileRoleBinding demoXrb "xrb" [] demoCR demoWorld).2.bindings
        { Namespace := "team-b", Name := "argocd-xrb" }).isSome = true := by
  decide

/-- C5 (amended). When a successful pass of a role that is not disabled, over
roles with distinct namespaces, finds a binding whose role reference differs
from the desired one, it deletes the stale binding and creates the new one in
the same pass: when the pass ends the store holds, under that name in that
namespace, the newly created binding with the desired role reference and
subject. -/
theorem reconcileRoleBinding_recreates_inline (cfg : Config) (name : String)
    (rules : List PolicyRule) (cr : ArgoCD) (sa : ServiceAccount) (roles : List Role)
    (w : World) (role : Role) (old : RoleBinding)
    (hsa : cfg.reconcileServiceAccount name cr = .ok sa)
    (hroles : cfg.reconcileRole name rules cr = .ok roles)
    (hnd : (roles.map (fun r => r.Namespace)).Nodup)
    (hd : ¬ (name = cfg.dexServer ∧ cfg.isDexDisabled = true))
    (hok : (reconcileRoleBinding cfg name rules cr w).1 = .ok ())
    (hrole : role ∈ roles)
    (hold : storeGet w.bindings { Namespace := role.Namespace, Name := cr.Name ++ "-" ++ name }
      = some old)
    (hne : old.RoleRef
      ≠ { APIGroup := "rbac.authorization.k8s.io", Kind := "Role", Name := role.Name }) :
    ∃ new,
      storeGet (reconcileRoleBinding cfg name rules cr w).2.bindings
        { Namespace := role.Namespace, Name := cr.Name ++ "-" ++ name } = some new ∧
      new.RoleRef = { APIGroup := "rbac.authorization.k8s.io", Kind := "Role", Name := role.Name } ∧
      new.Subjects = [{ Kind := "ServiceAccount", Name := sa.Name, Namespace := sa.Namespace }] ∧
      Op.delete old none ∈ issued w (reconcileRoleBinding cfg name rules cr w).2 ∧
      Op.create new none ∈ issued w (reconcileRoleBinding cfg name rules cr w).2 := by
  obtain ⟨pre, mid, post, hiss, -, hcase⟩ :=
    pass_focus cfg name rules cr sa roles w role hsa hroles hnd hrole
  rcases hcase with ⟨-, hres⟩ | ⟨w1, hfr1, htm, hfr2, hstep⟩
  · exact absurd hok hres
  · have hg : storeGet w1.bindings (bindingKey name cr role) = some old := hfr1.trans hold
    obtain ⟨htr, hst⟩ := step_stale_ok cfg name cr sa role w1 old hd hg hne (hstep hok)
    rw [htm] at htr
    have hmid := List.append_cancel_left htr
    refine ⟨createdRoleBinding cfg name cr sa role, hfr2.trans hst,
      created_roleRef cfg name cr sa role, created_subjects cfg name cr sa role, ?_, ?_⟩
    · rw [hiss, hmid]
      simp
    · rw [hiss, hmid]
      simp

/-- C5 (amended) on the scenario: the binding of `team-b` is deleted and created
anew within the one pass. -/
theorem reconcileRoleBinding_recreates_inline_witness :
    ∃ new,
      storeGet (reconcileRoleBinding demoXrb "xrb" [] demoCR demoWorld).2.bindings
        { Namespace := "team-b", Name := "argocd" ++ "-" ++ "xrb" } = some new ∧
      new.RoleRef = { APIGroup := "rbac.authorization.k8s.io", Kind := "Role", Name := "argocd-xrb" } ∧
      new.Subjects = [{ Kind := "ServiceAccount", Name := "argocd-xrb", Namespace := "argocd" }] ∧
      Op.delete (demoBinding "argocd-xrb" "team-b" "not-xrb" "not-xrb") none
        ∈ issued demoWorld (reconcileRoleBinding demoXrb "xrb" [] demoCR demoWorld).2 ∧
      Op.create new none
        ∈ issued demoWorld (reconcileRoleBinding demoXrb "xrb" [] demoCR demoWorld).2 :=
  reconcileRoleBinding_recreates_inline demoXrb "xrb" [] demoCR demoSA demoRoles demoWorld
    (demoRole "team-b" "argocd-xrb") (demoBinding "argocd-xrb" "team-b" "not-xrb" "not-xrb")
    rfl rfl (by decide) (by decide) (by rfl) (by decide) (by decide) (by decide)

/-- C6. When the store holds a binding whose role reference equals the desired
one, the role is not disabled and the governed namespaces are distinct, every
write that `reconcileRoleBinding` issues for that namespace is an Update of that
binding in which only the subjects are replaced, by the desired subject (name,
namespace, labels, annotations, owner references and role reference are those
of the stored binding); no Create or Delete is issued for the namespace, and a
successful pass issues exactly one such Update. -/
theorem reconcileRoleBinding_updates_subjects_only (cfg : Config) (name : String)
    (rules : List PolicyRule) (cr : ArgoCD) (sa : ServiceAccount) (roles : List Role)
    (w : World) (role : Role) (old : RoleBinding)
    (hsa : cfg.reconcileServiceAccount name cr = .ok sa)
    (hroles : cfg.reconcileRole name rules cr = .ok roles)
    (hnd : (roles.map (fun r => r.Namespace)).Nodup)
    (hd : ¬ (name = cfg.dexServer ∧ cfg.isDexDisabled = true))
    (hrole : role ∈ roles)
    (hold : storeGet w.bindings { Namespace := role.Namespace, Name := cr.Name ++ "-" ++ name }
      = some old)
    (href : old.RoleRef
      = { APIGroup := "rbac.authorization.k8s.io", Kind := "Role", Name := role.Name }) :
    (∀ op ∈ issued w (reconcileRoleBinding cfg name rules cr w).2,
      op.isWrite = true → op.targetNamespace = some role.Namespace →
      ∃ e, op = Op.update
        { toObjectMeta := old.toObjectMeta,
          Subjects := [{ Kind := "ServiceAccount", Name := sa.Name, Namespace := sa.Namespace }],
          RoleRef := old.RoleRef } e) ∧
    ((reconcileRoleBinding cfg name rules cr w).1 = .ok () →
      (issued w (reconcileRoleBinding cfg name rules cr w).2).filter
          (fun op => op.isWrite && decide (op.targetNamespace = some role.Namespace))
        = [Op.update
            { toObjectMeta := old.toObjectMeta,
              Subjects := [{ Kind := "ServiceAccount", Name := sa.Name, Namespace := sa.Namespace }],
              RoleRef := old.RoleRef } none]) := by
  obtain ⟨pre, mid, post, hiss, hns, hcase⟩ :=
    pass_focus cfg name rules cr sa roles w role hsa hroles hnd hrole
  have hpre : ∀ op ∈ pre, op.targetNamespace ≠ some role.Namespace :=
    fun op hop => hns op (List.mem_append_left _ hop)
  have hpost : ∀ op ∈ post, op.targetNamespace ≠ some role.Namespace :=
    fun op hop => hns op (List.mem_append_right _ hop)
  rw [hiss]
  constructor
  · intro op hop hw htn
    rcases List.mem_append.mp hop with h | h
    · rcases List.mem_append.mp h with h1 | h2
      · exact absurd htn (hpre op h1)
      · rcases hcase with ⟨hmid, -⟩ | ⟨w1, hfr1, htm, -, -⟩
        · rw [hmid] at h2
          cases h2
        · have hg : storeGet w1.bindings (bindingKey name cr role) = some old := hfr1.trans hold
          obtain ⟨ops, htr, hwr, -⟩ := step_same cfg name cr sa role w1 old hd hg href
          rw [htm] at htr
          have hmid := List.append_cancel_left htr
          rw [hmid] at h2
          exact hwr op h2 hw
    · exact absurd htn (hpost op h)
  · intro hok
    rcases hcase with ⟨-, hres⟩ | ⟨w1, hfr1, htm, -, hstep⟩
    · exact absurd hok hres
    · have hg : storeGet w1.bindings (bindingKey name cr role) = some old := hfr1.trans hold
      obtain ⟨ops, htr, -, hops⟩ := step_same cfg name cr sa role w1 old hd hg href
      rw [htm] at htr
      have hmid := List.append_cancel_left htr
      rw [hops (hstep hok)] at hmid
      have hkey : old.Namespace = role.Namespace :=
        congrArg NamespacedName.Namespace (storeGet_key hg)
      rw [List.filter_append, List.filter_append,
        @filter_eq_nil_of_forall _ pre (by
          intro op hop
          simp [hpre op hop]),
        @filter_eq_nil_of_forall _ post (by
          intro op hop
          simp [hpost op hop]),
        hmid]
      simp [Op.isWrite, Op.targetNamespace, hkey, subjectFor, ServiceAccountKind]

/-- C6 on the scenario: the one write issued for `team-a` is the Update of the
stored binding. -/
theorem reconcileRoleBinding_updates_subjects_only_witness :
    (issued demoWorld (reconcileRoleBinding demoXrb "xrb" [] demoCR demoWorld).2).filter
        (fun op => op.isWrite && decide (op.targetNamespace = some "team-a"))
      = [Op.update
          { toObjectMeta :=
              (demoBinding "argocd-xrb" "team-a" "argocd-xrb" "argocd-xrb").toObjectMeta,
            Subjects := [{ Kind := "ServiceAccount", Name := "argocd-xrb", Namespace := "argocd" }],
            RoleRef := (demoBinding "argocd-xrb" "team-a" "argocd-xrb" "argocd-xrb").RoleRef }
          none] :=
  (reconcileRoleBinding_updates_subjects_only demoXrb "xrb" [] demoCR demoSA demoRoles demoWorld
    (demoRole "team-a" "argocd-xrb") (demoBinding "argocd-xrb" "team-a" "argocd-xrb" "argocd-xrb")
    rfl rfl (by decide) (by decide) (by decide) (by decide) (by decide)).2 (by rfl)

/-- C7. Deterministic naming: `newRoleBindingWithname` returns a binding whose
name is the name of the specification, a hyphen, then the role identifier,
whose namespace is the namespace of the specification and whose name-key label
is the role identifier; two calls for specifications of the same name and the
same role identifier give the same name, whatever else differs. -/
theorem newRoleBindingWithname_naming (cfg : Config) (name : String) (cr : ArgoCD) :
    (newRoleBindingWithname cfg name cr).Name = cr.Name ++ "-" ++ name ∧
    (newRoleBindingWithname cfg name cr).Namespace = cr.Namespace ∧
    mapGet (newRoleBindingWithname cfg name cr).Labels cfg.ArgoCDKeyName = some name ∧
    ∀ (cfg2 : Config) (cr2 : ArgoCD), cr2.Name = cr.Name →
      (newRoleBindingWithname cfg2 name cr2).Name = (newRoleBindingWithname cfg name cr).Name := by
  refine ⟨rfl, rfl, mapGet_mapSet _ _ _, ?_⟩
  intro cfg2 cr2 h
  show cr2.Name ++ "-" ++ name = cr.Name ++ "-" ++ name
  rw [h]

/-- C7 on the scenario: two specifications named `argocd`, in different
namespaces and under different configurations, give the same binding name. -/
theorem newRoleBindingWithname_naming_witness :
    (newRoleBindingWithname demoDexOff "server"
        { Name := "argocd", Namespace := "elsewhere", UID := "u2" }).Name
      = (newRoleBindingWithname demoXrb "server" demoCR).Name :=
  (newRoleBindingWithname_naming demoXrb "server" demoCR).2.2.2 demoDexOff
    { Name := "argocd", Namespace := "elsewhere", UID := "u2" } rfl

/-- C8. In every execution, a binding that `reconcileRoleBinding` submits to
Create carries the controller reference to the specification, and no other
owner reference, when its namespace is the namespace of the specification, and
carries no owner reference at all when it is in any other namespace. -/
theorem reconcileRoleBinding_owner_reference (cfg : Config) (name : String)
    (rules : List PolicyRule) (cr : ArgoCD) (w : World) (rb : RoleBinding) (e : Option Err)
    (hmem : Op.create rb e ∈ issued w (reconcileRoleBinding cfg name rules cr w).2) :
    (rb.Namespace = cr.Namespace → rb.OwnerReferences = [controllerRef cr]) ∧
    (rb.Namespace ≠ cr.Namespace → rb.OwnerReferences = []) := by
  obtain ⟨ops, ht, -, -, -, hs⟩ := pass_summary cfg name rules cr w
  rw [issued_of_append ht] at hmem
  obtain ⟨sa, roles, role, -, -, -, hso⟩ := hs _ hmem rfl
  have hns : (createdRoleBinding cfg name cr sa role).Namespace = role.Namespace :=
    congrArg NamespacedName.Namespace (created_key cfg name cr sa role)
  generalize hop : Op.create rb e = op at hso
  cases hso with
  | get found e1 => cases hop
  | delete old e1 hk h1 => cases hop
  | update old e1 hk hnd hr => cases hop
  | create e1 hd =>
    cases hop
    rw [hns]
    unfold createdRoleBinding
    by_cases h : cr.Namespace = role.Namespace
    · rw [if_pos h]
      exact ⟨fun _ => rfl, fun hne => absurd h.symm hne⟩
    · rw [if_neg h]
      exact ⟨fun heq => absurd heq.symm h, fun _ => rfl⟩

/-- C8 on the scenario: the binding created in `team-b`. -/
theorem reconcileRoleBinding_owner_reference_witness :
    ((createdRoleBinding demoXrb "xrb" demoCR demoSA (demoRole "team-b" "argocd-xrb")).Namespace
        = demoCR.Namespace →
      (createdRoleBinding demoXrb "xrb" demoCR demoSA
        (demoRole "team-b" "argocd-xrb")).OwnerReferences = [controllerRef demoCR]) ∧
    ((createdRoleBinding demoXrb "xrb" demoCR demoSA (demoRole "team-b" "argocd-xrb")).Namespace
        ≠ demoCR.Namespace →
      (createdRoleBinding demoXrb "xrb" demoCR demoSA
        (demoRole "team-b" "argocd-xrb")).OwnerReferences = []) :=
  reconcileRoleBinding_owner_reference demoXrb "xrb" [] demoCR demoWorld
    (createdRoleBinding demoXrb "xrb" demoCR demoSA (demoRole "team-b" "argocd-xrb")) none
    (by decide)

/-- C9. In every execution, the bindings that `reconcileRoleBinding` leaves are
those obtained by applying, in order, the successful writes it issued (nothing
is rolled back); and a failed call (a Get failing with anything other than
NotFound, a failed Delete, Update or Create, or a failed delegated step) is the
last call of the pass, nothing being issued after it for this or any remaining
namespace, and its error is returned, as it is or wrapped in a message. -/
theorem reconcileRoleBinding_aborts_on_error (cfg : Config) (name : String)
    (rules : List PolicyRule) (cr : ArgoCD) (w : World) :
    (reconcileRoleBinding cfg name rules cr w).2.bindings
      = replay (issued w (reconcileRoleBinding cfg name rules cr w).2) w.bindings ∧
    ∀ pre op post, issued w (reconcileRoleBinding cfg name rules cr w).2 = pre ++ op :: post →
      op.failed = true →
      post = [] ∧
      (reconcileRoleBinding cfg name rules cr w).2.bindings = replay pre w.bindings ∧
      ∃ e, op.err = some e ∧
        ((reconcileRoleBinding cfg name rules cr w).1 = .error e ∨
          ∃ msg, (reconcileRoleBinding cfg name rules cr w).1 = .error (.wrapped msg e)) := by
  obtain ⟨ops, ht, hb, he, -, -⟩ := pass_summary cfg name rules cr w
  rw [issued_of_append ht]
  refine ⟨hb, ?_⟩
  intro pre op post hops hf
  obtain ⟨hpost, hres⟩ := endsWith_failed_last he hops hf
  refine ⟨hpost, ?_, hres⟩
  rw [hb, hops, hpost, replay_append]
  cases op with
  | reconcileServiceAccount n e => rfl
  | reconcileRole n e => rfl
  | get k found e => rfl
  | create obj e =>
    cases e with
    | none => cases hf
    | some e1 => rfl
  | update obj e =>
    cases e with
    | none => cases hf
    | some e1 => rfl
  | delete obj e =>
    cases e with
    | none => cases hf
    | some e1 => rfl

/-- C9 on the scenario: the store refuses the sixth call, the Delete of the stale
binding of `team-b`, with a conflict. -/
theorem reconcileRoleBinding_aborts_on_error_witness :
    ([] : List Op) = [] ∧
    (reconcileRoleBinding demoXrb "xrb" [] demoCR
        { demoWorld with faults := [none, none, none, none, none, some Fault.conflict] }).2.bindings
      = replay
          [Op.reconcileServiceAccount "xrb" none, Op.reconcileRole "xrb" none,
            Op.get { Namespace := "argocd", Name := "argocd-xrb" } none (some Err.notFound),
            Op.create (createdRoleBinding demoXrb "xrb" demoCR demoSA
              (demoRole "argocd" "argocd-xrb")) none,
            Op.get { Namespace := "team-a", Name := "argocd-xrb" }
              (some (demoBinding "argocd-xrb" "team-a" "argocd-xrb" "argocd-xrb")) none,
            Op.update (demoBinding "argocd-xrb" "team-a" "argocd-xrb" "argocd-xrb") none,
            Op.get { Namespace := "team-b", Name := "argocd-xrb" }
              (some (demoBinding "argocd-xrb" "team-b" "not-xrb" "not-xrb")) none]
          demoWorld.bindings ∧
    ∃ e, (Op.delete (demoBinding "argocd-xrb" "team-b" "not-xrb" "not-xrb")
          (some (Err.fault Fault.conflict))).err = some e ∧
      ((reconcileRoleBinding demoXrb "xrb" [] demoCR
          { demoWorld with faults := [none, none, none, none, none, some Fault.conflict] }).1
          = .error e ∨
        ∃ msg, (reconcileRoleBinding demoXrb "xrb" [] demoCR
          { demoWorld with faults := [none, none, none, none, none, some Fault.conflict] }).1
          = .error (.wrapped msg e)) :=
  (reconcileRoleBinding_aborts_on_error demoXrb "xrb" [] demoCR
    { demoWorld with faults := [none, none, none, none, none, some Fault.conflict] }).2
    [Op.reconcileServiceAccount "xrb" none, Op.reconcileRole "xrb" none,
      Op.get { Namespace := "argocd", Name := "argocd-xrb" } none (some Err.notFound),
      Op.create (createdRoleBinding demoXrb "xrb" demoCR demoSA
        (demoRole "argocd" "argocd-xrb")) none,
      Op.get { Namespace := "team-a", Name := "argocd-xrb" }
        (some (demoBinding "argocd-xrb" "team-a" "argocd-xrb" "argocd-xrb")) none,
      Op.update (demoBinding "argocd-xrb" "team-a" "argocd-xrb" "argocd-xrb") none,
      Op.get { Namespace := "team-b", Name := "argocd-xrb" }
        (some (demoBinding "argocd-xrb" "team-b" "not-xrb" "not-xrb")) none]
    (Op.delete (demoBinding "argocd-xrb" "team-b" "not-xrb" "not-xrb")
      (some (Err.fault Fault.conflict)))
    [] (by decide) (by decide)

/-- C10. Step ordering within one role. If the identity step fails, the pass
returns its error unchanged having issued nothing else: no rule step, no
binding call. If the identity step succeeds and the rule step fails, the pass
returns that error unchanged having issued no binding call. If both succeed,
the identity step is recorded first, the rule step second, and every call
after them is a call on the store. -/
theorem reconcileRoleBinding_step_order (cfg : Config) (name : String)
    (rules : List PolicyRule) (cr : ArgoCD) (w : World) :
    (∀ e, cfg.reconcileServiceAccount name cr = .error e →
      reconcileRoleBinding cfg name rules cr w
        = (.error e,
            { w with trace := w.trace ++ [Op.reconcileServiceAccount name (some e)] })) ∧
    (∀ sa e, cfg.reconcileServiceAccount name cr = .ok sa →
      cfg.reconcileRole name rules cr = .error e →
      reconcileRoleBinding cfg name rules cr w
        = (.error e,
            { w with trace := w.trace ++
                [Op.reconcileServiceAccount name none, Op.reconcileRole name (some e)] })) ∧
    (∀ sa roles, cfg.reconcileServiceAccount name cr = .ok sa →
      cfg.reconcileRole name rules cr = .ok roles →
      ∃ ops, issued w (reconcileRoleBinding cfg name rules cr w).2
          = [Op.reconcileServiceAccount name none, Op.reconcileRole name none] ++ ops ∧
        ∀ op ∈ ops, op.isStoreCall = true) := by
  refine ⟨fun e hsa => pass_identity_error w hsa,
    fun sa e hsa hroles => pass_rule_error w hsa hroles, ?_⟩
  intro sa roles hsa hroles
  rw [pass_eq_loop w hsa hroles]
  obtain ⟨ops, ht, -, hs, -, -⟩ := loop_summary cfg name cr sa roles (afterSteps name w)
  have htr : (reconcileRoleBindingLoop cfg name cr sa roles (afterSteps name w)).2.trace
      = w.trace ++ ([Op.reconcileServiceAccount name none, Op.reconcileRole name none] ++ ops) := by
    rw [ht]
    simp [afterSteps]
  refine ⟨ops, issued_of_append htr, ?_⟩
  intro op hop
  obtain ⟨role, -, hso⟩ := hs op hop
  exact stepOp_isStoreCall hso

/-- C10 on the scenario: a failing identity step, and a failing rule step. -/
theorem reconcileRoleBinding_step_order_witness :
    (reconcileRoleBinding (demoConfig false (.error (Err.other "quota")) (.ok demoRoles))
        "xrb" [] demoCR demoWorld
      = (.error (Err.other "quota"),
          { demoWorld with trace := demoWorld.trace ++
              [Op.reconcileServiceAccount "xrb" (some (Err.other "quota"))] })) ∧
    (reconcileRoleBinding (demoConfig false (.ok demoSA) (.error (Err.fault Fault.unavailable)))
        "xrb" [] demoCR demoWorld
      = (.error (Err.fault Fault.unavailable),
          { demoWorld with trace := demoWorld.trace ++
              [Op.reconcileServiceAccount "xrb" none,
                Op.reconcileRole "xrb" (some (Err.fault Fault.unavailable))] })) :=
  ⟨(reconcileRoleBinding_step_order
      (demoConfig false (.error (Err.other "quota")) (.ok demoRoles)) "xrb" [] demoCR
      demoWorld).1 (Err.other "quota") rfl,
    (reconcileRoleBinding_step_order
      (demoConfig false (.ok demoSA) (.error (Err.fault Fault.unavailable))) "xrb" [] demoCR
      demoWorld).2.1 demoSA (Err.fault Fault.unavailable) rfl rfl⟩

/-! ## The cluster-scope variant -/

/-- The key under which the cluster binding of a role identifier is stored. -/
theorem newCluster_key (cfg : ClusterConfig) (name : String) (cr : ArgoCD) :
    (newClusterRoleBindingWithname cfg name cr).key
      = { Namespace := "", Name := GenerateUniqueResourceName name cr } := rfl

theorem setControllerReference_meta {cr : ArgoCD} {m m1 : ObjectMeta}
    (h : SetControllerReference cr m = .ok m1) :
    m1.Name = m.Name ∧ m1.Namespace = m.Namespace := by
  unfold SetControllerReference at h
  split at h
  · cases h
  · split at h
    · cases h
    · split at h
      · split at h
        · cases h
          exact ⟨rfl, rfl⟩
        · cases h
      · cases h
        exact ⟨rfl, rfl⟩

theorem clientCreate_of_ok {obj : RoleBinding} {w : World}
    (hg : storeGet w.bindings obj.key = none) (hok : (clientCreate obj w).1 = .ok ()) :
    clientCreate obj w = (.ok (), w.record (w.bindings ++ [obj]) (Op.create obj none)) := by
  cases hf : w.nextFault with
  | some f =>
    rw [clientCreate_fault hf] at hok
    cases hok
  | none => exact clientCreate_ok hf hg

theorem clientUpdate_of_ok {obj old : RoleBinding} {w : World}
    (hg : storeGet w.bindings obj.key = some old) (hok : (clientUpdate obj w).1 = .ok ()) :
    clientUpdate obj w = (.ok (), w.record (storeUpdate w.bindings obj) (Op.update obj none)) := by
  cases hf : w.nextFault with
  | some f =>
    rw [clientUpdate_fault hf] at hok
    cases hok
  | none => exact clientUpdate_ok hf hg

/-- The writes of the client calls: what each call records. -/
theorem clientCreate_trace (obj : RoleBinding) (w : World) :
    ∃ e, (clientCreate obj w).2.trace = w.trace ++ [Op.create obj e] := by
  unfold clientCreate
  split
  · exact ⟨_, rfl⟩
  · split
    · exact ⟨_, rfl⟩
    · exact ⟨_, rfl⟩

theorem clientUpdate_trace (obj : RoleBinding) (w : World) :
    ∃ e, (clientUpdate obj w).2.trace = w.trace ++ [Op.update obj e] := by
  unfold clientUpdate
  split
  · exact ⟨_, rfl⟩
  · split
    · exact ⟨_, rfl⟩
    · exact ⟨_, rfl⟩

theorem clientDelete_trace (obj : RoleBinding) (w : World) :
    ∃ e, (clientDelete obj w).2.trace = w.trace ++ [Op.delete obj e] := by
  unfold clientDelete
  split
  · exact ⟨_, rfl⟩
  · split
    · exact ⟨_, rfl⟩
    · exact ⟨_, rfl⟩

/-- With a nil rule object the tail deletes a binding that was found and does
nothing when none was found. -/
theorem clusterTail_nil (cfg : ClusterConfig) (name : String) (cr : ArgoCD)
    (found : Bool) (roleBinding : ClusterRoleBinding) (w : World) :
    reconcileClusterRoleBindingTail cfg name none cr found roleBinding w
      = if found = true then clientDelete roleBinding w else (.ok (), w) := by
  unfold reconcileClusterRoleBindingTail
  cases found <;> simp

/-- With a rule object, a successful tail leaves under the key an object with
the subject and role reference of the role identifier, written by Update when
the binding was found and by Create when it was not. -/
theorem clusterTail_some (cfg : ClusterConfig) (name : String) (r : ClusterRole) (cr : ArgoCD)
    (found : Bool) (roleBinding : ClusterRoleBinding) (w : World) (k : NamespacedName)
    (hkey : roleBinding.key = k)
    (hfound : found = true → ∃ old, storeGet w.bindings k = some old)
    (habsent : found = false → storeGet w.bindings k = none)
    (hok : (reconcileClusterRoleBindingTail cfg name (some r) cr found roleBinding w).1 = .ok ()) :
    ∃ obj : ClusterRoleBinding,
      obj.key = k ∧
      obj.Subjects = (withClusterSubjectAndRoleRef cfg name cr roleBinding).Subjects ∧
      obj.RoleRef = (withClusterSubjectAndRoleRef cfg name cr roleBinding).RoleRef ∧
      storeGet (reconcileClusterRoleBindingTail cfg name (some r) cr found roleBinding w).2.bindings
        k = some obj ∧
      (reconcileClusterRoleBindingTail cfg name (some r) cr found roleBinding w).2.trace
        = w.trace ++ [if found = true then Op.update obj none else Op.create obj none] := by
  have hwrite : ∀ obj : ClusterRoleBinding, obj.key = k →
      ((if found = true then clientUpdate obj w else clientCreate obj w).1 = .ok ()) →
      storeGet (if found = true then clientUpdate obj w else clientCreate obj w).2.bindings
          k = some obj ∧
        (if found = true then clientUpdate obj w else clientCreate obj w).2.trace
          = w.trace ++ [if found = true then Op.update obj none else Op.create obj none] := by
    intro obj hk hres
    cases found with
    | true =>
      obtain ⟨old, hold⟩ := hfound rfl
      simp only [if_true] at hres ⊢
      have hg : storeGet w.bindings obj.key = some old := by rw [hk]; exact hold
      rw [clientUpdate_of_ok hg hres]
      refine ⟨?_, rfl⟩
      have := storeGet_update_same hg
      rw [hk] at this
      exact this
    | false =>
      have hnone := habsent rfl
      simp only [Bool.false_eq_true, if_false] at hres ⊢
      have hg : storeGet w.bindings obj.key = none := by rw [hk]; exact hnone
      rw [clientCreate_of_ok hg hres]
      refine ⟨?_, rfl⟩
      have := storeGet_append_same hg
      rw [hk] at this
      exact this
  unfold reconcileClusterRoleBindingTail at hok ⊢
  simp only [Option.isNone_some, Bool.false_eq_true, and_false, if_false] at hok ⊢
  by_cases hns : cr.Namespace = (withClusterSubjectAndRoleRef cfg name cr roleBinding).Namespace
  · simp only [if_pos hns] at hok ⊢
    cases hset : SetControllerReference cr
        (withClusterSubjectAndRoleRef cfg name cr roleBinding).toObjectMeta with
    | error e =>
      rw [hset] at hok
      cases hok
    | ok m =>
      rw [hset] at hok
      simp only at hok ⊢
      obtain ⟨hn, hnsp⟩ := setControllerReference_meta hset
      have hk : ({ withClusterSubjectAndRoleRef cfg name cr roleBinding with
          toObjectMeta := m } : ClusterRoleBinding).key = k := by
        rw [← hkey]
        show ({ Namespace := m.Namespace, Name := m.Name } : NamespacedName) = _
        rw [hn, hnsp]
        rfl
      exact ⟨_, hk, rfl, rfl, hwrite _ hk hok⟩
  · simp only [if_neg hns] at hok ⊢
    have hk : (withClusterSubjectAndRoleRef cfg name cr roleBinding).key = k := hkey
    exact ⟨_, hk, rfl, rfl, hwrite _ hk hok⟩

theorem cluster_fault (cfg : ClusterConfig) (name : String) (role : Option ClusterRole)
    (sa : ServiceAccount) (cr : ArgoCD) (w : World) (f : Fault) (hf : w.nextFault = some f) :
    reconcileClusterRoleBinding cfg name role sa cr w
      = (.error (.fault f),
          w.record w.bindings
            (Op.get { Namespace := "", Name := GenerateUniqueResourceName name cr } none
              (some (.fault f)))) := by
  unfold reconcileClusterRoleBinding
  simp only
  have hk : ({ Name := (newClusterRoleBindingWithname cfg name cr).Name } : NamespacedName)
      = { Namespace := "", Name := GenerateUniqueResourceName name cr } := rfl
  rw [hk, clientGet_fault hf]
  rfl

theorem cluster_absent (cfg : ClusterConfig) (name : String) (role : Option ClusterRole)
    (sa : ServiceAccount) (cr : ArgoCD) (w : World) (hf : w.nextFault = none)
    (hg : storeGet w.bindings { Namespace := "", Name := GenerateUniqueResourceName name cr }
      = none) :
    reconcileClusterRoleBinding cfg name role sa cr w
      = reconcileClusterRoleBindingTail cfg name role cr false
          (newClusterRoleBindingWithname cfg name cr)
          (w.record w.bindings
            (Op.get { Namespace := "", Name := GenerateUniqueResourceName name cr } none
              (some .notFound))) := by
  unfold reconcileClusterRoleBinding
  simp only
  have hk : ({ Name := (newClusterRoleBindingWithname cfg name cr).Name } : NamespacedName)
      = { Namespace := "", Name := GenerateUniqueResourceName name cr } := rfl
  rw [hk, clientGet_absent hf hg]
  rfl

theorem cluster_found (cfg : ClusterConfig) (name : String) (role : Option ClusterRole)
    (sa : ServiceAccount) (cr : ArgoCD) (w : World) (old : ClusterRoleBinding)
    (hf : w.nextFault = none)
    (hg : storeGet w.bindings { Namespace := "", Name := GenerateUniqueResourceName name cr }
      = some old) :
    reconcileClusterRoleBinding cfg name role sa cr w
      = reconcileClusterRoleBindingTail cfg name role cr true old
          (w.record w.bindings
            (Op.get { Namespace := "", Name := GenerateUniqueResourceName name cr } (some old)
              none)) := by
  unfold reconcileClusterRoleBinding
  simp only
  have hk : ({ Name := (newClusterRoleBindingWithname cfg name cr).Name } : NamespacedName)
      = { Namespace := "", Name := GenerateUniqueResourceName name cr } := rfl
  rw [hk, clientGet_found hf hg]

/-! ## Claims about `reconcileClusterRoleBinding` -/

/-- C11. The cluster-scope variant with a nil rule object. When the cluster
binding exists, the pass is the Get that returns it followed by its Delete, and
it returns what the Delete returns (so the binding is gone when the Delete is
served); when it does not exist, the pass returns no error having issued the
Get only, the stored bindings being as they were; and in no execution does it
issue a Create or an Update. -/
theorem reconcileClusterRoleBinding_nil_role (cfg : ClusterConfig) (name : String)
    (sa : ServiceAccount) (cr : ArgoCD) (w : World) :
    (∀ old, w.nextFault = none →
      storeGet w.bindings
        { Namespace := "", Name := cr.Name ++ "-" ++ cr.Namespace ++ "-" ++ name } = some old →
      reconcileClusterRoleBinding cfg name none sa cr w
          = clientDelete old
              (w.record w.bindings
                (Op.get { Namespace := "", Name := cr.Name ++ "-" ++ cr.Namespace ++ "-" ++ name }
                  (some old) none)) ∧
        ((w.record w.bindings
            (Op.get { Namespace := "", Name := cr.Name ++ "-" ++ cr.Namespace ++ "-" ++ name }
              (some old) none)).nextFault = none →
          (reconcileClusterRoleBinding cfg name none sa cr w).1 = .ok () ∧
          storeGet (reconcileClusterRoleBinding cfg name none sa cr w).2.bindings
            { Namespace := "", Name := cr.Name ++ "-" ++ cr.Namespace ++ "-" ++ name } = none)) ∧
    (w.nextFault = none →
      storeGet w.bindings
        { Namespace := "", Name := cr.Name ++ "-" ++ cr.Namespace ++ "-" ++ name } = none →
      reconcileClusterRoleBinding cfg name none sa cr w
        = (.ok (),
            w.record w.bindings
              (Op.get { Namespace := "", Name := cr.Name ++ "-" ++ cr.Namespace ++ "-" ++ name }
                none (some .notFound)))) ∧
    (∀ op ∈ issued w (reconcileClusterRoleBinding cfg name none sa cr w).2,
      ∀ rb e, op ≠ Op.create rb e ∧ op ≠ Op.update rb e) := by
  refine ⟨?_, ?_, ?_⟩
  · intro old hf hg
    have hrun := cluster_found cfg name none sa cr w old hf hg
    rw [clusterTail_nil] at hrun
    simp only [if_true, GenerateUniqueResourceName] at hrun
    refine ⟨hrun, ?_⟩
    intro hf1
    rw [hrun]
    have hkey : old.key
        = { Namespace := "", Name := cr.Name ++ "-" ++ cr.Namespace ++ "-" ++ name } :=
      storeGet_key hg
    rw [@clientDelete_ok old old _ hf1 (by rw [hkey]; exact hg), hkey]
    exact ⟨rfl, storeGet_delete_same _ _⟩
  · intro hf hg
    have hrun := cluster_absent cfg name none sa cr w hf hg
    rw [clusterTail_nil] at hrun
    exact hrun
  · intro op hop rb e
    cases hf : w.nextFault with
    | some f =>
      rw [cluster_fault cfg name none sa cr w f hf] at hop
      rw [@issued_of_append w _ [Op.get
        { Namespace := "", Name := GenerateUniqueResourceName name cr } none
        (some (.fault f))] rfl] at hop
      simp only [List.mem_singleton] at hop
      subst hop
      exact ⟨by simp, by simp⟩
    | none =>
      cases hg : storeGet w.bindings
          { Namespace := "", Name := GenerateUniqueResourceName name cr } with
      | none =>
        rw [cluster_absent cfg name none sa cr w hf hg, clusterTail_nil] at hop
        simp only [Bool.false_eq_true, if_false] at hop
        rw [@issued_of_append w _ [Op.get
          { Namespace := "", Name := GenerateUniqueResourceName name cr } none
          (some .notFound)] rfl] at hop
        simp only [List.mem_singleton] at hop
        subst hop
        exact ⟨by simp, by simp⟩
      | some old =>
        rw [cluster_found cfg name none sa cr w old hf hg, clusterTail_nil] at hop
        simp only [if_true] at hop
        obtain ⟨e1, ht⟩ := clientDelete_trace old
          (w.record w.bindings
            (Op.get { Namespace := "", Name := GenerateUniqueResourceName name cr } (some old)
              none))
        have ht2 : (clientDelete old
            (w.record w.bindings
              (Op.get { Namespace := "", Name := GenerateUniqueResourceName name cr } (some old)
                none))).2.trace
            = w.trace ++ [Op.get { Namespace := "", Name := GenerateUniqueResourceName name cr }
                (some old) none, Op.delete old e1] := by
          rw [ht]
          simp
        rw [issued_of_append ht2] at hop
        simp only [List.mem_cons, List.mem_singleton, List.not_mem_nil, or_false] at hop
        rcases hop with rfl | rfl <;> exact ⟨by simp, by simp⟩

/-- C11 on the scenario: the stored cluster binding is fetched and deleted. -/
theorem reconcileClusterRoleBinding_nil_role_witness :
    reconcileClusterRoleBinding demoCluster "x" none demoSA demoCR demoClusterWorld
      = clientDelete (demoBinding "argocd-argocd-x" "" "not-x" "not-x")
          (demoClusterWorld.record demoClusterWorld.bindings
            (Op.get { Namespace := "", Name := "argocd" ++ "-" ++ "argocd" ++ "-" ++ "x" }
              (some (demoBinding "argocd-argocd-x" "" "not-x" "not-x")) none)) :=
  ((reconcileClusterRoleBinding_nil_role demoCluster "x" demoSA demoCR demoClusterWorld).1
    (demoBinding "argocd-argocd-x" "" "not-x" "not-x") (by decide) (by decide)).1

/-- C12. The cluster-scope variant with a rule object. After a successful pass
the store holds the cluster binding named
`<spec-name>-<spec-namespace>-<roleId>`, whose subject list is exactly the
service account generated for the role identifier, in the namespace of the
specification, and whose role reference is the ClusterRole of that same name;
the object was written by Update when a binding was stored before the pass,
whatever its subject and role reference, and by Create when none was. -/
theorem reconcileClusterRoleBinding_ensures_binding (cfg : ClusterConfig) (name : String)
    (role : ClusterRole) (sa : ServiceAccount) (cr : ArgoCD) (w : World)
    (hok : (reconcileClusterRoleBinding cfg name (some role) sa cr w).1 = .ok ()) :
    ∃ rb : ClusterRoleBinding,
      storeGet (reconcileClusterRoleBinding cfg name (some role) sa cr w).2.bindings
        { Namespace := "", Name := cr.Name ++ "-" ++ cr.Namespace ++ "-" ++ name } = some rb ∧
      rb.Name = cr.Name ++ "-" ++ cr.Namespace ++ "-" ++ name ∧
      rb.Subjects = [{ Kind := "ServiceAccount", Name := cfg.generateResourceName name cr,
                       Namespace := cr.Namespace }] ∧
      rb.RoleRef = { APIGroup := "rbac.authorization.k8s.io", Kind := "ClusterRole",
                     Name := cr.Name ++ "-" ++ cr.Namespace ++ "-" ++ name } ∧
      ((∃ old, storeGet w.bindings
          { Namespace := "", Name := cr.Name ++ "-" ++ cr.Namespace ++ "-" ++ name } = some old) →
        Op.update rb none
          ∈ issued w (reconcileClusterRoleBinding cfg name (some role) sa cr w).2) ∧
      (storeGet w.bindings
          { Namespace := "", Name := cr.Name ++ "-" ++ cr.Namespace ++ "-" ++ name } = none →
        Op.create rb none
          ∈ issued w (reconcileClusterRoleBinding cfg name (some role) sa cr w).2) := by
  cases hf : w.nextFault with
  | some f =>
    rw [cluster_fault cfg name (some role) sa cr w f hf] at hok
    cases hok
  | none =>
    cases hg : storeGet w.bindings
        { Namespace := "", Name := GenerateUniqueResourceName name cr } with
    | none =>
      have hg2 : storeGet w.bindings
          { Namespace := "", Name := cr.Name ++ "-" ++ cr.Namespace ++ "-" ++ name } = none := hg
      rw [cluster_absent cfg name (some role) sa cr w hf hg] at hok ⊢
      obtain ⟨obj, hk, hs, hr, hst, htr⟩ :=
        clusterTail_some cfg name role cr false (newClusterRoleBindingWithname cfg name cr)
          (w.record w.bindings
            (Op.get { Namespace := "", Name := GenerateUniqueResourceName name cr } none
              (some .notFound)))
          { Namespace := "", Name := GenerateUniqueResourceName name cr }
          (newCluster_key cfg name cr) (fun h => by cases h) (fun _ => hg) hok
      refine ⟨obj, hst, congrArg NamespacedName.Name hk, hs, hr, ?_, ?_⟩
      · rintro ⟨old, hold⟩
        rw [hg2] at hold
        cases hold
      · intro _
        have ht2 : (reconcileClusterRoleBindingTail cfg name (some role) cr false
            (newClusterRoleBindingWithname cfg name cr)
            (w.record w.bindings
              (Op.get { Namespace := "", Name := GenerateUniqueResourceName name cr } none
                (some .notFound)))).2.trace
            = w.trace ++ [Op.get { Namespace := "", Name := GenerateUniqueResourceName name cr }
                none (some .notFound), Op.create obj none] := by
          rw [htr]
          simp
        rw [issued_of_append ht2]
        simp
    | some old =>
      have hg2 : storeGet w.bindings
          { Namespace := "", Name := cr.Name ++ "-" ++ cr.Namespace ++ "-" ++ name }
            = some old := hg
      rw [cluster_found cfg name (some role) sa cr w old hf hg] at hok ⊢
      obtain ⟨obj, hk, hs, hr, hst, htr⟩ :=
        clusterTail_some cfg name role cr true old
          (w.record w.bindings
            (Op.get { Namespace := "", Name := GenerateUniqueResourceName name cr } (some old)
              none))
          { Namespace := "", Name := GenerateUniqueResourceName name cr }
          (storeGet_key hg) (fun _ => ⟨old, hg⟩) (fun h => by cases h) hok
      refine ⟨obj, hst, congrArg NamespacedName.Name hk, hs, hr, ?_, ?_⟩
      · intro _
        have ht2 : (reconcileClusterRoleBindingTail cfg name (some role) cr true old
            (w.record w.bindings
              (Op.get { Namespace := "", Name := GenerateUniqueResourceName name cr } (some old)
                none))).2.trace
            = w.trace ++ [Op.get { Namespace := "", Name := GenerateUniqueResourceName name cr }
                (some old) none, Op.update obj none] := by
          rw [htr]
          simp
        rw [issued_of_append ht2]
        simp
      · intro hnone
        rw [hg2] at hnone
        cases hnone

/-- C12 on the scenario: the stored cluster binding, which carries another
subject and role reference, is overwritten. -/
theorem reconcileClusterRoleBinding_ensures_binding_witness :
    ∃ rb : ClusterRoleBinding,
      storeGet (reconcileClusterRoleBinding demoCluster "x" (some { Name := "x" }) demoSA demoCR
          demoClusterWorld).2.bindings
        { Namespace := "", Name := "argocd" ++ "-" ++ "argocd" ++ "-" ++ "x" } = some rb ∧
      rb.Name = "argocd" ++ "-" ++ "argocd" ++ "-" ++ "x" ∧
      rb.Subjects = [{ Kind := "ServiceAccount", Name := "argocd-x", Namespace := "argocd" }] ∧
      rb.RoleRef = { APIGroup := "rbac.authorization.k8s.io", Kind := "ClusterRole",
                     Name := "argocd" ++ "-" ++ "argocd" ++ "-" ++ "x" } ∧
      ((∃ old, storeGet demoClusterWorld.bindings
          { Namespace := "", Name := "argocd" ++ "-" ++ "argocd" ++ "-" ++ "x" } = some old) →
        Op.update rb none
          ∈ issued demoClusterWorld
              (reconcileClusterRoleBinding demoCluster "x" (some { Name := "x" }) demoSA demoCR
                demoClusterWorld).2) ∧
      (storeGet demoClusterWorld.bindings
          { Namespace := "", Name := "argocd" ++ "-" ++ "argocd" ++ "-" ++ "x" } = none →
        Op.create rb none
          ∈ issued demoClusterWorld
              (reconcileClusterRoleBinding demoCluster "x" (some { Name := "x" }) demoSA demoCR
                demoClusterWorld).2) :=
  reconcileClusterRoleBinding_ensures_binding demoCluster "x" { Name := "x" } demoSA demoCR
    demoClusterWorld (by rfl)

/-! ## Claims about the names of cluster bindings -/

/-- Two specifications of one name in different namespaces get different
cluster binding names for every role identifier: the generated names agree only
when the namespaces do. -/
theorem GenerateUniqueResourceName_same_name (name : String) (cr1 cr2 : ArgoCD)
    (hn : cr1.Name = cr2.Name)
    (h : GenerateUniqueResourceName name cr1 = GenerateUniqueResourceName name cr2) :
    cr1.Namespace = cr2.Namespace := by
  unfold GenerateUniqueResourceName at h
  rw [hn] at h
  have h2 := congrArg String.data h
  simp only [String.data_append, List.append_assoc, List.append_cancel_left_eq] at h2
  have h3 := List.append_cancel_right h2
  exact String.ext h3

/-- C13. Collision freedom of cluster-scoped names fails on the name format
`<spec-name>-<spec-namespace>-<roleId>`: the specification `a` of the namespace
`b-c` and the specification `a-b` of the namespace `c` live in different
namespaces, and `newClusterRoleBindingWithname` names the cluster binding of the
role identifier `x` as `a-b-c-x` for both. -/
theorem newClusterRoleBindingWithname_name_collision :
    ({ Name := "a", Namespace := "b-c" } : ArgoCD).Namespace
        ≠ ({ Name := "a-b", Namespace := "c" } : ArgoCD).Namespace ∧
      (newClusterRoleBindingWithname demoCluster "x" { Name := "a", Namespace := "b-c" }).Name
        = "a-b-c-x" ∧
      (newClusterRoleBindingWithname demoCluster "x" { Name := "a-b", Namespace := "c" }).Name
        = "a-b-c-x" := by
  refine ⟨by decide, by rfl, by rfl⟩

/-! ## Maps of environment entries -/

theorem envMergeFinal_eq (existing merge : List EnvVar) (override : Bool) :
    envMergeFinal existing merge override
      = envLoadMerge override merge (envLoadExisting existing []) := rfl

theorem envHas_iff (m : EnvMap) (k : String) : envHas m k = true ↔ k ∈ envKeys m := by
  unfold envHas envKeys
  simp only [List.any_eq_true, decide_eq_true_eq, List.mem_map]

theorem envHas_false_iff (m : EnvMap) (k : String) : envHas m k = false ↔ k ∉ envKeys m := by
  rw [← envHas_iff]
  cases envHas m k <;> simp

theorem envSet_of_absent (m : EnvMap) (k : String) (v : EnvVar) (h : k ∉ envKeys m) :
    envSet m k v = m ++ [(k, v)] := by
  induction m with
  | nil => rfl
  | cons p ps ih =>
    have hp : ¬ p.1 = k := by
      intro hpk
      apply h
      rw [← hpk]
      simp [envKeys]
    have hps : k ∉ envKeys ps := by
      intro hk
      apply h
      simp only [envKeys, List.map_cons, List.mem_cons] at hk ⊢
      exact Or.inr hk
    rw [envSet, if_neg hp, ih hps]
    rfl

theorem envSet_keys_of_present (m : EnvMap) (k : String) (v : EnvVar) (h : k ∈ envKeys m) :
    envKeys (envSet m k v) = envKeys m := by
  induction m with
  | nil => simp [envKeys] at h
  | cons p ps ih =>
    by_cases hp : p.1 = k
    · rw [envSet, if_pos hp]
      simp [envKeys, hp]
    · have hps : k ∈ envKeys ps := by
        simp only [envKeys, List.map_cons, List.mem_cons] at h ⊢
        rcases h with h | h
        · exact absurd h.symm hp
        · exact h
      rw [envSet, if_neg hp]
      show p.1 :: envKeys (envSet ps k v) = p.1 :: envKeys ps
      rw [ih hps]

theorem envSet_length_of_present (m : EnvMap) (k : String) (v : EnvVar) (h : k ∈ envKeys m) :
    (envSet m k v).length = m.length := by
  have := congrArg List.length (envSet_keys_of_present m k v h)
  simpa [envKeys] using this

theorem envKeys_envSet (m : EnvMap) (k : String) (v : EnvVar) (x : String) :
    x ∈ envKeys (envSet m k v) ↔ x = k ∨ x ∈ envKeys m := by
  by_cases h : k ∈ envKeys m
  · rw [envSet_keys_of_present m k v h]
    constructor
    · exact Or.inr
    · rintro (rfl | hx)
      · exact h
      · exact hx
  · rw [envSet_of_absent m k v h]
    simp only [envKeys, List.map_append, List.map_cons, List.map_nil, List.mem_append,
      List.mem_singleton]
    constructor
    · rintro (hx | hx)
      · exact Or.inr hx
      · exact Or.inl hx
    · rintro (hx | hx)
      · exact Or.inr hx
      · exact Or.inl hx

theorem envSet_mem_self (m : EnvMap) (k : String) (v : EnvVar) : (k, v) ∈ envSet m k v := by
  induction m with
  | nil => simp [envSet]
  | cons p ps ih =>
    by_cases hp : p.1 = k
    · rw [envSet, if_pos hp]
      exact List.mem_cons_self _ _
    · rw [envSet, if_neg hp]
      exact List.mem_cons_of_mem _ ih

/-- An entry of the map after a write is the entry written, or an entry that
was there, under another key when no key occurs twice. -/
theorem envSet_mem (m : EnvMap) (k : String) (v : EnvVar) (hnd : (envKeys m).Nodup)
    (p : String × EnvVar) (hp : p ∈ envSet m k v) : p = (k, v) ∨ (p ∈ m ∧ p.1 ≠ k) := by
  induction m with
  | nil =>
    simp only [envSet, List.mem_singleton] at hp
    exact Or.inl hp
  | cons q qs ih =>
    have hnd2 : (envKeys qs).Nodup := (List.nodup_cons.mp hnd).2
    have hq : q.1 ∉ envKeys qs := (List.nodup_cons.mp hnd).1
    by_cases hqk : q.1 = k
    · rw [envSet, if_pos hqk] at hp
      rcases List.mem_cons.mp hp with h | h
      · exact Or.inl h
      · refine Or.inr ⟨List.mem_cons_of_mem _ h, ?_⟩
        intro hpk
        apply hq
        rw [hqk, ← hpk]
        exact List.mem_map_of_mem _ h
    · rw [envSet, if_neg hqk] at hp
      rcases List.mem_cons.mp hp with h | h
      · right
        rw [h]
        exact ⟨List.mem_cons_self _ _, hqk⟩
      · rcases ih hnd2 h with h1 | ⟨h1, h2⟩
        · exact Or.inl h1
        · exact Or.inr ⟨List.mem_cons_of_mem _ h1, h2⟩

theorem envSet_mem_of_ne (m : EnvMap) (k : String) (v : EnvVar) (p : String × EnvVar)
    (hp : p ∈ m) (hne : p.1 ≠ k) : p ∈ envSet m k v := by
  induction m with
  | nil => cases hp
  | cons q qs ih =>
    by_cases hqk : q.1 = k
    · rw [envSet, if_pos hqk]
      rcases List.mem_cons.mp hp with h | h
      · rw [h] at hne
        exact absurd hqk hne
      · exact List.mem_cons_of_mem _ h
    · rw [envSet, if_neg hqk]
      rcases List.mem_cons.mp hp with h | h
      · rw [h]
        exact List.mem_cons_self _ _
      · exact List.mem_cons_of_mem _ (ih h)

theorem envSet_wf (m : EnvMap) (k : String) (v : EnvVar) (hwf : envWF m) (hv : v.Name = k) :
    envWF (envSet m k v) := by
  obtain ⟨hnd, hname⟩ := hwf
  constructor
  · by_cases h : k ∈ envKeys m
    · rw [envSet_keys_of_present m k v h]
      exact hnd
    · rw [envSet_of_absent m k v h]
      simp only [envKeys, List.map_append, List.map_cons, List.map_nil]
      rw [List.nodup_append]
      refine ⟨hnd, by simp, ?_⟩
      intro a ha hb
      rw [List.mem_singleton] at hb
      subst hb
      exact h ha
  · intro p hp
    rcases envSet_mem m k v hnd p hp with h | ⟨h, -⟩
    · rw [h]
      exact hv
    · exact hname p h

theorem envWF_nil : envWF [] := by
  constructor
  · simp [envKeys]
  · intro p hp
    cases hp

/-- Two entries of a well-formed map under one key are one entry. -/
theorem envWF_unique {m : EnvMap} (hwf : envWF m) {p q : String × EnvVar} (hp : p ∈ m)
    (hq : q ∈ m) (h : p.1 = q.1) : p = q := by
  obtain ⟨hnd, -⟩ := hwf
  unfold envKeys at hnd
  exact List.inj_on_of_nodup_map hnd hp hq h

theorem envLoadExisting_cons (e : EnvVar) (es : List EnvVar) (acc : EnvMap) :
    envLoadExisting (e :: es) acc = envLoadExisting es (envSet acc e.Name e) := rfl

theorem envLoadMerge_cons (override : Bool) (m : EnvVar) (ms : List EnvVar) (acc : EnvMap) :
    envLoadMerge override (m :: ms) acc
      = envLoadMerge override ms
          (if envHas acc m.Name then (if override then envSet acc m.Name m else acc)
            else envSet acc m.Name m) := rfl

theorem envLoadExisting_wf (existing : List EnvVar) :
    ∀ acc : EnvMap, envWF acc → envWF (envLoadExisting existing acc) := by
  induction existing with
  | nil => intro acc h; exact h
  | cons e es ih =>
    intro acc h
    rw [envLoadExisting_cons]
    exact ih _ (envSet_wf acc e.Name e h rfl)

theorem envLoadExisting_keys (existing : List EnvVar) (x : String) :
    ∀ acc : EnvMap, x ∈ envKeys (envLoadExisting existing acc)
      ↔ x ∈ envKeys acc ∨ x ∈ existing.map (fun e => e.Name) := by
  induction existing with
  | nil => intro acc; simp [envLoadExisting]
  | cons e es ih =>
    intro acc
    rw [envLoadExisting_cons, ih, envKeys_envSet]
    simp only [List.map_cons, List.mem_cons]
    tauto

theorem envLoadExisting_mem (existing : List EnvVar) (p : String × EnvVar) :
    ∀ acc : EnvMap, envWF acc → p ∈ envLoadExisting existing acc → p ∈ acc ∨ p.2 ∈ existing := by
  induction existing with
  | nil => intro acc _ h; exact Or.inl h
  | cons e es ih =>
    intro acc hwf h
    rw [envLoadExisting_cons] at h
    rcases ih _ (envSet_wf acc e.Name e hwf rfl) h with h1 | h1
    · rcases envSet_mem acc e.Name e hwf.1 p h1 with h2 | ⟨h2, -⟩
      · right
        rw [h2]
        exact List.mem_cons_self _ _
      · exact Or.inl h2
    · exact Or.inr (List.mem_cons_of_mem _ h1)

theorem envLoadMerge_wf (override : Bool) (merge : List EnvVar) :
    ∀ acc : EnvMap, envWF acc → envWF (envLoadMerge override merge acc) := by
  induction merge with
  | nil => intro acc h; exact h
  | cons m ms ih =>
    intro acc h
    rw [envLoadMerge_cons]
    apply ih
    split
    · split
      · exact envSet_wf acc m.Name m h rfl
      · exact h
    · exact envSet_wf acc m.Name m h rfl

theorem envLoadMerge_keys (override : Bool) (merge : List EnvVar) (x : String) :
    ∀ acc : EnvMap, x ∈ envKeys (envLoadMerge override merge acc)
      ↔ x ∈ envKeys acc ∨ x ∈ merge.map (fun e => e.Name) := by
  induction merge with
  | nil => intro acc; simp [envLoadMerge]
  | cons m ms ih =>
    intro acc
    rw [envLoadMerge_cons, ih]
    simp only [List.map_cons, List.mem_cons]
    by_cases hhas : envHas acc m.Name = true
    · have hk : m.Name ∈ envKeys acc := (envHas_iff _ _).mp hhas
      rw [if_pos hhas]
      cases override with
      | true =>
        simp only [if_true]
        rw [envKeys_envSet]
        constructor
        · rintro ((h | h) | h)
          · exact Or.inr (Or.inl h)
          · exact Or.inl h
          · exact Or.inr (Or.inr h)
        · rintro (h | h | h)
          · exact Or.inl (Or.inr h)
          · exact Or.inl (Or.inl h)
          · exact Or.inr h
      | false =>
        simp only [Bool.false_eq_true, if_false]
        constructor
        · rintro (h | h)
          · exact Or.inl h
          · exact Or.inr (Or.inr h)
        · rintro (h | h | h)
          · exact Or.inl h
          · rw [h]
            exact Or.inl hk
          · exact Or.inr h
    · rw [if_neg hhas, envKeys_envSet]
      constructor
      · rintro ((h | h) | h)
        · exact Or.inr (Or.inl h)
        · exact Or.inl h
        · exact Or.inr (Or.inr h)
      · rintro (h | h | h)
        · exact Or.inl (Or.inr h)
        · exact Or.inl (Or.inl h)
        · exact Or.inr h

/-- Without override, an entry of the map after the second loop was in the map
before it, or comes from `merge` under a name the map did not have. -/
theorem envLoadMerge_false_mem (merge : List EnvVar) (p : String × EnvVar) :
    ∀ acc : EnvMap, p ∈ envLoadMerge false merge acc →
      p ∈ acc ∨ (p.1 ∉ envKeys acc ∧ p.2 ∈ merge) := by
  induction merge with
  | nil => intro acc h; exact Or.inl h
  | cons m ms ih =>
    intro acc h
    rw [envLoadMerge_cons] at h
    by_cases hhas : envHas acc m.Name = true
    · rw [if_pos hhas] at h
      simp only [Bool.false_eq_true, if_false] at h
      rcases ih acc h with h1 | ⟨h1, h2⟩
      · exact Or.inl h1
      · exact Or.inr ⟨h1, List.mem_cons_of_mem _ h2⟩
    · rw [if_neg hhas] at h
      have hk : m.Name ∉ envKeys acc := by
        intro hk
        exact hhas ((envHas_iff _ _).mpr hk)
      rw [envSet_of_absent acc m.Name m hk] at h
      rcases ih _ h with h1 | ⟨h1, h2⟩
      · rcases List.mem_append.mp h1 with h3 | h3
        · exact Or.inl h3
        · rw [List.mem_singleton] at h3
          right
          rw [h3]
          exact ⟨hk, List.mem_cons_self _ _⟩
      · right
        refine ⟨?_, List.mem_cons_of_mem _ h2⟩
        intro hp
        apply h1
        simp only [envKeys, List.map_append, List.mem_append]
        exact Or.inl hp

theorem envLoadMerge_false_keeps (merge : List EnvVar) (p : String × EnvVar) :
    ∀ acc : EnvMap, p ∈ acc → p ∈ envLoadMerge false merge acc := by
  induction merge with
  | nil => intro acc h; exact h
  | cons m ms ih =>
    intro acc h
    rw [envLoadMerge_cons]
    apply ih
    by_cases hhas : envHas acc m.Name = true
    · rw [if_pos hhas]
      simp only [Bool.false_eq_true, if_false]
      exact h
    · rw [if_neg hhas]
      have hk : m.Name ∉ envKeys acc := by
        intro hk
        exact hhas ((envHas_iff _ _).mpr hk)
      rw [envSet_of_absent acc m.Name m hk]
      exact List.mem_append_left _ h

/-- When the names of `existing` are pairwise distinct and new to the map, the
first loop appends the entries in their order. -/
theorem envLoadExisting_of_nodup (existing : List EnvVar) :
    ∀ acc : EnvMap, (existing.map (fun e => e.Name)).Nodup →
      (∀ e ∈ existing, e.Name ∉ envKeys acc) →
      envLoadExisting existing acc = acc ++ existing.map (fun e => (e.Name, e)) := by
  induction existing with
  | nil => intro acc _ _; simp [envLoadExisting]
  | cons e es ih =>
    intro acc hnd hnew
    rw [List.map_cons, List.nodup_cons] at hnd
    obtain ⟨he, hnd2⟩ := hnd
    have hk : e.Name ∉ envKeys acc := hnew e (List.mem_cons_self _ _)
    rw [envLoadExisting_cons, envSet_of_absent acc e.Name e hk, ih _ hnd2]
    · simp
    · intro e2 he2 hmem
      simp only [envKeys, List.map_append, List.map_cons, List.map_nil, List.mem_append,
        List.mem_singleton] at hmem
      rcases hmem with h | h
      · exact hnew e2 (List.mem_cons_of_mem _ he2) h
      · apply he
        rw [← h]
        exact List.mem_map_of_mem _ he2

/-- Without override, when the entries of `merge` whose names are new to the map
have pairwise distinct names, the second loop appends exactly those entries, in
their order. -/
theorem envLoadMerge_false_of_nodup (merge : List EnvVar) :
    ∀ acc : EnvMap,
      ((merge.filter (fun m => decide (m.Name ∉ envKeys acc))).map (fun e => e.Name)).Nodup →
      envLoadMerge false merge acc
        = acc ++ (merge.filter (fun m => decide (m.Name ∉ envKeys acc))).map
            (fun e => (e.Name, e)) := by
  induction merge with
  | nil => intro acc _; simp [envLoadMerge]
  | cons m ms ih =>
    intro acc hnd
    rw [envLoadMerge_cons]
    by_cases hhas : envHas acc m.Name = true
    · have hk : m.Name ∈ envKeys acc := (envHas_iff _ _).mp hhas
      rw [if_pos hhas]
      simp only [Bool.false_eq_true, if_false]
      have hf : (m :: ms).filter (fun m => decide (m.Name ∉ envKeys acc))
          = ms.filter (fun m => decide (m.Name ∉ envKeys acc)) := by
        rw [List.filter_cons]
        simp [hk]
      rw [hf] at hnd ⊢
      exact ih acc hnd
    · have hk : m.Name ∉ envKeys acc := by
        intro hk
        exact hhas ((envHas_iff _ _).mpr hk)
      rw [if_neg hhas, envSet_of_absent acc m.Name m hk]
      have hf : (m :: ms).filter (fun m => decide (m.Name ∉ envKeys acc))
          = m :: ms.filter (fun m => decide (m.Name ∉ envKeys acc)) := by
        rw [List.filter_cons]
        simp [hk]
      rw [hf] at hnd ⊢
      rw [List.map_cons, List.nodup_cons] at hnd
      obtain ⟨hm, hnd2⟩ := hnd
      have hfilter : ms.filter (fun x => decide (x.Name ∉ envKeys (acc ++ [(m.Name, m)])))
          = ms.filter (fun x => decide (x.Name ∉ envKeys acc)) := by
        apply List.filter_congr
        intro x hx
        simp only [envKeys, List.map_append, List.map_cons, List.map_nil, List.mem_append,
          List.mem_singleton, not_or, decide_eq_decide]
        constructor
        · exact fun h => h.1
        · intro h
          refine ⟨h, ?_⟩
          intro hxm
          apply hm
          rw [← hxm]
          apply List.mem_map_of_mem
          rw [List.mem_filter]
          exact ⟨hx, by simpa [envKeys] using h⟩
      rw [ih (acc ++ [(m.Name, m)]) (by rw [hfilter]; exact hnd2), hfilter]
      simp

/-! ## The result of `EnvMerge` -/

theorem envMergeFinal_wf (existing merge : List EnvVar) (override : Bool) :
    envWF (envMergeFinal existing merge override) := by
  rw [envMergeFinal_eq]
  exact envLoadMerge_wf override merge _ (envLoadExisting_wf existing _ envWF_nil)

theorem envWF_values_names {m : EnvMap} (hwf : envWF m) :
    (m.map (fun p => p.2)).map (fun e => e.Name) = envKeys m := by
  unfold envKeys
  rw [List.map_map]
  apply List.map_congr_left
  intro p hp
  exact hwf.2 p hp

/-- No two entries of the result of `EnvMerge` have one name. -/
theorem EnvMerge_names_nodup (existing merge : List EnvVar) (override : Bool) :
    ((EnvMerge existing merge override).map (fun e => e.Name)).Nodup := by
  unfold EnvMerge
  rw [envWF_values_names (envMergeFinal_wf existing merge override)]
  exact (envMergeFinal_wf existing merge override).1

theorem EnvMerge_mem_iff (existing merge : List EnvVar) (override : Bool) (e : EnvVar) :
    e ∈ EnvMerge existing merge override ↔ (e.Name, e) ∈ envMergeFinal existing merge override := by
  unfold EnvMerge
  rw [List.mem_map]
  constructor
  · rintro ⟨p, hp, rfl⟩
    have hname := (envMergeFinal_wf existing merge override).2 p hp
    rw [hname]
    exact hp
  · intro h
    exact ⟨(e.Name, e), h, rfl⟩

/-- In a list without two entries of one name, the entries that carry the name
of a member are that member alone. -/
theorem filter_name_of_nodup (l : List EnvVar) (a : EnvVar)
    (hnd : (l.map (fun e => e.Name)).Nodup) (ha : a ∈ l) :
    l.filter (fun x => decide (x.Name = a.Name)) = [a] := by
  induction l with
  | nil => cases ha
  | cons b bs ih =>
    rw [List.map_cons, List.nodup_cons] at hnd
    obtain ⟨hb, hnd2⟩ := hnd
    rcases List.mem_cons.mp ha with h | h
    · subst h
      rw [List.filter_cons_of_pos (by simp)]
      congr 1
      rw [List.filter_eq_nil_iff]
      intro x hx hxa
      apply hb
      have : x.Name = a.Name := by simpa using hxa
      rw [← this]
      exact List.mem_map_of_mem _ hx
    · have hne : ¬ b.Name = a.Name := by
        intro hba
        apply hb
        rw [hba]
        exact List.mem_map_of_mem _ h
      rw [List.filter_cons_of_neg (by simpa using hne)]
      exact ih hnd2 h

theorem envLoadExisting_nil_of_nodup (existing : List EnvVar)
    (hnd : (existing.map (fun e => e.Name)).Nodup) :
    envLoadExisting existing [] = existing.map (fun e => (e.Name, e)) := by
  rw [envLoadExisting_of_nodup existing [] hnd]
  · rfl
  · intro e _ h
    cases h

theorem envKeys_pairs (l : List EnvVar) :
    envKeys (l.map (fun e => (e.Name, e))) = l.map (fun e => e.Name) := by
  unfold envKeys
  rw [List.map_map]
  rfl

theorem envKeys_envLoadExisting_nil (existing : List EnvVar) (x : String) :
    x ∈ envKeys (envLoadExisting existing []) ↔ x ∈ existing.map (fun e => e.Name) := by
  rw [envLoadExisting_keys]
  constructor
  · rintro (h | h)
    · cases h
    · exact h
  · exact Or.inr

/-! ## Claims about `EnvMerge` -/

/-- C14. `EnvMerge` with override off lets the existing entries win. For every
`existing` and `merge`, every rearrangement `ret` of the result (Go leaves the
order of the result open) and every name that occurs in `existing`: `ret` has
exactly one entry of that name, it is an entry of `existing`, and an entry of
`merge` of the same name that is not an entry of `existing` (one with another
value) is not in `ret`. -/
theorem EnvMerge_existing_wins (existing merge ret : List EnvVar) (n : String)
    (hret : ret.Perm (EnvMerge existing merge false))
    (hn : n ∈ existing.map (fun e => e.Name)) :
    (∃ e ∈ existing, ret.filter (fun x => decide (x.Name = n)) = [e]) ∧
      (∀ m ∈ merge, m.Name = n → m ∉ existing → m ∉ ret) := by
  have hwfE : envWF (envLoadExisting existing []) := envLoadExisting_wf existing _ envWF_nil
  have hkey : n ∈ envKeys (envLoadExisting existing []) :=
    (envKeys_envLoadExisting_nil existing n).mpr hn
  -- an entry of the result under the name `n` comes from `existing`
  have hfrom : ∀ e ∈ ret, e.Name = n → e ∈ existing := by
    intro e he hen
    have h1 : (e.Name, e) ∈ envMergeFinal existing merge false :=
      (EnvMerge_mem_iff existing merge false e).mp (hret.mem_iff.mp he)
    rw [envMergeFinal_eq] at h1
    rcases envLoadMerge_false_mem merge (e.Name, e) _ h1 with h2 | ⟨h2, -⟩
    · rcases envLoadExisting_mem existing (e.Name, e) [] envWF_nil h2 with h3 | h3
      · cases h3
      · exact h3
    · exfalso
      apply h2
      show e.Name ∈ envKeys (envLoadExisting existing [])
      rw [hen]
      exact hkey
  -- the map holds an entry under the name `n` after the first loop, and keeps it
  obtain ⟨p, hp, hpn⟩ : ∃ p ∈ envLoadExisting existing [], p.1 = n := by
    unfold envKeys at hkey
    rw [List.mem_map] at hkey
    exact hkey
  have hpname : p.2.Name = p.1 := hwfE.2 p hp
  have hpF : p ∈ envMergeFinal existing merge false := by
    rw [envMergeFinal_eq]
    exact envLoadMerge_false_keeps merge p _ hp
  have hpret : p.2 ∈ ret := by
    apply hret.mem_iff.mpr
    unfold EnvMerge
    exact List.mem_map_of_mem _ hpF
  have hnd : (ret.map (fun e => e.Name)).Nodup :=
    ((hret.map (fun e => e.Name)).nodup_iff).mpr (EnvMerge_names_nodup existing merge false)
  have hp2n : p.2.Name = n := by rw [hpname, hpn]
  refine ⟨⟨p.2, hfrom p.2 hpret hp2n, ?_⟩, ?_⟩
  · rw [← hp2n]
    exact filter_name_of_nodup ret p.2 hnd hpret
  · intro m _ hmn hmex hmret
    exact hmex (hfrom m hmret hmn)

/-- C14 on the repo server entries: the explicit entry for the name `FOO` stays,
and the merged entry of that name with another value does not get in. -/
theorem EnvMerge_existing_wins_witness :
    List.Perm
        [({ Name := "HTTP_PROXY", Value := "example.com:8888" } : EnvVar),
          { Name := "FOO", Value := "BAR" }]
        (EnvMerge [{ Name := "FOO", Value := "BAR" }]
          [{ Name := "FOO", Value := "other" }, { Name := "HTTP_PROXY", Value := "example.com:8888" }]
          false) ∧
      "FOO" ∈ [({ Name := "FOO", Value := "BAR" } : EnvVar)].map (fun e => e.Name) ∧
      ((∃ e ∈ [({ Name := "FOO", Value := "BAR" } : EnvVar)],
          [({ Name := "HTTP_PROXY", Value := "example.com:8888" } : EnvVar),
            { Name := "FOO", Value := "BAR" }].filter (fun x => decide (x.Name = "FOO")) = [e]) ∧
        (∀ m ∈ [({ Name := "FOO", Value := "other" } : EnvVar),
              { Name := "HTTP_PROXY", Value := "example.com:8888" }],
          m.Name = "FOO" → m ∉ [({ Name := "FOO", Value := "BAR" } : EnvVar)] →
            m ∉ [({ Name := "HTTP_PROXY", Value := "example.com:8888" } : EnvVar),
              { Name := "FOO", Value := "BAR" }])) :=
  ⟨by decide, by decide,
    EnvMerge_existing_wins [{ Name := "FOO", Value := "BAR" }]
      [{ Name := "FOO", Value := "other" }, { Name := "HTTP_PROXY", Value := "example.com:8888" }]
      [{ Name := "HTTP_PROXY", Value := "example.com:8888" }, { Name := "FOO", Value := "BAR" }]
      "FOO" (by decide) (by decide)⟩

/-- With override on and a single entry to merge, the map after both loops is
the map of the existing entries with that entry written under its name. -/
theorem envMergeFinal_single_override (existing : List EnvVar) (m : EnvVar) :
    envMergeFinal existing [m] true = envSet (envLoadExisting existing []) m.Name m := by
  rw [envMergeFinal_eq]
  show (if envHas (envLoadExisting existing []) m.Name then
          (if true then envSet (envLoadExisting existing []) m.Name m
            else envLoadExisting existing [])
        else envSet (envLoadExisting existing []) m.Name m) = _
  split
  · rfl
  · rfl

/-- C15. `EnvMerge` with override on lets the merged entry win. For every
`existing`, every single entry `m` to merge and every rearrangement `ret` of the
result: the entries of `ret` named `m.Name` are `m` alone; when the names of
`existing` are pairwise distinct and `m.Name` is one of them, `ret` is as long
as `existing`; and when `existing` is empty, `ret` is exactly `[m]`. -/
theorem EnvMerge_override_wins (existing ret : List EnvVar) (m : EnvVar)
    (hret : ret.Perm (EnvMerge existing [m] true)) :
    m ∈ ret ∧
      ret.filter (fun x => decide (x.Name = m.Name)) = [m] ∧
      ((existing.map (fun e => e.Name)).Nodup → m.Name ∈ existing.map (fun e => e.Name) →
        ret.length = existing.length) ∧
      (existing = [] → ret = [m]) := by
  have hm : m ∈ ret := by
    apply hret.mem_iff.mpr
    rw [EnvMerge_mem_iff, envMergeFinal_single_override]
    exact envSet_mem_self _ _ _
  have hnd : (ret.map (fun e => e.Name)).Nodup :=
    ((hret.map (fun e => e.Name)).nodup_iff).mpr (EnvMerge_names_nodup existing [m] true)
  refine ⟨hm, filter_name_of_nodup ret m hnd hm, ?_, ?_⟩
  · intro hex hmem
    rw [hret.length_eq]
    unfold EnvMerge
    rw [List.length_map, envMergeFinal_single_override,
      envSet_length_of_present _ _ _ ((envKeys_envLoadExisting_nil existing m.Name).mpr hmem),
      envLoadExisting_nil_of_nodup existing hex, List.length_map]
  · intro hnil
    subst hnil
    have h1 : EnvMerge [] [m] true = [m] := rfl
    rw [h1] at hret
    exact List.perm_singleton.mp hret

/-- C15 on the test of the repo server: the explicit entry `20` for the
execution timeout is overwritten with `600`, and the list keeps its length. -/
theorem EnvMerge_override_wins_witness :
    List.Perm [({ Name := "ARGOCD_EXEC_TIMEOUT", Value := "600" } : EnvVar)]
        (EnvMerge [{ Name := "ARGOCD_EXEC_TIMEOUT", Value := "20" }]
          [{ Name := "ARGOCD_EXEC_TIMEOUT", Value := "600" }] true) ∧
      (({ Name := "ARGOCD_EXEC_TIMEOUT", Value := "600" } : EnvVar)
          ∈ [({ Name := "ARGOCD_EXEC_TIMEOUT", Value := "600" } : EnvVar)] ∧
        [({ Name := "ARGOCD_EXEC_TIMEOUT", Value := "600" } : EnvVar)].filter
            (fun x => decide (x.Name = "ARGOCD_EXEC_TIMEOUT"))
          = [{ Name := "ARGOCD_EXEC_TIMEOUT", Value := "600" }] ∧
        (([({ Name := "ARGOCD_EXEC_TIMEOUT", Value := "20" } : EnvVar)].map
              (fun e => e.Name)).Nodup →
          "ARGOCD_EXEC_TIMEOUT"
              ∈ [({ Name := "ARGOCD_EXEC_TIMEOUT", Value := "20" } : EnvVar)].map
                  (fun e => e.Name) →
            [({ Name := "ARGOCD_EXEC_TIMEOUT", Value := "600" } : EnvVar)].length
              = [({ Name := "ARGOCD_EXEC_TIMEOUT", Value := "20" } : EnvVar)].length) ∧
        ([({ Name := "ARGOCD_EXEC_TIMEOUT", Value := "20" } : EnvVar)] = [] →
          [({ Name := "ARGOCD_EXEC_TIMEOUT", Value := "600" } : EnvVar)]
            = [{ Name := "ARGOCD_EXEC_TIMEOUT", Value := "600" }])) :=
  ⟨by decide,
    EnvMerge_override_wins [{ Name := "ARGOCD_EXEC_TIMEOUT", Value := "20" }]
      [{ Name := "ARGOCD_EXEC_TIMEOUT", Value := "600" }]
      { Name := "ARGOCD_EXEC_TIMEOUT", Value := "600" } (by decide)⟩

/-- When the names of `existing` are pairwise distinct, and so are the names of
the entries of `merge` whose names do not occur in `existing`, `EnvMerge`
without override lists the existing entries and then those entries of `merge`. -/
theorem EnvMerge_false_of_nodup (existing merge : List EnvVar)
    (hex : (existing.map (fun e => e.Name)).Nodup)
    (hmg : ((merge.filter (fun m => decide (m.Name ∉ existing.map (fun e => e.Name)))).map
      (fun e => e.Name)).Nodup) :
    EnvMerge existing merge false
      = existing ++ merge.filter (fun m => decide (m.Name ∉ existing.map (fun e => e.Name))) := by
  unfold EnvMerge
  rw [envMergeFinal_eq, envLoadExisting_nil_of_nodup existing hex,
    envLoadMerge_false_of_nodup merge _ (by rw [envKeys_pairs]; exact hmg), envKeys_pairs,
    List.map_append, List.map_map, List.map_map]
  simp [Function.comp_def]

/-- C16, as stated, fails. With two existing entries of the name `A` and two
entries to merge of the name `B`, the result of `EnvMerge` without override has
one entry for each name: the existing entry `A=1` is missing, the entry `B=2`
to merge is missing although its name does not occur in `existing`, and the
length is 2, not 2 plus 2. -/
theorem EnvMerge_collapses_equal_names :
    ({ Name := "A", Value := "1" } : EnvVar)
        ∉ EnvMerge [{ Name := "A", Value := "1" }, { Name := "A", Value := "2" }]
            [{ Name := "B", Value := "1" }, { Name := "B", Value := "2" }] false ∧
      ({ Name := "B", Value := "2" } : EnvVar)
        ∉ EnvMerge [{ Name := "A", Value := "1" }, { Name := "A", Value := "2" }]
            [{ Name := "B", Value := "1" }, { Name := "B", Value := "2" }] false ∧
      (EnvMerge [{ Name := "A", Value := "1" }, { Name := "A", Value := "2" }]
          [{ Name := "B", Value := "1" }, { Name := "B", Value := "2" }] false).length = 2 ∧
      ([({ Name := "B", Value := "1" } : EnvVar), { Name := "B", Value := "2" }].filter
          (fun m => decide (m.Name ∉ [({ Name := "A", Value := "1" } : EnvVar),
            { Name := "A", Value := "2" }].map (fun e => e.Name)))).length = 2 := by
  refine ⟨by decide, by decide, by rfl, by rfl⟩

/-- C16, amended. When the names of `existing` are pairwise distinct, and so
are the names of the entries of `merge` whose names do not occur in `existing`,
every rearrangement `ret` of the result of `EnvMerge` without override is a
rearrangement of the entries of `existing` followed by exactly those entries of
`merge`; its length is the length of `existing` plus their number. -/
theorem EnvMerge_keeps_and_appends (existing merge ret : List EnvVar)
    (hex : (existing.map (fun e => e.Name)).Nodup)
    (hmg : ((merge.filter (fun m => decide (m.Name ∉ existing.map (fun e => e.Name)))).map
      (fun e => e.Name)).Nodup)
    (hret : ret.Perm (EnvMerge existing merge false)) :
    ret.Perm
        (existing ++ merge.filter (fun m => decide (m.Name ∉ existing.map (fun e => e.Name)))) ∧
      ret.length
        = existing.length
          + (merge.filter (fun m => decide (m.Name ∉ existing.map (fun e => e.Name)))).length := by
  rw [EnvMerge_false_of_nodup existing merge hex hmg] at hret
  refine ⟨hret, ?_⟩
  rw [hret.length_eq, List.length_append]

/-- C16 on the test of the proxy entries: one existing entry and three proxy
entries give four entries, the existing one among them. -/
theorem EnvMerge_keeps_and_appends_witness :
    ([({ Name := "TEST_VAR", Value := "testing" } : EnvVar)].map (fun e => e.Name)).Nodup ∧
      List.Perm
        [({ Name := "no_proxy", Value := ".example.com" } : EnvVar),
          { Name := "TEST_VAR", Value := "testing" },
          { Name := "HTTPS_PROXY", Value := "example.com:8443" },
          { Name := "HTTP_PROXY", Value := "example.com:8888" }]
        (EnvMerge [{ Name := "TEST_VAR", Value := "testing" }]
          [{ Name := "HTTP_PROXY", Value := "example.com:8888" },
            { Name := "HTTPS_PROXY", Value := "example.com:8443" },
            { Name := "no_proxy", Value := ".example.com" }] false) ∧
      List.Perm
        [({ Name := "no_proxy", Value := ".example.com" } : EnvVar),
          { Name := "TEST_VAR", Value := "testing" },
          { Name := "HTTPS_PROXY", Value := "example.com:8443" },
          { Name := "HTTP_PROXY", Value := "example.com:8888" }]
        ([({ Name := "TEST_VAR", Value := "testing" } : EnvVar)]
          ++ [({ Name := "HTTP_PROXY", Value := "example.com:8888" } : EnvVar),
            { Name := "HTTPS_PROXY", Value := "example.com:8443" },
            { Name := "no_proxy", Value := ".example.com" }].filter
              (fun m => decide (m.Name
                ∉ [({ Name := "TEST_VAR", Value := "testing" } : EnvVar)].map (fun e => e.Name)))) ∧
      [({ Name := "no_proxy", Value := ".example.com" } : EnvVar),
          { Name := "TEST_VAR", Value := "testing" },
          { Name := "HTTPS_PROXY", Value := "example.com:8443" },
          { Name := "HTTP_PROXY", Value := "example.com:8888" }].length
        = 1 + 3 :=
  ⟨by decide, by decide,
    EnvMerge_keeps_and_appends [{ Name := "TEST_VAR", Value := "testing" }]
      [{ Name := "HTTP_PROXY", Value := "example.com:8888" },
        { Name := "HTTPS_PROXY", Value := "example.com:8443" },
        { Name := "no_proxy", Value := ".example.com" }]
      [{ Name := "no_proxy", Value := ".example.com" },
        { Name := "TEST_VAR", Value := "testing" },
        { Name := "HTTPS_PROXY", Value := "example.com:8443" },
        { Name := "HTTP_PROXY", Value := "example.com:8888" }]
      (by decide) (by decide) (by decide)⟩

/-! ## The mappers -/

theorem mapGet_cons (p : String × String) (m : StrMap) (k : String) :
    mapGet (p :: m) k = if p.1 = k then some p.2 else mapGet m k := by
  unfold mapGet
  rw [List.find?_cons]
  by_cases h : p.1 = k
  · simp [h]
  · simp [h]

theorem mapGet_none_of_not_mem (m : StrMap) (k : String) (h : k ∉ m.map (fun p => p.1)) :
    mapGet m k = none := by
  induction m with
  | nil => rfl
  | cons p ps ih =>
    rw [List.map_cons, List.mem_cons, not_or] at h
    rw [mapGet_cons, if_neg (fun hp => h.1 hp.symm)]
    exact ih h.2

/-- The loop over the annotations, from any starting key: a field of the key is
the value of its annotation when the annotation is there, and is left as it
was when it is not. The keys of a Go map are pairwise distinct, and the two
annotation names are two names. -/
theorem annotatedOwner_fold (c : Common) (hc : c.AnnotationName ≠ c.AnnotationNamespace)
    (annotations : StrMap) :
    ∀ key : NamespacedName, (annotations.map (fun p => p.1)).Nodup →
      annotations.foldl
          (fun key p =>
            if p.1 = c.AnnotationName then { key with Name := p.2 }
            else if p.1 = c.AnnotationNamespace then { key with Namespace := p.2 }
            else key)
          key
        = { Name := (mapGet annotations c.AnnotationName).getD key.Name,
            Namespace := (mapGet annotations c.AnnotationNamespace).getD key.Namespace } := by
  induction annotations with
  | nil => intro key _; rfl
  | cons p ps ih =>
    intro key hnd
    rw [List.map_cons, List.nodup_cons] at hnd
    obtain ⟨hp, hnd2⟩ := hnd
    rw [List.foldl_cons, ih _ hnd2, mapGet_cons, mapGet_cons]
    by_cases h1 : p.1 = c.AnnotationName
    · have h2 : ¬ p.1 = c.AnnotationNamespace := fun h => hc (h1.symm.trans h)
      rw [if_pos h1, if_pos h1, if_neg h2, mapGet_none_of_not_mem ps c.AnnotationName (h1 ▸ hp)]
      rfl
    · rw [if_neg h1, if_neg h1]
      by_cases h2 : p.1 = c.AnnotationNamespace
      · rw [if_pos h2, if_pos h2,
          mapGet_none_of_not_mem ps c.AnnotationNamespace (h2 ▸ hp)]
        rfl
      · rw [if_neg h2, if_neg h2]

theorem annotatedOwner_eq (c : Common) (hc : c.AnnotationName ≠ c.AnnotationNamespace)
    (annotations : StrMap) (hnd : (annotations.map (fun p => p.1)).Nodup) :
    annotatedOwner c annotations
      = { Name := (mapGet annotations c.AnnotationName).getD "",
          Namespace := (mapGet annotations c.AnnotationNamespace).getD "" } :=
  annotatedOwner_fold c hc annotations {} hnd

/-- C17. Direct-annotation correlation. For every object (the keys of its
annotations pairwise distinct, as in a Go map; the owner-name and the
owner-namespace annotation are two names): `clusterResourceMapper` returns
exactly one request, whose name is the value of the owner-name annotation and
whose namespace is the value of the owner-namespace annotation, if and only if
both annotations are present with non-empty values; in every other case it
returns the empty list. -/
theorem clusterResourceMapper_annotations (c : Common) (o : Object)
    (hc : c.AnnotationName ≠ c.AnnotationNamespace)
    (hnd : (o.Annotations.map (fun p => p.1)).Nodup) :
    ((∃ r, clusterResourceMapper c o = [r]) ↔
        ∃ n ns, mapGet o.Annotations c.AnnotationName = some n ∧
          mapGet o.Annotations c.AnnotationNamespace = some ns ∧ n ≠ "" ∧ ns ≠ "") ∧
      (∀ n ns, mapGet o.Annotations c.AnnotationName = some n →
        mapGet o.Annotations c.AnnotationNamespace = some ns → n ≠ "" → ns ≠ "" →
        clusterResourceMapper c o = [{ NamespacedName := { Name := n, Namespace := ns } }]) ∧
      ((¬ ∃ n ns, mapGet o.Annotations c.AnnotationName = some n ∧
          mapGet o.Annotations c.AnnotationNamespace = some ns ∧ n ≠ "" ∧ ns ≠ "") →
        clusterResourceMapper c o = []) := by
  have hpos : ∀ n ns, mapGet o.Annotations c.AnnotationName = some n →
      mapGet o.Annotations c.AnnotationNamespace = some ns → n ≠ "" → ns ≠ "" →
      clusterResourceMapper c o = [{ NamespacedName := { Name := n, Namespace := ns } }] := by
    intro n ns h1 h2 h3 h4
    unfold clusterResourceMapper
    rw [annotatedOwner_eq c hc o.Annotations hnd, h1, h2]
    exact if_pos ⟨h3, h4⟩
  have hneg : (¬ ∃ n ns, mapGet o.Annotations c.AnnotationName = some n ∧
      mapGet o.Annotations c.AnnotationNamespace = some ns ∧ n ≠ "" ∧ ns ≠ "") →
      clusterResourceMapper c o = [] := by
    intro hno
    unfold clusterResourceMapper
    rw [annotatedOwner_eq c hc o.Annotations hnd]
    apply if_neg
    rintro ⟨h3, h4⟩
    apply hno
    cases h1 : mapGet o.Annotations c.AnnotationName with
    | none =>
      rw [h1] at h3
      exact absurd rfl h3
    | some n =>
      cases h2 : mapGet o.Annotations c.AnnotationNamespace with
      | none =>
        rw [h2] at h4
        exact absurd rfl h4
      | some ns =>
        rw [h1] at h3
        rw [h2] at h4
        exact ⟨n, ns, rfl, rfl, h3, h4⟩
  refine ⟨⟨?_, ?_⟩, hpos, hneg⟩
  · rintro ⟨r, hr⟩
    by_contra hno
    rw [hneg hno] at hr
    cases hr
  · rintro ⟨n, ns, h1, h2, h3, h4⟩
    exact ⟨_, hpos n ns h1 h2 h3 h4⟩

/-- C17 on an object annotated with the specification `argocd` of the namespace
`argocd-ns`, the namespace annotation first. -/
theorem clusterResourceMapper_annotations_witness :
    clusterResourceMapper demoCommon
        { Name := "argocd-argocd-ns-x",
          Annotations := [("argocds.argoproj.io/namespace", "argocd-ns"),
            ("other", "value"), ("argocds.argoproj.io/name", "argocd")] }
      = [{ NamespacedName := { Name := "argocd", Namespace := "argocd-ns" } }] :=
  (clusterResourceMapper_annotations demoCommon
    { Name := "argocd-argocd-ns-x",
      Annotations := [("argocds.argoproj.io/namespace", "argocd-ns"),
        ("other", "value"), ("argocds.argoproj.io/name", "argocd")] }
    (by decide) (by decide)).2.1 "argocd" "argocd-ns" (by rfl) (by rfl) (by decide) (by decide)

/-- C18. Namespace-membership correlation. For every namespace object that
carries the managed-by label with value `v`: `namespaceResourceMapper` returns
exactly one request if and only if the list of the specifications of the
namespace `v` succeeds with exactly one item, and the request names that item;
when the list fails, or returns no item or two or more, the result is empty.
Without the label the result is empty, and nothing is listed. -/
theorem namespaceResourceMapper_single_match (c : Common)
    (listArgoCD : String → Except Err (List ArgoCD)) (o : Object) :
    (∀ v, mapGet o.Labels c.ArgoCDManagedByLabel = some v →
        ((∃ r, (namespaceResourceMapper c listArgoCD o).1 = [r]) ↔
            ∃ argocd, listArgoCD v = .ok [argocd]) ∧
          (∀ argocd, listArgoCD v = .ok [argocd] →
            (namespaceResourceMapper c listArgoCD o).1
              = [{ NamespacedName :=
                    { Name := argocd.Name, Namespace := argocd.Namespace } }]) ∧
          (∀ items, listArgoCD v = .ok items → items.length ≠ 1 →
            (namespaceResourceMapper c listArgoCD o).1 = []) ∧
          (∀ err, listArgoCD v = .error err →
            (namespaceResourceMapper c listArgoCD o).1 = [])) ∧
      (mapGet o.Labels c.ArgoCDManagedByLabel = none →
        namespaceResourceMapper c listArgoCD o = ([], [])) := by
  constructor
  · intro v hv
    have hone : ∀ argocd, listArgoCD v = .ok [argocd] →
        (namespaceResourceMapper c listArgoCD o).1
          = [{ NamespacedName := { Name := argocd.Name, Namespace := argocd.Namespace } }] := by
      intro argocd hl
      unfold namespaceResourceMapper
      rw [hv]
      simp only [hl]
    have hmany : ∀ items, listArgoCD v = .ok items → items.length ≠ 1 →
        (namespaceResourceMapper c listArgoCD o).1 = [] := by
      intro items hl hlen
      unfold namespaceResourceMapper
      rw [hv]
      simp only [hl]
      match items, hlen with
      | [], _ => rfl
      | [_], h => exact absurd rfl h
      | _ :: _ :: _, _ => rfl
    have herr : ∀ err, listArgoCD v = .error err →
        (namespaceResourceMapper c listArgoCD o).1 = [] := by
      intro err hl
      unfold namespaceResourceMapper
      rw [hv]
      simp only [hl]
    refine ⟨⟨?_, ?_⟩, hone, hmany, herr⟩
    · rintro ⟨r, hr⟩
      cases hl : listArgoCD v with
      | error err =>
        rw [herr err hl] at hr
        cases hr
      | ok items =>
        by_cases hlen : items.length = 1
        · obtain ⟨a, ha⟩ := List.length_eq_one.mp hlen
          exact ⟨a, by rw [ha]⟩
        · rw [hmany items hl hlen] at hr
          cases hr
    · rintro ⟨argocd, hl⟩
      exact ⟨_, hone argocd hl⟩
  · intro hnone
    unfold namespaceResourceMapper
    rw [hnone]

/-- C18 on a namespace managed by the namespace `argocd`, which holds the one
specification `argocd`. -/
theorem namespaceResourceMapper_single_match_witness :
    (namespaceResourceMapper demoCommon
        (fun ns => if ns = "argocd" then .ok [demoCR] else .ok [])
        { Name := "team-a", Kind := "Namespace",
          Labels := [("argocd.argoproj.io/managed-by", "argocd")] }).1
      = [{ NamespacedName := { Name := "argocd", Namespace := "argocd" } }] :=
  ((namespaceResourceMapper_single_match demoCommon
      (fun ns => if ns = "argocd" then .ok [demoCR] else .ok [])
      { Name := "team-a", Kind := "Namespace",
        Labels := [("argocd.argoproj.io/managed-by", "argocd")] }).1
    "argocd" (by rfl)).2.1 demoCR (by rfl)

/-! ## The secret mapper: the hop through the owning service -/

theorem tlsSecretMapper_owned (c : Common) (getService : NamespacedName → Except Err Service)
    (o : Object) (hname : HasSuffix o.Name "-repo-server-tls" = true)
    (hrefs : o.OwnerReferences ≠ []) :
    tlsSecretMapper c getService o = tlsSecretOwners getService o o.OwnerReferences := by
  unfold tlsSecretMapper
  have hlen : o.OwnerReferences.length > 0 := List.length_pos.mpr hrefs
  rw [hname, if_pos hlen]
  rfl

theorem tlsSecretMapper_unowned (c : Common) (getService : NamespacedName → Except Err Service)
    (o : Object) (hname : HasSuffix o.Name "-repo-server-tls" = true)
    (hrefs : o.OwnerReferences = []) (hkind : o.Kind = "Secret") :
    tlsSecretMapper c getService o
      = match mapGet o.Annotations c.AnnotationName with
        | some owner =>
          ([{ NamespacedName := { Name := owner, Namespace := o.Namespace } }], [])
        | none => ([], []) := by
  unfold tlsSecretMapper
  rw [hname, hrefs, hkind]
  rfl

/-- An owner of the secret that is not a service named `*-repo-server` is passed
over. -/
theorem tlsSecretOwners_skip (getService : NamespacedName → Except Err Service) (o : Object)
    (r : OwnerReference) (rest : List OwnerReference)
    (hr : ¬ (r.Kind = "Service" ∧ HasSuffix r.Name "-repo-server" = true)) :
    tlsSecretOwners getService o (r :: rest) = tlsSecretOwners getService o rest := by
  rw [tlsSecretOwners, if_neg hr]

/-- A service without an owner of kind ArgoCD is fetched, and the loop goes on. -/
theorem tlsSecretOwners_barren (getService : NamespacedName → Except Err Service) (o : Object)
    (r : OwnerReference) (rest : List OwnerReference) (svc : Service)
    (hk : r.Kind = "Service") (hs : HasSuffix r.Name "-repo-server" = true)
    (hget : getService { Name := r.Name, Namespace := o.Namespace } = .ok svc)
    (hnone : ∀ x ∈ svc.OwnerReferences, x.Kind ≠ "ArgoCD") :
    (tlsSecretOwners getService o (r :: rest)).1 = (tlsSecretOwners getService o rest).1 := by
  have hfind : svc.OwnerReferences.find? (fun serviceOwner => serviceOwner.Kind = "ArgoCD")
      = none := by
    rw [List.find?_eq_none]
    intro x hx
    simpa using hnone x hx
  rw [tlsSecretOwners, if_pos ⟨hk, hs⟩]
  simp only [hget, hfind]

/-- A service with an owner of kind ArgoCD ends the loop: the request names the
first such owner, in the namespace of the service. -/
theorem tlsSecretOwners_hit (getService : NamespacedName → Except Err Service) (o : Object)
    (r : OwnerReference) (rest : List OwnerReference) (svc : Service) (a : OwnerReference)
    (hk : r.Kind = "Service") (hs : HasSuffix r.Name "-repo-server" = true)
    (hget : getService { Name := r.Name, Namespace := o.Namespace } = .ok svc)
    (hfind : svc.OwnerReferences.find? (fun serviceOwner => serviceOwner.Kind = "ArgoCD")
      = some a) :
    (tlsSecretOwners getService o (r :: rest)).1
      = [{ NamespacedName := { Name := a.Name, Namespace := svc.Namespace } }] := by
  rw [tlsSecretOwners, if_pos ⟨hk, hs⟩]
  simp only [hget, hfind]

theorem find_first_of_split (l pre post : List OwnerReference) (a : OwnerReference)
    (hsplit : l = pre ++ a :: post) (ha : a.Kind = "ArgoCD")
    (hpre : ∀ x ∈ pre, x.Kind ≠ "ArgoCD") :
    l.find? (fun serviceOwner => serviceOwner.Kind = "ArgoCD") = some a := by
  subst hsplit
  induction pre with
  | nil =>
    rw [List.nil_append, List.find?_cons]
    simp [ha]
  | cons x xs ih =>
    have hx : x.Kind ≠ "ArgoCD" := hpre x (List.mem_cons_self _ _)
    rw [List.cons_append, List.find?_cons]
    simp only [hx, decide_False]
    exact ih (fun y hy => hpre y (List.mem_cons_of_mem _ hy))

/-- The loop over the owners of the secret, when the first service named
`*-repo-server` that has an owner of kind ArgoCD comes after owners that are
passed over or whose service has no such owner. -/
theorem tlsSecretOwners_first (getService : NamespacedName → Except Err Service) (o : Object)
    (r : OwnerReference) (post : List OwnerReference) (svc : Service) (a : OwnerReference)
    (hk : r.Kind = "Service") (hs : HasSuffix r.Name "-repo-server" = true)
    (hget : getService { Name := r.Name, Namespace := o.Namespace } = .ok svc)
    (hfind : svc.OwnerReferences.find? (fun serviceOwner => serviceOwner.Kind = "ArgoCD")
      = some a) :
    ∀ pre : List OwnerReference,
      (∀ r2 ∈ pre, r2.Kind = "Service" → HasSuffix r2.Name "-repo-server" = true →
        ∃ svc2, getService { Name := r2.Name, Namespace := o.Namespace } = .ok svc2 ∧
          ∀ x ∈ svc2.OwnerReferences, x.Kind ≠ "ArgoCD") →
      (tlsSecretOwners getService o (pre ++ r :: post)).1
        = [{ NamespacedName := { Name := a.Name, Namespace := svc.Namespace } }] := by
  intro pre
  induction pre with
  | nil =>
    intro _
    exact tlsSecretOwners_hit getService o r post svc a hk hs hget hfind
  | cons r2 rs ih =>
    intro hpre
    have hrest := ih (fun y hy => hpre y (List.mem_cons_of_mem _ hy))
    rw [List.cons_append]
    by_cases hc : r2.Kind = "Service" ∧ HasSuffix r2.Name "-repo-server" = true
    · obtain ⟨svc2, hget2, hnone2⟩ := hpre r2 (List.mem_cons_self _ _) hc.1 hc.2
      rw [tlsSecretOwners_barren getService o r2 _ svc2 hc.1 hc.2 hget2 hnone2]
      exact hrest
    · rw [tlsSecretOwners_skip getService o r2 _ hc]
      exact hrest

/-- The loop over the owners of the secret, when no service named
`*-repo-server` among them has an owner of kind ArgoCD. -/
theorem tlsSecretOwners_none (getService : NamespacedName → Except Err Service) (o : Object) :
    ∀ refs : List OwnerReference,
      (∀ r ∈ refs, r.Kind = "Service" → HasSuffix r.Name "-repo-server" = true →
        ∃ svc, getService { Name := r.Name, Namespace := o.Namespace } = .ok svc ∧
          ∀ x ∈ svc.OwnerReferences, x.Kind ≠ "ArgoCD") →
      (tlsSecretOwners getService o refs).1 = [] := by
  intro refs
  induction refs with
  | nil => intro _; rfl
  | cons r rs ih =>
    intro h
    have hrest := ih (fun y hy => h y (List.mem_cons_of_mem _ hy))
    by_cases hc : r.Kind = "Service" ∧ HasSuffix r.Name "-repo-server" = true
    · obtain ⟨svc, hget, hnone⟩ := h r (List.mem_cons_self _ _) hc.1 hc.2
      rw [tlsSecretOwners_barren getService o r _ svc hc.1 hc.2 hget hnone]
      exact hrest
    · rw [tlsSecretOwners_skip getService o r _ hc]
      exact hrest

/-- The loop over the owners of the secret returns a request as soon as some
service named `*-repo-server` among them has an owner of kind ArgoCD, when
every such service can be fetched. -/
theorem tlsSecretOwners_some (getService : NamespacedName → Except Err Service) (o : Object) :
    ∀ refs : List OwnerReference,
      (∀ r ∈ refs, r.Kind = "Service" → HasSuffix r.Name "-repo-server" = true →
        ∃ svc, getService { Name := r.Name, Namespace := o.Namespace } = .ok svc) →
      (∃ r ∈ refs, r.Kind = "Service" ∧ HasSuffix r.Name "-repo-server" = true ∧
        ∃ svc, getService { Name := r.Name, Namespace := o.Namespace } = .ok svc ∧
          ∃ a ∈ svc.OwnerReferences, a.Kind = "ArgoCD") →
      ∃ req, (tlsSecretOwners getService o refs).1 = [req] := by
  intro refs
  induction refs with
  | nil =>
    rintro _ ⟨r, hr, -⟩
    cases hr
  | cons r0 rs ih =>
    intro hget hex
    have hrest := ih (fun y hy => hget y (List.mem_cons_of_mem _ hy))
    by_cases hc : r0.Kind = "Service" ∧ HasSuffix r0.Name "-repo-server" = true
    · obtain ⟨svc0, hget0⟩ := hget r0 (List.mem_cons_self _ _) hc.1 hc.2
      cases hfind : svc0.OwnerReferences.find? (fun serviceOwner => serviceOwner.Kind = "ArgoCD")
        with
      | some a =>
        exact ⟨_, tlsSecretOwners_hit getService o r0 rs svc0 a hc.1 hc.2 hget0 hfind⟩
      | none =>
        have hnone : ∀ x ∈ svc0.OwnerReferences, x.Kind ≠ "ArgoCD" := by
          intro x hx
          have := List.find?_eq_none.mp hfind x hx
          simpa using this
        rw [tlsSecretOwners_barren getService o r0 rs svc0 hc.1 hc.2 hget0 hnone]
        apply hrest
        obtain ⟨r, hr, hk, hs, svc, hg, a, ha, hak⟩ := hex
        rcases List.mem_cons.mp hr with h | h
        · subst h
          rw [hget0] at hg
          cases hg
          exact absurd hak (hnone a ha)
        · exact ⟨r, h, hk, hs, svc, hg, a, ha, hak⟩
    · rw [tlsSecretOwners_skip getService o r0 rs hc]
      apply hrest
      obtain ⟨r, hr, hk, hs, rest⟩ := hex
      rcases List.mem_cons.mp hr with h | h
      · subst h
        exact absurd ⟨hk, hs⟩ hc
      · exact ⟨r, h, hk, hs, rest⟩

/-! ## Claims about the mappers of secrets -/

/-- C19. The hop through the owning service. For every secret whose name ends
with `-repo-server-tls` and that has at least one owner reference, when every
lookup of a referenced service named `*-repo-server` in the namespace of the
secret succeeds: if some such service has an owner of kind ArgoCD,
`tlsSecretMapper` returns exactly one request; that request names the first
owner of kind ArgoCD of the first such service, in the namespace of that
service; and if no such service has an owner of kind ArgoCD, the result is the
empty list. -/
theorem tlsSecretMapper_owner_hop (c : Common)
    (getService : NamespacedName → Except Err Service) (o : Object)
    (hname : HasSuffix o.Name "-repo-server-tls" = true)
    (hrefs : o.OwnerReferences ≠ [])
    (hget : ∀ r ∈ o.OwnerReferences, r.Kind = "Service" →
      HasSuffix r.Name "-repo-server" = true →
      ∃ svc, getService { Name := r.Name, Namespace := o.Namespace } = .ok svc) :
    ((∃ r ∈ o.OwnerReferences, r.Kind = "Service" ∧ HasSuffix r.Name "-repo-server" = true ∧
        ∃ svc, getService { Name := r.Name, Namespace := o.Namespace } = .ok svc ∧
          ∃ a ∈ svc.OwnerReferences, a.Kind = "ArgoCD") →
      ∃ req, (tlsSecretMapper c getService o).1 = [req]) ∧
      (∀ pre r post svc pre2 a post2,
        o.OwnerReferences = pre ++ r :: post →
        r.Kind = "Service" → HasSuffix r.Name "-repo-server" = true →
        getService { Name := r.Name, Namespace := o.Namespace } = .ok svc →
        svc.OwnerReferences = pre2 ++ a :: post2 →
        a.Kind = "ArgoCD" → (∀ x ∈ pre2, x.Kind ≠ "ArgoCD") →
        (∀ r2 ∈ pre, r2.Kind = "Service" → HasSuffix r2.Name "-repo-server" = true →
          ∀ svc2, getService { Name := r2.Name, Namespace := o.Namespace } = .ok svc2 →
            ∀ x ∈ svc2.OwnerReferences, x.Kind ≠ "ArgoCD") →
        (tlsSecretMapper c getService o).1
          = [{ NamespacedName := { Name := a.Name, Namespace := svc.Namespace } }]) ∧
      ((∀ r ∈ o.OwnerReferences, r.Kind = "Service" →
          HasSuffix r.Name "-repo-server" = true →
          ∀ svc, getService { Name := r.Name, Namespace := o.Namespace } = .ok svc →
            ∀ x ∈ svc.OwnerReferences, x.Kind ≠ "ArgoCD") →
        (tlsSecretMapper c getService o).1 = []) := by
  rw [tlsSecretMapper_owned c getService o hname hrefs]
  refine ⟨?_, ?_, ?_⟩
  · exact tlsSecretOwners_some getService o o.OwnerReferences hget
  · intro pre r post svc pre2 a post2 hsplit hk hs hg hsvc ha hpre2 hpre
    rw [hsplit]
    apply tlsSecretOwners_first getService o r post svc a hk hs hg
      (find_first_of_split svc.OwnerReferences pre2 post2 a hsvc ha hpre2) pre
    intro r2 hr2 hk2 hs2
    have hmem : r2 ∈ o.OwnerReferences := by
      rw [hsplit]
      exact List.mem_append_left _ hr2
    obtain ⟨svc2, hg2⟩ := hget r2 hmem hk2 hs2
    exact ⟨svc2, hg2, hpre r2 hr2 hk2 hs2 svc2 hg2⟩
  · intro hnone
    apply tlsSecretOwners_none getService o o.OwnerReferences
    intro r hr hk hs
    obtain ⟨svc, hg⟩ := hget r hr hk hs
    exact ⟨svc, hg, hnone r hr hk hs svc hg⟩

/-- C19 on the TLS secret of the repo server: its second owner is the service
of the repo server, whose second owner is the specification `argocd`. -/
theorem tlsSecretMapper_owner_hop_witness :
    (tlsSecretMapper demoCommon demoServices demoTLSSecret).1
      = [{ NamespacedName := { Name := "argocd", Namespace := "argocd" } }] :=
  (tlsSecretMapper_owner_hop demoCommon demoServices demoTLSSecret (by decide) (by decide)
    (by
      intro r hr hk _
      simp only [demoTLSSecret, List.mem_cons, List.mem_singleton, List.not_mem_nil,
        or_false] at hr
      rcases hr with h | h
      · subst h
        exact absurd hk (by decide)
      · subst h
        exact ⟨_, rfl⟩)).2.1
    [demoOwner "CertificateRequest" "argocd-repo-server-tls"]
    (demoOwner "Service" "argocd-repo-server") []
    { Name := "argocd-repo-server", Namespace := "argocd",
      OwnerReferences := [demoOwner "Deployment" "argocd-repo-server",
        demoOwner "ArgoCD" "argocd"] }
    [demoOwner "Deployment" "argocd-repo-server"] (demoOwner "ArgoCD" "argocd") []
    (by rfl) (by rfl) (by decide) (by rfl) (by rfl) (by rfl) (by decide)
    (by
      intro r2 hr2 hk2
      rw [List.mem_singleton] at hr2
      subst hr2
      exact absurd hk2 (by decide))

/-- C20, as stated, fails: the fallback for a secret made by hand does not ask
for a non-empty value. The secret `argocd-repo-server-tls` of the namespace
`ns` has no owner reference and carries the owner-name annotation with the
empty value; `tlsSecretMapper` returns a request with the empty name in the
namespace `ns`, not the empty list. -/
theorem tlsSecretMapper_empty_annotation :
    HasSuffix demoManualSecret.Name "-repo-server-tls" = true ∧
      demoManualSecret.Kind = "Secret" ∧
      demoManualSecret.OwnerReferences = [] ∧
      mapGet demoManualSecret.Annotations demoCommon.AnnotationName = some "" ∧
      (tlsSecretMapper demoCommon demoServices demoManualSecret).1
        = [{ NamespacedName := { Name := "", Namespace := "ns" } }] := by
  refine ⟨by decide, by rfl, by rfl, by rfl, by rfl⟩

/-- C20, amended. For every secret whose name ends with `-repo-server-tls` and
that has no owner reference, `tlsSecretMapper` returns a target if and only if
the owner-name annotation is present, whatever its value (the empty value
included); the target is the value of that annotation with the namespace of the
secret itself, so the owner-namespace annotation plays no part; when the
annotation is absent the result is the empty list. Nothing is read from the
store. -/
theorem tlsSecretMapper_manual (c : Common) (getService : NamespacedName → Except Err Service)
    (o : Object) (hname : HasSuffix o.Name "-repo-server-tls" = true)
    (hrefs : o.OwnerReferences = []) (hkind : o.Kind = "Secret") :
    ((∃ r, (tlsSecretMapper c getService o).1 = [r]) ↔
        ∃ owner, mapGet o.Annotations c.AnnotationName = some owner) ∧
      (∀ owner, mapGet o.Annotations c.AnnotationName = some owner →
        tlsSecretMapper c getService o
          = ([{ NamespacedName := { Name := owner, Namespace := o.Namespace } }], [])) ∧
      (mapGet o.Annotations c.AnnotationName = none →
        tlsSecretMapper c getService o = ([], [])) := by
  rw [tlsSecretMapper_unowned c getService o hname hrefs hkind]
  refine ⟨⟨?_, ?_⟩, ?_, ?_⟩
  · rintro ⟨r, hr⟩
    cases h : mapGet o.Annotations c.AnnotationName with
    | none =>
      rw [h] at hr
      cases hr
    | some owner => exact ⟨owner, rfl⟩
  · rintro ⟨owner, h⟩
    rw [h]
    exact ⟨_, rfl⟩
  · intro owner h
    rw [h]
  · intro h
    rw [h]

/-- C20 on a secret made by hand in the namespace `ns`, annotated with the
specification `argocd` and with another namespace: the target is `argocd` in
`ns`. -/
theorem tlsSecretMapper_manual_witness :
    tlsSecretMapper demoCommon demoServices
        { demoManualSecret with
          Annotations := [("argocds.argoproj.io/namespace", "elsewhere"),
            ("argocds.argoproj.io/name", "argocd")] }
      = ([{ NamespacedName := { Name := "argocd", Namespace := "ns" } }], []) :=
  (tlsSecretMapper_manual demoCommon demoServices
    { demoManualSecret with
      Annotations := [("argocds.argoproj.io/namespace", "elsewhere"),
        ("argocds.argoproj.io/name", "argocd")] }
    (by decide) (by rfl) (by rfl)).2.1 "argocd" (by rfl)

/-! ## Reading the map of environment entries -/

theorem envGet_cons (p : String × EnvVar) (m : EnvMap) (k : String) :
    envGet (p :: m) k = if p.1 = k then some p.2 else envGet m k := by
  unfold envGet
  rw [List.find?_cons]
  by_cases h : p.1 = k
  · simp [h]
  · simp [h]

theorem envGet_envSet (m : EnvMap) (k : String) (v : EnvVar) (x : String) :
    envGet (envSet m k v) x = if k = x then some v else envGet m x := by
  induction m with
  | nil =>
    rw [envSet, envGet_cons]
  | cons p ps ih =>
    by_cases hp : p.1 = k
    · rw [envSet, if_pos hp, envGet_cons, envGet_cons]
      show (if k = x then some v else envGet ps x) = _
      by_cases hx : k = x
      · rw [if_pos hx, if_pos hx]
      · rw [if_neg hx, if_neg hx, if_neg (fun h => hx (hp.symm.trans h))]
    · rw [envSet, if_neg hp, envGet_cons, envGet_cons, ih]
      by_cases hx : k = x
      · rw [if_pos hx, if_pos hx, if_neg (fun h => hp (h.trans hx.symm))]
      · rw [if_neg hx, if_neg hx]

theorem envHas_eq_isSome (m : EnvMap) (k : String) : envHas m k = (envGet m k).isSome := by
  induction m with
  | nil => rfl
  | cons p ps ih =>
    rw [envGet_cons]
    unfold envHas at ih ⊢
    rw [List.any_cons, ih]
    by_cases hp : p.1 = k
    · simp [hp]
    · simp [hp]

/-- In a well-formed map, the entries are what the reads return. -/
theorem envWF_mem_iff {m : EnvMap} (hwf : envWF m) (k : String) (v : EnvVar) :
    (k, v) ∈ m ↔ envGet m k = some v := by
  induction m with
  | nil =>
    constructor
    · intro h
      cases h
    · intro h
      cases h
  | cons p ps ih =>
    have hnd : (envKeys ps).Nodup := (List.nodup_cons.mp hwf.1).2
    have hp : p.1 ∉ envKeys ps := (List.nodup_cons.mp hwf.1).1
    have hwf2 : envWF ps := ⟨hnd, fun q hq => hwf.2 q (List.mem_cons_of_mem _ hq)⟩
    rw [envGet_cons, List.mem_cons]
    by_cases hpk : p.1 = k
    · rw [if_pos hpk]
      constructor
      · rintro (h | h)
        · rw [← h]
        · exfalso
          apply hp
          rw [hpk]
          exact List.mem_map_of_mem (fun q => q.1) h
      · intro h
        left
        have h2 : p.2 = v := Option.some.inj h
        rw [← hpk, ← h2]
    · rw [if_neg hpk]
      constructor
      · rintro (h | h)
        · exfalso
          apply hpk
          rw [← h]
        · exact (ih hwf2).mp h
      · intro h
        exact Or.inr ((ih hwf2).mpr h)

/-- The first loop of `EnvMerge`: a read of the map returns the last entry of
`existing` under the name, or what the map held when there is none. -/
theorem envGet_envLoadExisting (existing : List EnvVar) (x : String) :
    ∀ acc : EnvMap, envGet (envLoadExisting existing acc) x
      = (existing.reverse.find? (fun e => e.Name = x)).or (envGet acc x) := by
  induction existing with
  | nil =>
    intro acc
    rfl
  | cons e es ih =>
    intro acc
    rw [envLoadExisting_cons, ih, envGet_envSet, List.reverse_cons, List.find?_append]
    cases hfind : es.reverse.find? (fun e => e.Name = x) with
    | some e2 => rfl
    | none =>
      by_cases hx : e.Name = x
      · simp [hx]
      · simp [hx]

/-- With override on, the second loop of `EnvMerge` writes every entry of
`merge`, as the first loop does with `existing`. -/
theorem envLoadMerge_true (merge : List EnvVar) :
    ∀ acc : EnvMap, envLoadMerge true merge acc = envLoadExisting merge acc := by
  induction merge with
  | nil =>
    intro acc
    rfl
  | cons m ms ih =>
    intro acc
    rw [envLoadMerge_cons, envLoadExisting_cons, ← ih]
    congr 1
    split
    · rfl
    · rfl

/-- Without override, a read of the map after the second loop of `EnvMerge`
returns what the map held, or the first entry of `merge` under the name when it
held none. -/
theorem envGet_envLoadMerge_false (merge : List EnvVar) (x : String) :
    ∀ acc : EnvMap, envGet (envLoadMerge false merge acc) x
      = (envGet acc x).or (merge.find? (fun e => e.Name = x)) := by
  induction merge with
  | nil =>
    intro acc
    show envGet acc x = _
    cases envGet acc x <;> rfl
  | cons m ms ih =>
    intro acc
    rw [envLoadMerge_cons, ih, List.find?_cons]
    by_cases hhas : envHas acc m.Name = true
    · rw [if_pos hhas]
      simp only [Bool.false_eq_true, if_false]
      cases hget : envGet acc x with
      | some e => rfl
      | none =>
        have hne : ¬ m.Name = x := by
          intro hmx
          rw [envHas_eq_isSome, hmx, hget] at hhas
          cases hhas
        simp [hne]
    · rw [if_neg hhas, envGet_envSet]
      have hnone : envGet acc m.Name = none := by
        rw [envHas_eq_isSome] at hhas
        cases h : envGet acc m.Name with
        | none => rfl
        | some e =>
          rw [h] at hhas
          exact absurd rfl hhas
      by_cases hx : m.Name = x
      · rw [if_pos hx, ← hx, hnone]
        simp
      · rw [if_neg hx]
        simp [hx]

/-- The entries of the result of `EnvMerge` are what the reads of the map
return after both loops. -/
theorem EnvMerge_mem_iff_get (existing merge : List EnvVar) (override : Bool) (e : EnvVar) :
    e ∈ EnvMerge existing merge override
      ↔ envGet (envMergeFinal existing merge override) e.Name = some e := by
  rw [EnvMerge_mem_iff, envWF_mem_iff (envMergeFinal_wf existing merge override)]

/-- The names of the result of `EnvMerge` are those of both lists. -/
theorem EnvMerge_names_iff (existing merge : List EnvVar) (override : Bool) (n : String) :
    n ∈ (EnvMerge existing merge override).map (fun e => e.Name)
      ↔ n ∈ existing.map (fun e => e.Name) ∨ n ∈ merge.map (fun e => e.Name) := by
  unfold EnvMerge
  rw [envWF_values_names (envMergeFinal_wf existing merge override), envMergeFinal_eq,
    envLoadMerge_keys, envKeys_envLoadExisting_nil]

/-! ## Claims about the names in the result of `EnvMerge` -/

/-- C23, as stated, fails on its last part. The name `B` occurs twice in
`merge` and not in `existing`; without override the result of `EnvMerge` holds
the first occurrence `B=1`, and the last occurrence `B=2` is not in it. -/
theorem EnvMerge_first_occurrence_stays :
    EnvMerge [] [{ Name := "B", Value := "1" }, { Name := "B", Value := "2" }] false
        = [{ Name := "B", Value := "1" }] ∧
      ({ Name := "B", Value := "2" } : EnvVar)
        ∉ EnvMerge [] [{ Name := "B", Value := "1" }, { Name := "B", Value := "2" }] false := by
  refine ⟨by rfl, by decide⟩

/-- C23, amended. For every `existing`, `merge` and override value, and every
rearrangement `ret` of the result of `EnvMerge`: no two entries of `ret` have
the same name; the names of `ret` are exactly the names of `existing` and the
names of `merge`; and an entry is in `ret` exactly when it wins its name. With
override on, the winner is the last entry of `merge` under the name, or the
last entry of `existing` under it when `merge` has none. With override off, the
winner is the last entry of `existing` under the name, or the first entry of
`merge` under it when `existing` has none. -/
theorem EnvMerge_names_and_winners (existing merge ret : List EnvVar) (override : Bool)
    (hret : ret.Perm (EnvMerge existing merge override)) :
    (ret.map (fun e => e.Name)).Nodup ∧
      (∀ n, n ∈ ret.map (fun e => e.Name)
        ↔ n ∈ existing.map (fun e => e.Name) ∨ n ∈ merge.map (fun e => e.Name)) ∧
      (override = true → ∀ e, e ∈ ret ↔
        (merge.reverse.find? (fun m => m.Name = e.Name)).or
          (existing.reverse.find? (fun x => x.Name = e.Name)) = some e) ∧
      (override = false → ∀ e, e ∈ ret ↔
        (existing.reverse.find? (fun x => x.Name = e.Name)).or
          (merge.find? (fun m => m.Name = e.Name)) = some e) := by
  refine ⟨?_, ?_, ?_, ?_⟩
  · exact ((hret.map (fun e => e.Name)).nodup_iff).mpr
      (EnvMerge_names_nodup existing merge override)
  · intro n
    rw [(hret.map (fun e => e.Name)).mem_iff]
    exact EnvMerge_names_iff existing merge override n
  · intro ho e
    subst ho
    rw [hret.mem_iff, EnvMerge_mem_iff_get, envMergeFinal_eq, envLoadMerge_true,
      envGet_envLoadExisting, envGet_envLoadExisting]
    have hnil : envGet [] e.Name = none := rfl
    rw [hnil, Option.or_none]
  · intro ho e
    subst ho
    rw [hret.mem_iff, EnvMerge_mem_iff_get, envMergeFinal_eq, envGet_envLoadMerge_false,
      envGet_envLoadExisting]
    have hnil : envGet [] e.Name = none := rfl
    rw [hnil, Option.or_none]

/-- C23 on two existing entries named `A` and three entries to merge, two of
them named `B` and one named `A`: without override the result holds `A=2`, the
last existing entry, and `B=1`, the first merged one. -/
theorem EnvMerge_names_and_winners_witness :
    List.Perm [({ Name := "B", Value := "1" } : EnvVar), { Name := "A", Value := "2" }]
        (EnvMerge [{ Name := "A", Value := "1" }, { Name := "A", Value := "2" }]
          [{ Name := "B", Value := "1" }, { Name := "B", Value := "2" },
            { Name := "A", Value := "3" }] false) ∧
      ([({ Name := "B", Value := "1" } : EnvVar), { Name := "A", Value := "2" }].map
        (fun e => e.Name)).Nodup ∧
      (({ Name := "B", Value := "1" } : EnvVar)
          ∈ [({ Name := "B", Value := "1" } : EnvVar), { Name := "A", Value := "2" }] ↔
        ([({ Name := "A", Value := "1" } : EnvVar), { Name := "A", Value := "2" }].reverse.find?
            (fun x => x.Name = ({ Name := "B", Value := "1" } : EnvVar).Name)).or
          ([({ Name := "B", Value := "1" } : EnvVar), { Name := "B", Value := "2" },
            { Name := "A", Value := "3" }].find?
              (fun m => m.Name = ({ Name := "B", Value := "1" } : EnvVar).Name))
          = some { Name := "B", Value := "1" }) :=
  ⟨by decide,
    (EnvMerge_names_and_winners [{ Name := "A", Value := "1" }, { Name := "A", Value := "2" }]
      [{ Name := "B", Value := "1" }, { Name := "B", Value := "2" },
        { Name := "A", Value := "3" }]
      [{ Name := "B", Value := "1" }, { Name := "A", Value := "2" }] false (by decide)).1,
    (EnvMerge_names_and_winners [{ Name := "A", Value := "1" }, { Name := "A", Value := "2" }]
      [{ Name := "B", Value := "1" }, { Name := "B", Value := "2" },
        { Name := "A", Value := "3" }]
      [{ Name := "B", Value := "1" }, { Name := "A", Value := "2" }] false
      (by decide)).2.2.2 rfl { Name := "B", Value := "1" }⟩

/-! ## Claims about the arguments of `reconcileClusterRoleBinding` -/

/-- C24. `reconcileClusterRoleBinding` does not depend on the service account
argument, nor on the rule object beyond whether it is nil. From the same store,
for the same specification and role identifier, two runs with different service
accounts and different non-nil rule objects return the same result and leave the
same world: the same calls on the store, with the same objects, and the same
stored bindings. The same holds for two runs with a nil rule object. -/
theorem reconcileClusterRoleBinding_ignores_sa_and_role (cfg : ClusterConfig) (name : String)
    (cr : ArgoCD) (w : World) (role1 role2 : ClusterRole) (sa1 sa2 : ServiceAccount) :
    reconcileClusterRoleBinding cfg name (some role1) sa1 cr w
        = reconcileClusterRoleBinding cfg name (some role2) sa2 cr w ∧
      issued w (reconcileClusterRoleBinding cfg name (some role1) sa1 cr w).2
        = issued w (reconcileClusterRoleBinding cfg name (some role2) sa2 cr w).2 ∧
      (reconcileClusterRoleBinding cfg name (some role1) sa1 cr w).2.bindings
        = (reconcileClusterRoleBinding cfg name (some role2) sa2 cr w).2.bindings ∧
      reconcileClusterRoleBinding cfg name none sa1 cr w
        = reconcileClusterRoleBinding cfg name none sa2 cr w := by
  have h : reconcileClusterRoleBinding cfg name (some role1) sa1 cr w
      = reconcileClusterRoleBinding cfg name (some role2) sa2 cr w := rfl
  exact ⟨h, by rw [h], by rw [h], rfl⟩

/-! ## The secret mapper: failed lookups and owners that lead nowhere -/

/-- When a lookup that the loop over the owners issued has failed, the loop
returned no request. -/
theorem tlsSecretOwners_failed (getService : NamespacedName → Except Err Service) (o : Object)
    (key : NamespacedName) (err : Err) (hfail : getService key = .error err) :
    ∀ refs : List OwnerReference,
      Read.getService key ∈ (tlsSecretOwners getService o refs).2 →
      (tlsSecretOwners getService o refs).1 = [] := by
  intro refs
  induction refs with
  | nil =>
    intro _
    rfl
  | cons r rs ih =>
    intro hmem
    by_cases hc : r.Kind = "Service" ∧ HasSuffix r.Name "-repo-server" = true
    · rw [tlsSecretOwners, if_pos hc] at hmem ⊢
      cases hg : getService { Name := r.Name, Namespace := o.Namespace } with
      | error e => simp only [hg]
      | ok svc =>
        have hne : key ≠ { Name := r.Name, Namespace := o.Namespace } := by
          intro hk
          rw [hk, hg] at hfail
          cases hfail
        cases hfind : svc.OwnerReferences.find?
            (fun serviceOwner => serviceOwner.Kind = "ArgoCD") with
        | some a =>
          simp only [hg, hfind, List.mem_singleton, Read.getService.injEq] at hmem
          exact absurd hmem hne
        | none =>
          simp only [hg, hfind, List.mem_cons, Read.getService.injEq] at hmem ⊢
          rcases hmem with h | h
          · exact absurd h hne
          · exact ih h
    · rw [tlsSecretOwners_skip getService o r rs hc] at hmem ⊢
      exact ih hmem

/-- The owners passed over and the services without an owner of kind ArgoCD
are followed, in the loop over the owners, by what the loop does on the rest;
the lookups of those services come first among the reads. -/
theorem tlsSecretOwners_prefix (getService : NamespacedName → Except Err Service) (o : Object)
    (rest : List OwnerReference) :
    ∀ pre : List OwnerReference,
      (∀ r2 ∈ pre, r2.Kind = "Service" → HasSuffix r2.Name "-repo-server" = true →
        ∃ svc2, getService { Name := r2.Name, Namespace := o.Namespace } = .ok svc2 ∧
          ∀ x ∈ svc2.OwnerReferences, x.Kind ≠ "ArgoCD") →
      tlsSecretOwners getService o (pre ++ rest)
        = ((tlsSecretOwners getService o rest).1,
            ((pre.filter
                (fun r2 => decide (r2.Kind = "Service" ∧
                  HasSuffix r2.Name "-repo-server" = true))).map
              (fun r2 => Read.getService { Name := r2.Name, Namespace := o.Namespace }))
              ++ (tlsSecretOwners getService o rest).2) := by
  intro pre
  induction pre with
  | nil =>
    intro _
    rfl
  | cons r2 rs ih =>
    intro hpre
    have hrest := ih (fun y hy => hpre y (List.mem_cons_of_mem _ hy))
    rw [List.cons_append]
    by_cases hc : r2.Kind = "Service" ∧ HasSuffix r2.Name "-repo-server" = true
    · obtain ⟨svc2, hget2, hnone2⟩ := hpre r2 (List.mem_cons_self _ _) hc.1 hc.2
      have hfind : svc2.OwnerReferences.find?
          (fun serviceOwner => serviceOwner.Kind = "ArgoCD") = none := by
        rw [List.find?_eq_none]
        intro x hx
        simpa using hnone2 x hx
      rw [tlsSecretOwners, if_pos hc]
      simp only [hget2, hfind]
      rw [hrest, List.filter_cons_of_pos (by simpa using hc)]
      rfl
    · rw [tlsSecretOwners_skip getService o r2 _ hc, hrest,
        List.filter_cons_of_neg (by simpa using hc)]

/-- The loop over the owners returns no request when no service named
`*-repo-server` among them is found with an owner of kind ArgoCD, whether the
lookups succeed or not. -/
theorem tlsSecretOwners_no_lead (getService : NamespacedName → Except Err Service)
    (o : Object) :
    ∀ refs : List OwnerReference,
      (∀ r ∈ refs, r.Kind = "Service" → HasSuffix r.Name "-repo-server" = true →
        ∀ svc, getService { Name := r.Name, Namespace := o.Namespace } = .ok svc →
          ∀ x ∈ svc.OwnerReferences, x.Kind ≠ "ArgoCD") →
      (tlsSecretOwners getService o refs).1 = [] := by
  intro refs
  induction refs with
  | nil =>
    intro _
    rfl
  | cons r rs ih =>
    intro h
    have hrest := ih (fun y hy => h y (List.mem_cons_of_mem _ hy))
    by_cases hc : r.Kind = "Service" ∧ HasSuffix r.Name "-repo-server" = true
    · cases hg : getService { Name := r.Name, Namespace := o.Namespace } with
      | error e =>
        rw [tlsSecretOwners, if_pos hc]
        simp only [hg]
      | ok svc =>
        rw [tlsSecretOwners_barren getService o r rs svc hc.1 hc.2 hg
          (h r (List.mem_cons_self _ _) hc.1 hc.2 svc hg)]
        exact hrest
    · rw [tlsSecretOwners_skip getService o r rs hc]
      exact hrest

/-- The reads of `tlsSecretMapper` are those of the loop over the owners. -/
theorem tlsSecretMapper_reads (c : Common) (getService : NamespacedName → Except Err Service)
    (o : Object) (r : Read) (hr : r ∈ (tlsSecretMapper c getService o).2) :
    tlsSecretMapper c getService o = tlsSecretOwners getService o o.OwnerReferences := by
  unfold tlsSecretMapper at hr ⊢
  by_cases hname : HasSuffix o.Name "-repo-server-tls" = true
  · by_cases hlen : o.OwnerReferences.length > 0
    · rw [hname, if_pos hlen]
      rfl
    · rw [hname, if_neg hlen] at hr
      exfalso
      simp only [Bool.not_true, Bool.false_eq_true, if_false] at hr
      split at hr
      · cases hr
      · split at hr
        · cases hr
        · cases hr
  · rw [Bool.not_eq_true] at hname
    rw [hname] at hr
    cases hr

/-! ## Claims about the gate and the failures of the mappers -/

/-- C21. Correlation failures degrade to no target. The mappers return a list
of requests and nothing else, so no error leaves them. In `tlsSecretMapper`,
when a lookup of a service that was issued has failed, the result is empty; the
first failed lookup ends the correlation: the owners before it were passed over
or their services had no owner of kind ArgoCD, the result is empty and the
failed lookup is the last read, whatever owner references come after it. In
`namespaceResourceMapper`, when the list of the specifications fails, the
result is empty, the list being the only read. -/
theorem mappers_degrade_on_failure (c : Common)
    (getService : NamespacedName → Except Err Service)
    (listArgoCD : String → Except Err (List ArgoCD)) (o : Object) :
    (∀ key err, Read.getService key ∈ (tlsSecretMapper c getService o).2 →
        getService key = .error err → (tlsSecretMapper c getService o).1 = []) ∧
      (∀ pre r post err, HasSuffix o.Name "-repo-server-tls" = true →
        o.OwnerReferences = pre ++ r :: post →
        r.Kind = "Service" → HasSuffix r.Name "-repo-server" = true →
        getService { Name := r.Name, Namespace := o.Namespace } = .error err →
        (∀ r2 ∈ pre, r2.Kind = "Service" → HasSuffix r2.Name "-repo-server" = true →
          ∃ svc2, getService { Name := r2.Name, Namespace := o.Namespace } = .ok svc2 ∧
            ∀ x ∈ svc2.OwnerReferences, x.Kind ≠ "ArgoCD") →
        tlsSecretMapper c getService o
          = ([], ((pre.filter
                (fun r2 => decide (r2.Kind = "Service" ∧
                  HasSuffix r2.Name "-repo-server" = true))).map
              (fun r2 => Read.getService { Name := r2.Name, Namespace := o.Namespace }))
              ++ [Read.getService { Name := r.Name, Namespace := o.Namespace }])) ∧
      (∀ v err, Read.listArgoCD v ∈ (namespaceResourceMapper c listArgoCD o).2 →
        listArgoCD v = .error err → (namespaceResourceMapper c listArgoCD o).1 = []) ∧
      (∀ v err, mapGet o.Labels c.ArgoCDManagedByLabel = some v →
        listArgoCD v = .error err →
        namespaceResourceMapper c listArgoCD o = ([], [Read.listArgoCD v])) := by
  refine ⟨?_, ?_, ?_, ?_⟩
  · intro key err hmem hfail
    have heq := tlsSecretMapper_reads c getService o _ hmem
    rw [heq] at hmem ⊢
    exact tlsSecretOwners_failed getService o key err hfail o.OwnerReferences hmem
  · intro pre r post err hname hsplit hk hs hfail hpre
    have hrefs : o.OwnerReferences ≠ [] := by
      rw [hsplit]
      exact List.append_ne_nil_of_right_ne_nil _ (List.cons_ne_nil _ _)
    have hlast : tlsSecretOwners getService o (r :: post)
        = ([], [Read.getService { Name := r.Name, Namespace := o.Namespace }]) := by
      rw [tlsSecretOwners, if_pos ⟨hk, hs⟩]
      simp only [hfail]
    rw [tlsSecretMapper_owned c getService o hname hrefs, hsplit,
      tlsSecretOwners_prefix getService o (r :: post) pre hpre, hlast]
  · intro v err hmem hfail
    unfold namespaceResourceMapper at hmem ⊢
    cases hl : mapGet o.Labels c.ArgoCDManagedByLabel with
    | none =>
      simp only [hl] at hmem
      cases hmem
    | some v2 =>
      simp only [hl] at hmem ⊢
      cases hlist : listArgoCD v2 with
      | error e => simp only [hlist]
      | ok items =>
        exfalso
        have hv : v = v2 := by
          simp only [hlist] at hmem
          split at hmem
          · simpa using hmem
          · simpa using hmem
        rw [hv, hlist] at hfail
        cases hfail
  · intro v err hl hfail
    unfold namespaceResourceMapper
    rw [hl]
    simp only [hfail]

/-- C21 on a TLS secret owned by two services: the first is not in the store,
the second is the repo server owned by the specification `argocd`. The failed
lookup of the first ends the correlation, although the second owner alone
resolves to the specification. -/
theorem mappers_degrade_on_failure_witness :
    tlsSecretMapper demoCommon demoServices
        { demoTLSSecret with
          OwnerReferences := [demoOwner "Service" "broken-repo-server",
            demoOwner "Service" "argocd-repo-server"] }
        = ([], [Read.getService { Name := "broken-repo-server", Namespace := "argocd" }]) ∧
      (tlsSecretMapper demoCommon demoServices
        { demoTLSSecret with
          OwnerReferences := [demoOwner "Service" "argocd-repo-server"] }).1
        = [{ NamespacedName := { Name := "argocd", Namespace := "argocd" } }] :=
  ⟨(mappers_degrade_on_failure demoCommon demoServices (fun _ => .ok [])
      { demoTLSSecret with
        OwnerReferences := [demoOwner "Service" "broken-repo-server",
          demoOwner "Service" "argocd-repo-server"] }).2.1
      [] (demoOwner "Service" "broken-repo-server") [demoOwner "Service" "argocd-repo-server"]
      .notFound (by decide) (by rfl) (by rfl) (by decide) (by rfl)
      (by
        intro r2 hr2
        cases hr2),
    by rfl⟩

/-- C22. The suffix gate. For every object whose name does not end with
`-repo-server-tls`, `tlsSecretMapper` returns the empty list and reads nothing
from the store, whatever owner references and annotations the object carries. -/
theorem tlsSecretMapper_suffix_gate (c : Common)
    (getService : NamespacedName → Except Err Service) (o : Object)
    (hname : HasSuffix o.Name "-repo-server-tls" = false) :
    tlsSecretMapper c getService o = ([], []) := by
  unfold tlsSecretMapper
  rw [hname]
  rfl

/-- C22 on a secret of another name that carries the owner reference and the
annotation of the specification. -/
theorem tlsSecretMapper_suffix_gate_witness :
    tlsSecretMapper demoCommon demoServices
        { demoTLSSecret with
          Name := "argocd-secret",
          Annotations := [("argocds.argoproj.io/name", "argocd")] }
      = ([], []) :=
  tlsSecretMapper_suffix_gate demoCommon demoServices
    { demoTLSSecret with
      Name := "argocd-secret",
      Annotations := [("argocds.argoproj.io/name", "argocd")] }
    (by decide)

/-- C25. The annotation fallback of `tlsSecretMapper` is for secrets without
owner reference only. For every secret whose name ends with `-repo-server-tls`
and that has at least one owner reference, none of which leads through a
service named `*-repo-server` to an owner of kind ArgoCD (the lookup fails, or
the service has no such owner): the result is the empty list, whatever the
annotations of the secret, a non-empty owner-name annotation included. -/
theorem tlsSecretMapper_no_fallback_when_owned (c : Common)
    (getService : NamespacedName → Except Err Service) (o : Object)
    (hname : HasSuffix o.Name "-repo-server-tls" = true)
    (hrefs : o.OwnerReferences ≠ [])
    (hnone : ∀ r ∈ o.OwnerReferences, r.Kind = "Service" →
      HasSuffix r.Name "-repo-server" = true →
      ∀ svc, getService { Name := r.Name, Namespace := o.Namespace } = .ok svc →
        ∀ x ∈ svc.OwnerReferences, x.Kind ≠ "ArgoCD") :
    (tlsSecretMapper c getService o).1 = [] ∧
      ∀ annotations : StrMap,
        (tlsSecretMapper c getService { o with Annotations := annotations }).1 = [] := by
  constructor
  · rw [tlsSecretMapper_owned c getService o hname hrefs]
    exact tlsSecretOwners_no_lead getService o o.OwnerReferences hnone
  · intro annotations
    rw [tlsSecretMapper_owned c getService { o with Annotations := annotations } hname hrefs]
    exact tlsSecretOwners_no_lead getService { o with Annotations := annotations }
      o.OwnerReferences hnone

/-- C25 on a TLS secret annotated with the specification `argocd` and owned by
a service of the repo server whose only owner is a deployment. -/
theorem tlsSecretMapper_no_fallback_when_owned_witness :
    (tlsSecretMapper demoCommon
        (fun key => .ok { Name := key.Name, Namespace := key.Namespace,
                          OwnerReferences := [demoOwner "Deployment" "argocd-repo-server"] })
        { demoTLSSecret with
          OwnerReferences := [demoOwner "Service" "argocd-repo-server"],
          Annotations := [("argocds.argoproj.io/name", "argocd")] }).1
      = [] :=
  (tlsSecretMapper_no_fallback_when_owned demoCommon
    (fun key => .ok { Name := key.Name, Namespace := key.Namespace,
                      OwnerReferences := [demoOwner "Deployment" "argocd-repo-server"] })
    { demoTLSSecret with
      OwnerReferences := [demoOwner "Service" "argocd-repo-server"],
      Annotations := [("argocds.argoproj.io/name", "argocd")] }
    (by decide) (by decide)
    (by
      intro r _ _ _ svc hg x hx
      cases hg
      rw [List.mem_singleton] at hx
      subst hx
      decide)).1

end ArgoCDOperator
